import Mathlib

/-!
Verification of the SPIR-V shader-module front end
(`shaderModuleSpirV.cxx` from the Panda3D repository).

The development shallowly embeds the C++ code: the binary instruction
stream is a `List Nat` of 32-bit words (words are kept below `2 ^ 32` by
the well-formedness hypotheses of the theorems that need it), structured
instructions are an opcode together with a list of argument words, the
per-ID symbol table is a `List Definition`, and the `BitArray` location
bitmaps are `Nat` bit masks.  Functions declared in headers that are not
part of the sources at hand (the `InstructionStream` mutators, `BitArray`
queries, the `ShaderModule` base-class accessors) are modelled from the
design document and marked as such in their doc comments.
-/

set_option maxHeartbeats 4000000
set_option maxRecDepth 4096

namespace SpirV

/-! ## SPIR-V numeric constants (from spirv.h, as used by the C++ code) -/

def spvMagicNumber : Nat := 0x07230203

def opNop : Nat := 0
def opSourceContinued : Nat := 2
def opSource : Nat := 3
def opSourceExtension : Nat := 4
def opName : Nat := 5
def opMemberName : Nat := 6
def opString : Nat := 7
def opLine : Nat := 8
def opExtension : Nat := 10
def opExtInstImport : Nat := 11
def opMemoryModel : Nat := 14
def opEntryPoint : Nat := 15
def opExecutionMode : Nat := 16
def opCapability : Nat := 17
def opTypeVoid : Nat := 19
def opTypeBool : Nat := 20
def opTypeInt : Nat := 21
def opTypeFloat : Nat := 22
def opTypeVector : Nat := 23
def opTypeMatrix : Nat := 24
def opTypeImage : Nat := 25
def opTypeSampler : Nat := 26
def opTypeSampledImage : Nat := 27
def opTypeArray : Nat := 28
def opTypeStruct : Nat := 30
def opTypePointer : Nat := 32
def opConstant : Nat := 43
def opVariable : Nat := 59
def opLoad : Nat := 61
def opStore : Nat := 62
def opCopyMemory : Nat := 63
def opAccessChain : Nat := 65
def opInBoundsAccessChain : Nat := 66
def opDecorate : Nat := 71
def opMemberDecorate : Nat := 72
def opDecorationGroup : Nat := 73
def opGroupDecorate : Nat := 74
def opGroupMemberDecorate : Nat := 75
def opNoLine : Nat := 317
def opModuleProcessed : Nat := 330

def decBuiltIn : Nat := 11
def decLocation : Nat := 30

def scUniformConstant : Nat := 0
def scInput : Nat := 1
def scUniform : Nat := 2
def scOutput : Nat := 3

def addressingModelLogical : Nat := 0
def memoryModelGLSL450 : Nat := 1

/-- `SpvBuiltInMax`, the sentinel for "not a built-in". -/
def builtinMax : Nat := 0x7fffffff

/-- `ShaderModule::Stage::vertex` has enumerator value 0.
Modelled from the spec: the stage enum lives in the shader-module base
abstraction; only its strict ordering and the vertex member matter here. -/
def stageVertex : Nat := 0

/-! ## Word-level instruction stream and `InstructionStream::strip`

A SPIR-V module is a 5-word header followed by variable-length
instructions.  Word 0 of each instruction packs the word count in the
high 16 bits (`SpvWordCountShift = 16`) and the opcode in the low 16
bits (`SpvOpCodeMask = 0xffff`); `w / 65536` and `w % 65536` are the
shift and the mask on non-negative words. -/

/-- The debug/metadata opcodes removed by `InstructionStream::strip`
(the exact list from the C++ `strip`). -/
def isDebugOp (op : Nat) : Bool :=
  op == opNop || op == opSourceContinued || op == opSource ||
  op == opSourceExtension || op == opName || op == opMemberName ||
  op == opString || op == opLine || op == opNoLine || op == opModuleProcessed

/-- The instruction-copying loop of `InstructionStream::strip`: walk the
words after the header, reading each instruction's word count and opcode
from its first word, and keep exactly the non-debug instructions
byte-for-byte.  A zero word count stops the loop with the copy made so
far (the `nassertr` in the C++). -/
def stripBody : List Nat → List Nat
  | [] => []
  | w :: rest =>
    let wcount := w / 65536
    if wcount = 0 then []
    else if isDebugOp (w % 65536) then
      stripBody (List.drop (wcount - 1) rest)
    else
      List.take wcount (w :: rest) ++ stripBody (List.drop (wcount - 1) rest)
termination_by l => l.length
decreasing_by
  all_goals simp [List.length_drop]; omega

/-- `InstructionStream::strip`: copy the 5-word header, then every
non-debug instruction. -/
def stripStream (ws : List Nat) : List Nat :=
  List.take 5 ws ++ stripBody (List.drop 5 ws)

/-- A well-formed instruction encoding: a nonempty word list whose first
word's high 16 bits equal the total word count. -/
def isChunk (c : List Nat) : Bool :=
  match c with
  | [] => false
  | w :: _ => w / 65536 == c.length

/-- Opcode of an encoded instruction. -/
def chunkOpcode (c : List Nat) : Nat := (c.headD 0) % 65536

/-- An instruction survives `strip` iff its opcode is not a debug opcode. -/
def keepChunk (c : List Nat) : Bool := !isDebugOp (chunkOpcode c)

/-- Concatenate encoded instructions into the body of a module. -/
def joinChunks (cs : List (List Nat)) : List Nat := cs.flatten

/-- Build one encoded instruction from opcode and arguments
(word 0 packs word count and opcode). -/
def mkChunk (op : Nat) (args : List Nat) : List Nat :=
  ((args.length + 1) * 65536 + op) :: args

/-- Example module header: magic, version 1.0, generator 0, bound 8, schema 0. -/
def exHeader : List Nat := [spvMagicNumber, 0x10000, 0, 8, 0]

/-- Example module body: a capability, a debug name, and a decoration. -/
def exChunks : List (List Nat) :=
  [mkChunk opCapability [1], mkChunk opName [4, 1885433462],
   mkChunk opDecorate [4, 30, 0]]

/-! ## Semantic shader types and the per-ID definition table -/

inductive ScalarKind where
  | sBool | sInt | sUint | sFloat
deriving DecidableEq, Repr

mutual
/-- Interned semantic types (`ShaderType`).  `register_type` interning
makes C++ pointer equality coincide with structural equality, which is how
type handles are compared here.  A nullable `const ShaderType *` is an
`OptTy`.  Texture shapes and image access qualifiers are enumerators of
external collaborator enums, kept as opaque numerals. -/
inductive ShaderTy where
  | bool | int | uint | float | sampler
  | vector (k : ScalarKind) (n : Nat)
  | matrix (k : ScalarKind) (rows cols : Nat)
  | image (tt acc : Nat)
  | sampledImage (tt : Nat)
  | array (elem : ShaderTy) (size : Nat)
  | struct (members : MemberListT)
deriving DecidableEq
/-- The member list of a `ShaderType::Struct`: each member has a nullable
type handle and a name. -/
inductive MemberListT where
  | nil
  | cons (mt : OptTy) (mname : String) (rest : MemberListT)
deriving DecidableEq
/-- A nullable `const ShaderType *`. -/
inductive OptTy where
  | none
  | some (t : ShaderTy)
deriving DecidableEq
end

/-- View a member list as a `List`. -/
def memberList : MemberListT → List (OptTy × String)
  | .nil => []
  | .cons mt mn rest => (mt, mn) :: memberList rest

/-- Build a member list from a `List`. -/
def membersOfList : List (OptTy × String) → MemberListT
  | [] => .nil
  | (mt, mn) :: rest => .cons mt mn (membersOfList rest)

/-- The `DCAST` to `ShaderType::Scalar`: succeeds exactly on the four
registered scalar types. -/
def asScalar : OptTy → Option ScalarKind
  | .some .bool => some .sBool
  | .some .int => some .sInt
  | .some .uint => some .sUint
  | .some .float => some .sFloat
  | _ => none

/-- The `Definition::_dtype` discriminant. -/
inductive DType where
  | dNone | dType | dTypePointer | dVariable | dConstant
deriving DecidableEq, Repr

/-- One symbol-table entry per SPIR-V numeric ID
(`ShaderModuleSpirV::Definition`).  Field defaults are modelled from the
spec: location −1 means unassigned and the built-in tag defaults to the
"not a built-in" sentinel `SpvBuiltInMax`. -/
structure Definition where
  dtype : DType := .dNone
  ttype : OptTy := .none
  name : String := ""
  memberNames : List String := []
  storageClass : Nat := 0
  location : Int := -1
  builtin : Nat := builtinMax
  constant : Nat := 0
deriving DecidableEq

/-- Read `defs[id]` (out-of-range indices are out-of-bounds accesses on the
C++ side; the theorems' hypotheses keep indices in range). -/
def getDef (defs : List Definition) (id : Nat) : Definition := defs.getD id {}

/-- Mutate `defs[id]` in place. -/
def updDef (defs : List Definition) (id : Nat) (f : Definition → Definition) :
    List Definition :=
  defs.set id (f (getDef defs id))

/-- The C++ `(int)` reinterpretation of a `uint32_t` word. -/
def u32ToInt (w : Nat) : Int :=
  if w < 2 ^ 31 then (w : Int) else (w : Int) - 2 ^ 32

/-- The C++ `(uint32_t)` conversion of an `int`. -/
def intToU32 (i : Int) : Nat := (i % 2 ^ 32).toNat

/-- Modelled from the spec: debug-name operands are null-terminated byte
strings packed into words, read through a `const char *` reinterpretation.
The exact decoding is irrelevant to every claim; only injectivity on the
names actually used matters, and the theorems never rely even on that. -/
def wordBytes (w : Nat) : List Nat :=
  [w % 256, w / 256 % 256, w / 65536 % 256, w / 16777216 % 256]

/-- Decode a null-terminated string from argument words. -/
def decodeWords (ws : List Nat) : String :=
  String.mk (((ws.flatMap wordBytes).takeWhile (fun b => b != 0)).map Char.ofNat)

/-- Modelled from the spec: the external texture-shape enumeration; only
the distinctness of the enumerators is relevant. -/
def ttTex1d : Nat := 0
def ttTex2d : Nat := 1
def ttTex3d : Nat := 2
def ttTex2dArray : Nat := 3
def ttCubeMap : Nat := 4
def ttBufferTexture : Nat := 5
def ttCubeMapArray : Nat := 6
def ttTex1dArray : Nat := 7

/-- Modelled from the spec: image access qualifiers. -/
def accReadOnly : Nat := 0
def accWriteOnly : Nat := 1
def accReadWrite : Nat := 2
def accUnknown : Nat := 3

/-- `Definition::set_type`. -/
def setTypeD (t : OptTy) (d : Definition) : Definition :=
  {d with dtype := .dType, ttype := t}

/-- `Definition::set_member_name`: grow the member-name list to fit the
index, then assign. -/
def setMemberName (d : Definition) (i : Nat) (s : String) : Definition :=
  let ns := if d.memberNames.length ≤ i
    then d.memberNames ++ List.replicate (i + 1 - d.memberNames.length) ""
    else d.memberNames
  {d with memberNames := ns.set i s}

/-- The `SpvDim` → texture-shape mapping in the `OpTypeImage` case; `none`
for the rect (4), sub-pass (6) and unknown dimensionalities, which are
hard parse failures. -/
def texTypeOfDim (dim arrayed : Nat) : Option Nat :=
  if dim = 0 then some (if arrayed ≠ 0 then ttTex1dArray else ttTex1d)
  else if dim = 1 then some (if arrayed ≠ 0 then ttTex2dArray else ttTex2d)
  else if dim = 2 then some ttTex3d
  else if dim = 3 then some (if arrayed ≠ 0 then ttCubeMapArray else ttCubeMap)
  else if dim = 5 then some ttBufferTexture
  else none

/-- The access-qualifier mapping of `OpTypeImage`; an invalid qualifier
logs an error but falls through with access unknown. -/
def accOfQual (q : Nat) : Nat :=
  if q = 0 then accReadOnly else if q = 1 then accWriteOnly
  else if q = 2 then accReadWrite else accUnknown

/-! ## The instruction parser -/

/-- `ShaderModuleSpirV::parse_instruction`: interpret one instruction,
updating the definition table; `none` models `return false`.  Opcodes
outside the C++ `switch` fall through and succeed.  Argument reads beyond
the instruction's actual length are out-of-bounds in the C++ and read 0
here; the theorems' hypotheses keep instructions well-sized. -/
def parseInstruction (defs : List Definition) (opcode : Nat) (args : List Nat) :
    Option (List Definition) :=
  if opcode = opMemoryModel then
    if args.getD 0 0 ≠ addressingModelLogical then none
    else if args.getD 1 0 ≠ memoryModelGLSL450 then none
    else some defs
  else if opcode = opName then
    some (updDef defs (args.getD 0 0) (fun d => {d with name := decodeWords (args.drop 1)}))
  else if opcode = opMemberName then
    some (updDef defs (args.getD 0 0) (fun d => setMemberName d (args.getD 1 0) (decodeWords (args.drop 2))))
  else if opcode = opTypeVoid then
    some (updDef defs (args.getD 0 0) (setTypeD .none))
  else if opcode = opTypeBool then
    some (updDef defs (args.getD 0 0) (setTypeD (.some .bool)))
  else if opcode = opTypeInt then
    some (updDef defs (args.getD 0 0) (setTypeD (.some (if args.getD 2 0 ≠ 0 then .int else .uint))))
  else if opcode = opTypeFloat then
    some (updDef defs (args.getD 0 0) (setTypeD (.some .float)))
  else if opcode = opTypeVector then
    match asScalar (getDef defs (args.getD 1 0)).ttype with
    | some k => some (updDef defs (args.getD 0 0) (setTypeD (.some (.vector k (args.getD 2 0)))))
    | none => none
  else if opcode = opTypeMatrix then
    match (getDef defs (args.getD 1 0)).ttype with
    | .some (.vector k n) =>
      some (updDef defs (args.getD 0 0) (setTypeD (.some (.matrix k (args.getD 2 0) n))))
    | _ => none
  else if opcode = opTypePointer then
    some (updDef defs (args.getD 0 0)
      (fun d => {d with dtype := .dTypePointer, ttype := (getDef defs (args.getD 2 0)).ttype}))
  else if opcode = opTypeImage then
    match texTypeOfDim (args.getD 2 0) (args.getD 4 0) with
    | none => none
    | some tt =>
      let acc := if 8 < args.length then accOfQual (args.getD 8 0) else accUnknown
      some (updDef defs (args.getD 0 0) (setTypeD (.some (.image tt acc))))
  else if opcode = opTypeSampler then
    some (updDef defs (args.getD 0 0) (setTypeD (.some .sampler)))
  else if opcode = opTypeSampledImage then
    match (getDef defs (args.getD 1 0)).ttype with
    | .some (.image tt _) =>
      some (updDef defs (args.getD 0 0) (setTypeD (.some (.sampledImage tt))))
    | _ => none
  else if opcode = opTypeArray then
    match (getDef defs (args.getD 1 0)).ttype with
    | .some t =>
      some (updDef defs (args.getD 0 0)
        (setTypeD (.some (.array t (getDef defs (args.getD 2 0)).constant))))
    | .none => some defs
  else if opcode = opTypeStruct then
    let members := (List.range (args.length - 1)).map
      (fun i => ((getDef defs (args.getD (i + 1) 0)).ttype,
                 (getDef defs (args.getD 0 0)).memberNames.getD i ""))
    some (updDef defs (args.getD 0 0) (setTypeD (.some (.struct (membersOfList members)))))
  else if opcode = opConstant then
    some (updDef defs (args.getD 1 0) (fun d =>
      {d with dtype := .dConstant, ttype := (getDef defs (args.getD 0 0)).ttype,
              constant := args.getD 2 0}))
  else if opcode = opVariable then
    let ptr := getDef defs (args.getD 0 0)
    if ptr.dtype ≠ .dTypePointer then none
    else some (updDef defs (args.getD 1 0) (fun d =>
      {d with dtype := .dVariable, ttype := ptr.ttype, storageClass := args.getD 2 0}))
  else if opcode = opDecorate then
    if args.getD 1 0 = decBuiltIn then
      some (updDef defs (args.getD 0 0) (fun d => {d with builtin := args.getD 2 0}))
    else if args.getD 1 0 = decLocation then
      some (updDef defs (args.getD 0 0) (fun d => {d with location := u32ToInt (args.getD 2 0)}))
    else some defs
  else some defs

/-- The instruction loop of `parse`, walking the body words with the word
count read from each instruction's first word.  The fuel argument makes
the recursion structural; `parseBody` supplies enough fuel for every step
(each instruction consumes at least one word), so the fuel-exhausted arm
is unreachable.  A zero word count is a malformed stream. -/
def parseBodyAux (defs : List Definition) : Nat → List Nat → Option (List Definition)
  | _, [] => some defs
  | 0, _ :: _ => none
  | fuel + 1, w :: rest =>
    let wcount := w / 65536
    if wcount = 0 then none
    else match parseInstruction defs (w % 65536) (List.take (wcount - 1) rest) with
      | none => none
      | some defs2 => parseBodyAux defs2 fuel (List.drop (wcount - 1) rest)

/-- Run `parse_instruction` over every instruction of the body. -/
def parseBody (defs : List Definition) (ws : List Nat) : Option (List Definition) :=
  parseBodyAux defs ws.length ws

/-- `ShaderModuleSpirV::parse`: validate the 5-word header (length and
magic number), size the definition table by the header's ID bound, then
run the single pass over the instructions. -/
def parse (ws : List Nat) : Option (List Definition) :=
  if ws.length < 5 then none
  else if ws.headD 0 ≠ spvMagicNumber then none
  else parseBody (List.replicate (ws.getD 3 0) {}) (ws.drop 5)

/-- An instruction whose memory-model operands violate the logical
addressing model or the GLSL450 memory model requirement. -/
def badMemModel (c : List Nat) : Bool :=
  chunkOpcode c == opMemoryModel &&
    (!(c.getD 1 0 == addressingModelLogical) || !(c.getD 2 0 == memoryModelGLSL450))

/-- A module whose single instruction is an `OpTypeArray` whose element
type ID (2) never received a type: ID bound 10, one instruction. -/
def exArrayModule : List Nat :=
  [spvMagicNumber, 0x10000, 0, 10, 0] ++ joinChunks [mkChunk opTypeArray [1, 2, 3]]

/-! ## Location bitmaps

Modelled from the spec: the Location Assigner "builds three bitmaps …
by scanning every Definition and setting the bits corresponding to
already-assigned locations".  A bitmap is a `Nat` used as a bit set; the
`BitArray` queries follow their documented semantics —
`get_lowest_off_bit` is the lowest clear bit,
`get_next_higher_different_bit` is the lowest bit above the given one
whose value differs from the given bit's value (the given bit itself when
no such bit exists), `has_any_of` tests a bit range, and
`set_bit`/`set_range` set one bit or a contiguous run. -/

def setBit (m i : Nat) : Nat := m ||| 2 ^ i

def setRange (m low count : Nat) : Nat := m ||| (2 ^ count - 1) <<< low

def hasAnyOf (m low count : Nat) : Bool :=
  (List.range count).any (fun j => m.testBit (low + j))

/-- Linear upward search for the first bit whose value differs from `v`,
starting at `k`.  The fuel keeps the recursion structural; every caller
passes enough fuel, since a `Nat` mask has no set bits at or above its
bit length. -/
def searchBit (m : Nat) (v : Bool) : Nat → Nat → Nat
  | 0, k => k
  | fuel + 1, k => if m.testBit k == v then searchBit m v fuel (k + 1) else k

/-- `BitArray::get_lowest_off_bit`. -/
def lowestOffBit (m : Nat) : Nat := searchBit m true (m + 2) 0

/-- `BitArray::get_next_higher_different_bit`. -/
def nextHigherDifferentBit (m low : Nat) : Nat :=
  if !m.testBit low && m >>> (low + 1) = 0 then low
  else searchBit m (m.testBit low) (m + 2) (low + 1)

/-- The `while` loop of the uniform-constant branch of `assign_locations`:
while more than one location is needed and the candidate range overlaps a
used bit, hop to the start of the next free gap
(`get_next_higher_different_bit` twice).  Fuel-driven; the exit lemmas
show the supplied fuel always reaches the loop's exit condition. -/
def findRunAux (m num : Nat) : Nat → Nat → Nat
  | 0, loc => loc
  | fuel + 1, loc =>
    if 1 < num ∧ hasAnyOf m loc num = true then
      findRunAux m num fuel (nextHigherDifferentBit m (nextHigherDifferentBit m loc))
    else loc

/-- Location chosen for a uniform-constant variable needing `num`
consecutive locations. -/
def assignUniformLocation (m num : Nat) : Nat :=
  findRunAux m num (m + 2) (lowestOffBit m)

/-! ## `assign_locations` -/

/-- A structured instruction: opcode plus the argument words following the
packed count/opcode word. -/
structure Instr where
  opcode : Nat
  args : List Nat
deriving DecidableEq, Repr

/-- The three location bitmaps of `assign_locations`. -/
structure AMasks where
  inp : Nat
  outp : Nat
  uni : Nat
deriving DecidableEq, Repr

/-- `def._type ? def._type->get_num_parameter_locations() : 1`.  The
count itself belongs to the external `ShaderType` collaborators, so it is
a parameter `npl` of the embedding. -/
def paramLocs (npl : ShaderTy → Nat) : OptTy → Nat
  | .none => 1
  | .some t => npl t

/-- A non-built-in input/output/uniform-constant variable definition with
no location yet: exactly the definitions `assign_locations` serves. -/
def needsLocation (d : Definition) : Bool :=
  d.dtype == .dVariable && decide (d.location < 0) && d.builtin == builtinMax &&
    (d.storageClass == scInput || d.storageClass == scOutput ||
     d.storageClass == scUniformConstant)

/-- One step of the first scan of `assign_locations`: record an assigned
location in the bitmap of its storage class, or raise the
has-unassigned-locations flag. -/
def scanDef (npl : ShaderTy → Nat) (st : AMasks × Bool) (d : Definition) :
    AMasks × Bool :=
  if d.dtype = .dVariable then
    if d.location < 0 then
      if needsLocation d then (st.1, true) else st
    else if d.storageClass = scInput then
      ({st.1 with inp := setBit st.1.inp d.location.toNat}, st.2)
    else if d.storageClass = scOutput then
      ({st.1 with outp := setBit st.1.outp d.location.toNat}, st.2)
    else if d.storageClass = scUniformConstant then
      ({st.1 with uni := setRange st.1.uni d.location.toNat (paramLocs npl d.ttype)}, st.2)
    else st
  else st

/-- The first scan of `assign_locations`. -/
def buildMasks (npl : ShaderTy → Nat) (defs : List Definition) : AMasks × Bool :=
  defs.foldl (scanDef npl) (⟨0, 0, 0⟩, false)

/-- The leading annotation-block opcodes that `assign_locations` skips to
find the insertion point for new decorations. -/
def isAnnotOp (op : Nat) : Bool :=
  op == opNop || op == opCapability || op == opExtension ||
  op == opExtInstImport || op == opMemoryModel || op == opEntryPoint ||
  op == opExecutionMode || op == opString || op == opSourceExtension ||
  op == opSource || op == opSourceContinued || op == opName ||
  op == opMemberName || op == opModuleProcessed || op == opDecorate ||
  op == opMemberDecorate || op == opGroupDecorate ||
  op == opGroupMemberDecorate || op == opDecorationGroup

/-- Index of the first instruction past the leading annotation block. -/
def annotEnd (instrs : List Instr) : Nat :=
  (instrs.takeWhile (fun i => isAnnotOp i.opcode)).length

/-- The names given location 0 preferentially in the vertex stage. -/
def isVertexAlias (s : String) : Bool :=
  s == "vertex" || s == "p3d_Vertex" || s == "vtx_position"

/-- The input-storage-class location choice of `assign_locations`. -/
def assignInputLocation (stage : Nat) (mask : Nat) (nm : String) : Nat :=
  if stage = stageVertex ∧ mask.testBit 0 = false then
    if isVertexAlias nm then 0
    else if mask.testBit 1 = false then 1
    else nextHigherDifferentBit mask 1
  else lowestOffBit mask

/-- The location choice and bitmap update of `assign_locations` for one
definition; `none` when the definition gets no location (already located,
built-in, or an unhandled storage class — the `continue`).  In the
uniform-constant branch the C++ dereferences the definition's type for
the location count; `paramLocs` totalizes the null case the same way the
first scan does. -/
def assignStep (stage : Nat) (npl : ShaderTy → Nat) (st : AMasks) (d : Definition) :
    Option (Nat × AMasks) :=
  if d.dtype = .dVariable ∧ d.location < 0 ∧ d.builtin = builtinMax then
    if d.storageClass = scInput then
      let loc := assignInputLocation stage st.inp d.name
      some (loc, {st with inp := setBit st.inp loc})
    else if d.storageClass = scOutput then
      let loc := lowestOffBit st.outp
      some (loc, {st with outp := setBit st.outp loc})
    else if d.storageClass = scUniformConstant then
      let num := paramLocs npl d.ttype
      let loc := assignUniformLocation st.uni num
      some (loc, {st with uni := setRange st.uni loc num})
    else none
  else none

/-- The decoration-inserting loop of `assign_locations`: walk the table in
ID order; every definition that receives a location is updated and a
matching `OpDecorate ... Location` instruction is emitted, in order. -/
def assignLoop (stage : Nat) (npl : ShaderTy → Nat) :
    AMasks → Nat → List Definition → List Definition × List Instr
  | _, _, [] => ([], [])
  | st, id, d :: rest =>
    match assignStep stage npl st d with
    | some (loc, st2) =>
      let res := assignLoop stage npl st2 (id + 1) rest
      ({d with location := (loc : Int)} :: res.1,
       Instr.mk opDecorate [id, decLocation, loc] :: res.2)
    | none =>
      let res := assignLoop stage npl st (id + 1) rest
      (d :: res.1, res.2)

/-- `ShaderModuleSpirV::assign_locations`: scan the table, return
unchanged if nothing needs a location, otherwise insert the new
decorations right after the leading annotation block. -/
def assignLocations (stage : Nat) (npl : ShaderTy → Nat)
    (defs : List Definition) (instrs : List Instr) :
    List Definition × List Instr :=
  if (buildMasks npl defs).2 = false then (defs, instrs)
  else
    ((assignLoop stage npl (buildMasks npl defs).1 0 defs).1,
     instrs.take (annotEnd instrs)
       ++ (assignLoop stage npl (buildMasks npl defs).1 0 defs).2
       ++ instrs.drop (annotEnd instrs))

/-- A definition that receives a uniform-constant location from
`assign_locations`. -/
def qualUC (d : Definition) : Bool :=
  d.dtype == .dVariable && decide (d.location < 0) && d.builtin == builtinMax &&
    d.storageClass == scUniformConstant

/-- A uniform-constant variable whose location was assigned before
`assign_locations` runs. -/
def preUC (d : Definition) : Bool :=
  d.dtype == .dVariable && decide (0 ≤ d.location) &&
    d.storageClass == scUniformConstant

/-- Example: an input variable definition with no location. -/
def exInDef : Definition :=
  ⟨.dVariable, .none, "color", [], scInput, -1, builtinMax, 0⟩

/-- Example: two unassigned uniform-constant definitions and one whose
location 1 is pre-assigned. -/
def exUcDef : Definition :=
  ⟨.dVariable, .some .float, "u0", [], scUniformConstant, -1, builtinMax, 0⟩
def exUcDef2 : Definition :=
  ⟨.dVariable, .some .float, "u1", [], scUniformConstant, -1, builtinMax, 0⟩
def exUcPre : Definition :=
  ⟨.dVariable, .some .float, "upre", [], scUniformConstant, 1, builtinMax, 0⟩

/-- Example definition table for the uniform-range theorem. -/
def exDefsC4 : List Definition := [exUcDef, exUcDef2, exUcPre]

/-! ## `remap_locations` -/

/-- Placeholder instruction used as the default of `getD` reads. -/
def noInstr : Instr := ⟨0, []⟩

/-- State of the single pass of `remap_locations`: the instructions
emitted so far and, per decorated ID, the position in the emitted prefix
of the latest location decoration targeting it (modelling the stored
`uint32_t *` into the bytecode). -/
structure RState where
  done : List Instr
  decs : List (Nat × Nat)

/-- Overwrite the location value (argument 2) of a decoration. -/
def setArg2 (op : Instr) (w : Nat) : Instr :=
  ⟨op.opcode, op.args.set 2 w⟩

/-- The write-back of `remap_locations` at a variable instruction: given
the recorded position of the variable's location decoration (if any),
rewrite that decoration's value through the map.  The C++ casts the
stored `uint32_t` word to `int` for the map lookup and the mapped `int`
back to `uint32_t` for the write. -/
def remapWrite (m : List (Int × Int)) (done : List Instr) : Option Nat → List Instr
  | none => done
  | some j =>
    match m.lookup (u32ToInt ((done.getD j noInstr).args.getD 2 0)) with
    | some w => done.set j (setArg2 (done.getD j noInstr) (intToU32 w))
    | none => done

/-- One step of `remap_locations`: record every location decoration with
at least 3 arguments; at a variable of the requested storage class, look
its decoration up and rewrite through the map. -/
def remapStep (sc : Nat) (m : List (Int × Int)) (st : RState) (op : Instr) : RState :=
  if op.opcode = opDecorate ∧ op.args.getD 1 0 = decLocation ∧ 3 ≤ op.args.length then
    ⟨st.done ++ [op], (op.args.getD 0 0, st.done.length) :: st.decs⟩
  else if op.opcode = opVariable ∧ op.args.getD 2 0 = sc then
    ⟨remapWrite m st.done (st.decs.lookup (op.args.getD 1 0)) ++ [op], st.decs⟩
  else ⟨st.done ++ [op], st.decs⟩

/-- `ShaderModuleSpirV::remap_locations`. -/
def remapLocations (sc : Nat) (m : List (Int × Int)) (instrs : List Instr) :
    List Instr :=
  (instrs.foldl (remapStep sc m) ⟨[], []⟩).done

/-! ## `link_inputs`

The `Variable` record, `has_location`, `find_output`/`get_output`, the
stage accessor and the `is_of_type` kind test belong to the shader-module
base abstraction outside the sources at hand; they are modelled from the
spec: a variable exposes a semantic type, a name and an assigned location
(negative = unassigned), outputs are looked up by name, and module
comparability is a capability flag. -/

structure SVariable where
  name : String
  location : Int
deriving DecidableEq, Repr

/-- The published part of a SPIR-V shader module that `link_inputs`
touches: the kind capability, the stage, the derived input and output
variable lists, and the instruction stream. -/
structure SpvModule where
  isSpirv : Bool
  stage : Nat
  inputs : List SVariable
  outputs : List SVariable
  instrs : List Instr
deriving DecidableEq

/-- Modelled from the spec: look up an output of matching name
(`find_output` composed with `get_output`). -/
def findOutput (m : SpvModule) (nm : String) : Option SVariable :=
  m.outputs.find? (fun o => o.name == nm)

/-- Insert-or-overwrite into the `pmap<int, int>` location remap. -/
def insertAssoc (l : List (Int × Int)) (k v : Int) : List (Int × Int) :=
  if l.any (fun e => e.1 == k) then
    l.map (fun e => if e.1 = k then (k, v) else e)
  else l ++ [(k, v)]

/-- The input loop of `link_inputs`: match every input against a
same-named output of the previous stage, collecting a location remap
entry wherever the locations differ or the input has none; `none` models
the failing `return false` paths. -/
def buildRemap (prev : SpvModule) : List SVariable → List (Int × Int) →
    Option (List (Int × Int))
  | [], acc => some acc
  | v :: rest, acc =>
    match findOutput prev v.name with
    | none => none
    | some o =>
      if o.location < 0 then none
      else if v.location < 0 ∨ o.location ≠ v.location then
        buildRemap prev rest (insertAssoc acc v.location o.location)
      else buildRemap prev rest acc

/-- `ShaderModuleSpirV::link_inputs`: `false` leaves the module untouched;
on success the input-storage-class decorations are rewritten through the
collected remap when it is nonempty. -/
def linkInputs (self prev : SpvModule) : Bool × SpvModule :=
  if !prev.isSpirv then (false, self)
  else if self.stage ≤ prev.stage then (false, self)
  else
    match buildRemap prev self.inputs [] with
    | none => (false, self)
    | some remap =>
      if remap.isEmpty then (true, self)
      else (true, {self with instrs := remapLocations scInput remap self.instrs})

/-- Example modules for the linking theorems: stage A with output
"texcoord" at location 2, stage B with input "texcoord" carrying no
location and a stream holding only the input variable instruction
(no location decoration at all). -/
def exModA : SpvModule :=
  ⟨true, 0, [], [⟨"texcoord", 2⟩], []⟩
def exModB : SpvModule :=
  ⟨true, 4, [⟨"texcoord", -1⟩], [], [⟨opVariable, [5, 6, scInput]⟩]⟩

/-- Example for the amended C8: stage B with input "texcoord" at
location 3 whose decoration (target ID 6, value 3) precedes its variable
instruction. -/
def exModB2 : SpvModule :=
  ⟨true, 4, [⟨"texcoord", 3⟩], [],
   [⟨opDecorate, [6, decLocation, 3]⟩, ⟨opVariable, [9, 6, scInput]⟩]⟩

/-! ## `unwrap_uniform_block` -/

/-- State of the rewriting pass of `unwrap_uniform_block`: the deleted
IDs, the deleted one-index access chains (result ID → member variable
ID, newest first, matching `std::map` overwrite-on-assign), the
member-index → new-variable-ID vector, the definition table, and the
fresh-ID counter of `allocate_id` (modelled from the spec: a monotone
counter seeded from the header's ID bound). -/
structure UState where
  deleted : List Nat
  chains : List (Nat × Nat)
  memberIds : List Nat
  defs : List Definition
  nextId : Nat

/-- The "find type identifier" loop at the deleted variable: the last
type definition whose interned type handle equals the member's; 0 when
none exists (which the C++ asserts against). -/
def findTypeId (defs : List Definition) (mt : OptTy) : Nat :=
  (List.range defs.length).foldl
    (fun acc id =>
      if (getDef defs id).ttype = mt ∧ (getDef defs id).dtype = .dType then id
      else acc) 0

/-- The first half of one member iteration's definition-table growth:
push a blank entry and `set_type_pointer` it (that setter ignores its
storage-class argument). -/
def genDefs1 (mt : OptTy) (defs : List Definition) (nid : Nat) :
    List Definition :=
  updDef (defs ++ [({} : Definition)]) nid (fun d => {d with dtype := .dTypePointer, ttype := mt})

/-- The definition-table growth of one member iteration: push a blank
entry and `set_type_pointer` it, push another and `set_variable` it
(together with the preceding `_name` assignment). -/
def genDefs2 (mt : OptTy) (mn : String) (defs : List Definition) (nid : Nat) :
    List Definition :=
  updDef (genDefs1 mt defs nid ++ [({} : Definition)]) (nid + 1)
    (fun d => {d with name := mn, dtype := .dVariable, ttype := mt, storageClass := scUniformConstant})

/-- The per-member replacement generation at the deleted variable: for
each struct member, allocate a fresh type-pointer ID and variable ID,
emit the `OpTypePointer`/`OpVariable` pair, grow the definition table,
and record the member's new variable ID.  Returns the emitted
instructions, the grown table, the next fresh ID and the member-ID
vector. -/
def genMembers : List (OptTy × String) → List Definition → Nat →
    List Instr × List Definition × Nat × List Nat
  | [], defs, nid => ([], defs, nid, [])
  | (mt, mn) :: rest, defs, nid =>
    (Instr.mk opTypePointer [nid, scUniformConstant, findTypeId defs mt] ::
       Instr.mk opVariable [nid, nid + 1, scUniformConstant] ::
       (genMembers rest (genDefs2 mt mn defs nid) (nid + 2)).1,
     (genMembers rest (genDefs2 mt mn defs nid) (nid + 2)).2.1,
     (genMembers rest (genDefs2 mt mn defs nid) (nid + 2)).2.2.1,
     (nid + 1) :: (genMembers rest (genDefs2 mt mn defs nid) (nid + 2)).2.2.2)

/-- The definition entry a member's new type pointer receives. -/
def ptrDef (mt : OptTy) : Definition :=
  {dtype := .dTypePointer, ttype := mt}

/-- The definition entry a member's new variable receives. -/
def varDef (mt : OptTy) (mn : String) : Definition :=
  {dtype := .dVariable, ttype := mt, name := mn, storageClass := scUniformConstant}

/-- One step of the rewriting pass (the C++ `switch`): delete the
block's names, decorations, struct and pointer definitions; replace the
block variable by the member block; unwrap or delete access chains based
on a deleted ID (the first index is the member selector, looked up as a
constant in the table); redirect loads and copies that consume a deleted
one-index chain's result.  The `nassertv` guards against direct
loads/copies of the deleted variable are invariants of the callers, not
modelled. -/
def unwrapStep (G : Nat) (mems : List (OptTy × String)) (st : UState)
    (op : Instr) : List Instr × UState :=
  if (op.opcode = opName ∨ op.opcode = opMemberName ∨ op.opcode = opDecorate ∨
      op.opcode = opMemberDecorate) ∧ 1 ≤ op.args.length ∧
      op.args.getD 0 0 = G then
    ([], st)
  else if op.opcode = opTypeStruct ∧ 1 ≤ op.args.length ∧
      op.args.getD 0 0 = G then
    ([], st)
  else if op.opcode = opTypePointer ∧ 3 ≤ op.args.length ∧
      op.args.getD 2 0 = G then
    ([], ⟨op.args.getD 0 0 :: st.deleted, st.chains, st.memberIds, st.defs,
      st.nextId⟩)
  else if op.opcode = opVariable ∧ 3 ≤ op.args.length ∧
      st.deleted.contains (op.args.getD 0 0) then
    ((genMembers mems st.defs st.nextId).1,
     ⟨op.args.getD 1 0 :: st.deleted, st.chains,
      (genMembers mems st.defs st.nextId).2.2.2,
      (genMembers mems st.defs st.nextId).2.1,
      (genMembers mems st.defs st.nextId).2.2.1⟩)
  else if (op.opcode = opAccessChain ∨ op.opcode = opInBoundsAccessChain) ∧
      st.deleted.contains (op.args.getD 2 0) then
    if 4 < op.args.length then
      ([Instr.mk op.opcode ((op.args.set 2
          (st.memberIds.getD ((getDef st.defs (op.args.getD 3 0)).constant) 0)
          ).eraseIdx 3)], st)
    else
      ([], ⟨st.deleted,
        (op.args.getD 1 0,
          st.memberIds.getD ((getDef st.defs (op.args.getD 3 0)).constant) 0)
          :: st.chains,
        st.memberIds, st.defs, st.nextId⟩)
  else if op.opcode = opLoad then
    match st.chains.lookup (op.args.getD 2 0) with
    | some mid => ([Instr.mk op.opcode (op.args.set 2 mid)], st)
    | none => ([op], st)
  else if op.opcode = opCopyMemory then
    match st.chains.lookup (op.args.getD 1 0) with
    | some mid => ([Instr.mk op.opcode (op.args.set 1 mid)], st)
    | none => ([op], st)
  else ([op], st)

/-- The first pass: run `unwrapStep` over the stream, emitting in order
(instructions inserted at the iterator are not reprocessed, matching the
`insert`/`++it` pattern). -/
def unwrapPass1 (G : Nat) (mems : List (OptTy × String)) :
    UState → List Instr → List Instr × UState
  | st, [] => ([], st)
  | st, op :: rest =>
    ((unwrapStep G mems st op).1
       ++ (unwrapPass1 G mems (unwrapStep G mems st op).2 rest).1,
     (unwrapPass1 G mems (unwrapStep G mems st op).2 rest).2)

/-- The keep-predicate of the second pass: an instruction survives
unless it is a name/decoration with at least two argument words whose
target is a deleted ID. -/
def pass2Keep (deleted : List Nat) (op : Instr) : Bool :=
  !((op.opcode == opName || op.opcode == opDecorate ||
     op.opcode == opMemberName || op.opcode == opMemberDecorate) &&
    decide (2 ≤ op.args.length) && deleted.contains (op.args.getD 0 0))

/-- The second pass: once the deleted IDs are known, drop leftover
name/decoration instructions that target any of them. -/
def unwrapPass2 (deleted : List Nat) (instrs : List Instr) : List Instr :=
  if deleted.isEmpty then instrs
  else instrs.filter (pass2Keep deleted)

/-- The filter picking out the variables created by the unwrapping pass:
variable instructions whose result ID is at or above the old ID bound. -/
def newVarFilter (bound : Nat) (op : Instr) : Bool :=
  op.opcode == opVariable && decide (bound ≤ op.args.getD 1 0)

/-- `ShaderModuleSpirV::unwrap_uniform_block`: dispatch on the struct
type of the given ID (the `DCAST_INTO_V`), run the rewriting pass with
the fresh-ID counter seeded from the header's ID bound, then drop
leftover references to deleted IDs. -/
def unwrapUniformBlock (defs : List Definition) (typeId bound : Nat)
    (instrs : List Instr) : List Instr × List Definition :=
  match (getDef defs typeId).ttype with
  | .some (.struct ms) =>
    (unwrapPass2
      (unwrapPass1 typeId (memberList ms)
        ⟨[], [], List.replicate (memberList ms).length 0, defs, bound⟩ instrs).2.deleted
      (unwrapPass1 typeId (memberList ms)
        ⟨[], [], List.replicate (memberList ms).length 0, defs, bound⟩ instrs).1,
     (unwrapPass1 typeId (memberList ms)
       ⟨[], [], List.replicate (memberList ms).length 0, defs, bound⟩ instrs).2.defs)
  | _ => (instrs, defs)

/-- An instruction mentioning none of the given IDs among its argument
words. -/
def avoidsIds (bad : List Nat) (op : Instr) : Bool :=
  op.args.all (fun a => !bad.contains a)

/-- The name/decoration opcode family. -/
def isNameDecOp (op : Nat) : Bool :=
  op == opName || op == opMemberName || op == opDecorate || op == opMemberDecorate

/-- Instructions allowed around the block's pointer and variable
definitions: clean instructions avoiding the block's IDs (any variable
among them has an in-bound result ID), name/decoration instructions
targeting one of the block's IDs, and the `$Global` struct definition
itself. -/
def okPre (G P V bound : Nat) (op : Instr) : Bool :=
  (avoidsIds [G, P, V] op &&
    (!(op.opcode == opVariable) || decide (op.args.getD 1 0 < bound))) ||
  (isNameDecOp op.opcode && decide (2 ≤ op.args.length) &&
    (op.args.getD 0 0 == G || op.args.getD 0 0 == P || op.args.getD 0 0 == V)) ||
  (op.opcode == opTypeStruct && decide (1 ≤ op.args.length) &&
    op.args.getD 0 0 == G &&
    (op.args.drop 1).all (fun a => !([G, P, V].contains a)))

/-- Instructions allowed after the block's variable definition: clean
non-name/decoration instructions avoiding the block's IDs, or access
chains based on the deleted variable whose first index is a constant
below the member count. -/
def okPost (G P V bound M : Nat) (defs : List Definition) (op : Instr) : Bool :=
  (avoidsIds [G, P, V] op && !isNameDecOp op.opcode &&
    (!(op.opcode == opVariable) || decide (op.args.getD 1 0 < bound))) ||
  ((op.opcode == opAccessChain || op.opcode == opInBoundsAccessChain) &&
    decide (4 ≤ op.args.length) && op.args.getD 2 0 == V &&
    (op.args.take 2).all (fun a => !([G, P, V].contains a)) &&
    (op.args.drop 3).all (fun a => !([G, P, V].contains a)) &&
    decide (op.args.getD 3 0 < bound) &&
    decide ((getDef defs (op.args.getD 3 0)).constant < M))

/-- The instructions of the pre-variable segments that the first pass
deletes: names/decorations and the struct definition targeting the
`$Global` type. -/
def keepPre (G : Nat) (op : Instr) : Bool :=
  !((isNameDecOp op.opcode && decide (1 ≤ op.args.length) &&
      op.args.getD 0 0 == G) ||
    (op.opcode == opTypeStruct && decide (1 ≤ op.args.length) &&
      op.args.getD 0 0 == G))

/-- The member replacement block described positionally: member `k` gets
type pointer `nid + 2k` (pointing at the member type's definition) and
uniform-constant variable `nid + 2k + 1`. -/
def expectedBlock (defs : List Definition) :
    List (OptTy × String) → Nat → List Instr
  | [], _ => []
  | (mt, _) :: rest, nid =>
    Instr.mk opTypePointer [nid, scUniformConstant, findTypeId defs mt] ::
    Instr.mk opVariable [nid, nid + 1, scUniformConstant] ::
    expectedBlock defs rest (nid + 2)

/-- The canonical instruction-stream shape around a uniform block: some
prefix, the block's type pointer, more instructions, the block's
variable, and the function bodies. -/
def unwrapStream (A B C : List Instr) (P V G pclass vclass : Nat) :
    List Instr :=
  A ++ Instr.mk opTypePointer [P, pclass, G]
    :: (B ++ Instr.mk opVariable [P, V, vclass] :: C)

/-- Example member list for the uniform-block unwrapper: two float
members named "a" and "b". -/
def exUwMs : MemberListT :=
  MemberListT.cons (OptTy.some ShaderTy.float) "a"
    (MemberListT.cons (OptTy.some ShaderTy.float) "b" MemberListT.nil)

/-- Example definition table for the unwrapper: ID 1 is the "$Global"
struct, ID 4 the float type, ID 5 a constant with value 1; IDs 2 and 3
are the block's pointer and variable. -/
def exUwDefs : List Definition :=
  [{},
   {dtype := .dType, ttype := OptTy.some (ShaderTy.struct exUwMs), name := "$Global"},
   {},
   {},
   {dtype := .dType, ttype := OptTy.some ShaderTy.float},
   {dtype := .dConstant, ttype := OptTy.some ShaderTy.uint, constant := 1}]

/-- Example function body after the block variable: a two-index access
chain, a one-index chain, and the load and copy consuming its result. -/
def exUwC : List Instr :=
  [Instr.mk opAccessChain [10, 11, 3, 5, 7],
   Instr.mk opInBoundsAccessChain [12, 13, 3, 5],
   Instr.mk opLoad [4, 14, 13],
   Instr.mk opCopyMemory [15, 13]]

/-! ## Theorems -/

theorem stripBody_chunk (w : Nat) (t rest : List Nat)
    (hc : isChunk (w :: t) = true) :
    stripBody ((w :: t) ++ rest)
      = (if keepChunk (w :: t) then w :: t else []) ++ stripBody rest := by
  have hlen : w / 65536 = t.length + 1 := by simpa [isChunk] using hc
  rw [List.cons_append, stripBody]
  simp only [hlen, if_neg (Nat.succ_ne_zero t.length), Nat.add_sub_cancel]
  by_cases hd : isDebugOp (w % 65536)
  · rw [if_pos hd, List.drop_left]
    simp [keepChunk, chunkOpcode, hd]
  · rw [if_neg hd, List.take_succ_cons, List.take_left, List.drop_left]
    simp [keepChunk, chunkOpcode, hd]

theorem stripBody_joinChunks (cs : List (List Nat))
    (hwf : ∀ c ∈ cs, isChunk c = true) :
    stripBody (joinChunks cs) = joinChunks (cs.filter keepChunk) := by
  induction cs with
  | nil => simp [joinChunks, stripBody]
  | cons c cs ih =>
    have hc : isChunk c = true := hwf c (by simp)
    have hcs : ∀ d ∈ cs, isChunk d = true := fun d h => hwf d (by simp [h])
    match c, hc with
    | w :: t, hc =>
      have : stripBody (joinChunks ((w :: t) :: cs))
          = (if keepChunk (w :: t) then w :: t else []) ++ stripBody (joinChunks cs) := by
        simpa [joinChunks] using stripBody_chunk w t (joinChunks cs) hc
      rw [this, ih hcs]
      by_cases hk : keepChunk (w :: t) <;>
        simp [hk, List.filter_cons, joinChunks]

theorem stripStream_on_chunks (header : List Nat) (cs : List (List Nat))
    (h5 : header.length = 5) (hwf : ∀ c ∈ cs, isChunk c = true) :
    stripStream (header ++ joinChunks cs)
      = header ++ joinChunks (cs.filter keepChunk) := by
  unfold stripStream
  rw [← h5, List.take_left, List.drop_left, stripBody_joinChunks cs hwf]

/-- Claim C2: for every well-formed instruction stream, `strip` returns the
5-word header followed by exactly the instructions whose opcode is not a
debug opcode (no-op, source, source-continued, source-extension, name,
member-name, string, line, no-line, module-processed), preserving the
relative order and the exact words of every kept instruction; and `strip`
is idempotent. -/
theorem strip_removes_debug_and_idempotent (header : List Nat) (cs : List (List Nat))
    (h5 : header.length = 5) (hwf : ∀ c ∈ cs, isChunk c = true) :
    stripStream (header ++ joinChunks cs)
        = header ++ joinChunks (cs.filter keepChunk) ∧
      stripStream (stripStream (header ++ joinChunks cs))
        = stripStream (header ++ joinChunks cs) := by
  have h1 := stripStream_on_chunks header cs h5 hwf
  refine ⟨h1, ?_⟩
  have hwf2 : ∀ c ∈ cs.filter keepChunk, isChunk c = true :=
    fun c h => hwf c (List.mem_of_mem_filter h)
  have h2 := stripStream_on_chunks header (cs.filter keepChunk) h5 hwf2
  rw [h1, h2, List.filter_filter]
  simp

theorem parseBodyAux_fuel (f1 : Nat) :
    ∀ (f2 : Nat) (defs : List Definition) (l : List Nat),
      l.length ≤ f1 → l.length ≤ f2 →
      parseBodyAux defs f1 l = parseBodyAux defs f2 l := by
  induction f1 with
  | zero =>
    intro f2 defs l h1 h2
    match l with
    | [] => cases f2 <;> rfl
    | w :: rest => simp at h1
  | succ f ih =>
    intro f2 defs l h1 h2
    match l with
    | [] => cases f2 <;> rfl
    | w :: rest =>
      match f2 with
      | 0 => simp at h2
      | g + 1 =>
        show parseBodyAux defs (f + 1) (w :: rest) = parseBodyAux defs (g + 1) (w :: rest)
        simp only [parseBodyAux]
        by_cases hz : w / 65536 = 0
        · simp [hz]
        · simp only [if_neg hz]
          cases hpi : parseInstruction defs (w % 65536) (List.take (w / 65536 - 1) rest) with
          | none => rfl
          | some d2 =>
            have hd : (List.drop (w / 65536 - 1) rest).length ≤ rest.length := by
              simp [List.length_drop]
            have hlen : rest.length + 1 ≤ f + 1 := h1
            have hlen2 : rest.length + 1 ≤ g + 1 := h2
            exact ih g d2 _ (by omega) (by omega)

theorem parseBody_chunk (defs : List Definition) (w : Nat) (t rest : List Nat)
    (hc : isChunk (w :: t) = true) :
    parseBody defs ((w :: t) ++ rest)
      = match parseInstruction defs (w % 65536) t with
        | none => none
        | some d2 => parseBody d2 rest := by
  have hlen : w / 65536 = t.length + 1 := by simpa [isChunk] using hc
  unfold parseBody
  rw [List.cons_append]
  show parseBodyAux defs ((t ++ rest).length + 1) (w :: (t ++ rest)) = _
  simp only [parseBodyAux, hlen, Nat.add_sub_cancel,
    if_neg (Nat.succ_ne_zero t.length), List.take_left, List.drop_left]
  cases hpi : parseInstruction defs (w % 65536) t with
  | none => rfl
  | some d2 =>
    exact parseBodyAux_fuel _ _ d2 rest (by simp) (le_refl _)

theorem parseBody_fails_of_mem (cs : List (List Nat)) (c : List Nat)
    (hfail : ∀ defs, parseInstruction defs (chunkOpcode c) (c.drop 1) = none) :
    ∀ defs, (∀ d ∈ cs, isChunk d = true) → c ∈ cs →
      parseBody defs (joinChunks cs) = none := by
  induction cs with
  | nil => intro defs _ hmem; cases hmem
  | cons d ds ih =>
    intro defs hwf hmem
    have hd : isChunk d = true := hwf d (by simp)
    match d, hd with
    | w :: t, hd =>
      have hjoin : joinChunks ((w :: t) :: ds) = (w :: t) ++ joinChunks ds := by
        simp [joinChunks]
      rw [hjoin, parseBody_chunk defs w t (joinChunks ds) hd]
      rcases List.mem_cons.mp hmem with hc | hc
      · have := hfail defs
        rw [hc] at this
        simp only [chunkOpcode, List.headD_cons, List.drop_one, List.tail_cons] at this
        rw [this]
      · cases hpi : parseInstruction defs (w % 65536) t with
        | none => rfl
        | some d2 =>
          exact ih d2 (fun e he => hwf e (by simp [he])) hc

/-- Claim C5: `parse` fails on a buffer shorter than 5 words and on a wrong
magic number — in both cases before interpreting any instruction, so the
failure does not depend on the remaining words — and fails whenever the
module's memory-model instruction declares an addressing model other than
Logical or a memory model other than GLSL450. -/
theorem parse_rejects_bad_header_and_memory_model
    (ws : List Nat) (header : List Nat) (cs : List (List Nat)) (c : List Nat) :
    (ws.length < 5 → parse ws = none) ∧
    (ws.headD 0 ≠ spvMagicNumber → parse ws = none) ∧
    (header.length = 5 → (∀ d ∈ cs, isChunk d = true) → c ∈ cs →
      badMemModel c = true → parse (header ++ joinChunks cs) = none) := by
  refine ⟨fun h => by simp [parse, h], fun h => ?_, fun h5 hwf hmem hb => ?_⟩
  · unfold parse
    by_cases hl : ws.length < 5
    · rw [if_pos hl]
    · rw [if_neg hl, if_pos h]
  · have hfail : ∀ defs, parseInstruction defs (chunkOpcode c) (c.drop 1) = none := by
      intro defs
      match c, hb with
      | w :: t, hb =>
        have hop : w % 65536 = opMemoryModel := by
          have := (Bool.and_eq_true _ _).mp hb
          simpa [chunkOpcode] using this.1
        have hargs : ¬t.getD 0 0 = addressingModelLogical ∨ ¬t.getD 1 0 = memoryModelGLSL450 := by
          have := (Bool.and_eq_true _ _).mp hb
          have h2 := this.2
          simp only [Bool.or_eq_true, Bool.not_eq_true', beq_eq_false_iff_ne] at h2
          simpa [List.getD_cons_succ] using h2
        simp only [chunkOpcode, List.headD_cons, List.drop_one, List.tail_cons, hop]
        unfold parseInstruction
        rw [if_pos rfl]
        by_cases h0 : t.getD 0 0 = addressingModelLogical
        · have ha2 : ¬t.getD 1 0 = memoryModelGLSL450 := by
            rcases hargs with ha | ha
            · exact absurd h0 ha
            · exact ha
          rw [if_neg (not_not_intro h0), if_pos ha2]
        · rw [if_pos h0]
    unfold parse
    have hl : ¬(header ++ joinChunks cs).length < 5 := by
      simp [List.length_append, h5]
    rw [if_neg hl]
    by_cases hm : (header ++ joinChunks cs).headD 0 ≠ spvMagicNumber
    · rw [if_pos hm]
    · rw [if_neg hm]
      have hdrop : (header ++ joinChunks cs).drop 5 = joinChunks cs := by
        rw [← h5, List.drop_left]
      rw [hdrop]
      exact parseBody_fails_of_mem cs c hfail _ hwf hmem

/-- Witness for C5: a 3-word buffer, a 5-word buffer with magic 0, and a
module whose memory-model instruction uses addressing model 5. -/
theorem parse_rejects_bad_header_and_memory_model_witness :
    parse [spvMagicNumber, 65536, 0] = none ∧
    parse [0, 65536, 0, 4, 0] = none ∧
    parse (exHeader ++ joinChunks [mkChunk opMemoryModel [5, 1]]) = none :=
  ⟨(parse_rejects_bad_header_and_memory_model [spvMagicNumber, 65536, 0] [] [] []).1
      (by decide),
   (parse_rejects_bad_header_and_memory_model [0, 65536, 0, 4, 0] [] [] []).2.1
      (by decide),
   (parse_rejects_bad_header_and_memory_model [] exHeader
      [mkChunk opMemoryModel [5, 1]] (mkChunk opMemoryModel [5, 1])).2.2
      (by decide) (by decide) (by decide) (by decide)⟩

/-- Counterexample to claim C6 as stated: `exArrayModule` contains an
`OpTypeArray` instruction whose element definition (ID 2) never received a
resolved type, yet `parse` succeeds, returning the untouched table — for
arrays the violation is silently tolerated, not an unrecoverable failure. -/
theorem parse_tolerates_unresolved_array_element :
    parse exArrayModule = some (List.replicate 10 {}) ∧
    (getDef (List.replicate 10 ({} : Definition)) 2).ttype = OptTy.none := by
  exact ⟨by decide, by decide⟩

/-- Claim C6 amended: an unresolved component type is an unrecoverable
parse failure for `OpTypeVector` and `OpTypeMatrix` (the `DCAST` fails),
but `OpTypeArray` with an unresolved element is silently skipped — the
table is returned unchanged — and `OpTypeStruct` succeeds, recording the
member with a null type. -/
theorem type_instruction_unresolved_component (defs : List Definition)
    (r e n : Nat) (h : (getDef defs e).ttype = OptTy.none) :
    parseInstruction defs opTypeVector [r, e, n] = none ∧
    parseInstruction defs opTypeMatrix [r, e, n] = none ∧
    parseInstruction defs opTypeArray [r, e, n] = some defs ∧
    (parseInstruction defs opTypeStruct [r, e]).isSome = true := by
  refine ⟨?_, ?_, ?_, ?_⟩
  · simp [parseInstruction, opTypeVector, opMemoryModel, opName, opMemberName,
      opTypeVoid, opTypeBool, opTypeInt, opTypeFloat, h, asScalar]
  · simp [parseInstruction, opTypeMatrix, opMemoryModel, opName, opMemberName,
      opTypeVoid, opTypeBool, opTypeInt, opTypeFloat, opTypeVector, h]
  · simp [parseInstruction, opTypeArray, opMemoryModel, opName, opMemberName,
      opTypeVoid, opTypeBool, opTypeInt, opTypeFloat, opTypeVector, opTypeMatrix,
      opTypePointer, opTypeImage, opTypeSampler, opTypeSampledImage, h]
  · simp [parseInstruction, opTypeStruct, opMemoryModel, opName, opMemberName,
      opTypeVoid, opTypeBool, opTypeInt, opTypeFloat, opTypeVector, opTypeMatrix,
      opTypePointer, opTypeImage, opTypeSampler, opTypeSampledImage, opTypeArray]

/-- Witness for the amended C6 on a two-entry table whose entry 1 has no
resolved type. -/
theorem type_instruction_unresolved_component_witness :
    (getDef [{}, {}] 1).ttype = OptTy.none ∧
    (parseInstruction [{}, {}] opTypeVector [0, 1, 4] = none ∧
      parseInstruction [{}, {}] opTypeMatrix [0, 1, 4] = none ∧
      parseInstruction [{}, {}] opTypeArray [0, 1, 4] = some [{}, {}] ∧
      (parseInstruction [{}, {}] opTypeStruct [0, 1]).isSome = true) :=
  ⟨by decide, type_instruction_unresolved_component [{}, {}] 0 1 4 (by decide)⟩

/-- Witness for C2 on a concrete three-instruction module. -/
theorem strip_removes_debug_and_idempotent_witness :
    (exHeader.length = 5 ∧ ∀ c ∈ exChunks, isChunk c = true) ∧
    (stripStream (exHeader ++ joinChunks exChunks)
        = exHeader ++ joinChunks (exChunks.filter keepChunk) ∧
      stripStream (stripStream (exHeader ++ joinChunks exChunks))
        = stripStream (exHeader ++ joinChunks exChunks)) :=
  ⟨⟨by decide, by decide⟩,
    strip_removes_debug_and_idempotent exHeader exChunks (by decide) (by decide)⟩

/-! ### Bitmap query lemmas -/

theorem searchBit_spec (m : Nat) (v : Bool) :
    ∀ (fuel k j : Nat), k ≤ j → j < k + fuel → m.testBit j ≠ v →
      m.testBit (searchBit m v fuel k) ≠ v ∧ k ≤ searchBit m v fuel k ∧
        ∀ i, k ≤ i → i < searchBit m v fuel k → m.testBit i = v := by
  intro fuel
  induction fuel with
  | zero => intro k j h1 h2 _; omega
  | succ fuel ih =>
    intro k j h1 h2 hj
    by_cases hk : m.testBit k = v
    · have hr : searchBit m v (fuel + 1) k = searchBit m v fuel (k + 1) := by
        simp [searchBit, hk]
      have hkj : k ≠ j := fun e => hj (e ▸ hk)
      have ht := ih (k + 1) j (by omega) (by omega) hj
      rw [hr]
      refine ⟨ht.1, by have := ht.2.1; omega, ?_⟩
      intro i hi1 hi2
      rcases Nat.eq_or_lt_of_le hi1 with rfl | hgt
      · exact hk
      · exact ht.2.2 i (by omega) hi2
    · have hr : searchBit m v (fuel + 1) k = k := by
        simp [searchBit, beq_iff_eq, hk]
      rw [hr]
      exact ⟨hk, le_refl _, fun i hi1 hi2 => by omega⟩

theorem testBit_false_of_big (m j : Nat) (h : m < 2 ^ j) : m.testBit j = false :=
  Nat.testBit_lt_two_pow h

theorem testBit_above_self (m : Nat) : m.testBit (m + 1) = false :=
  testBit_false_of_big m (m + 1) (lt_trans (Nat.lt_two_pow m) (by
    exact Nat.pow_lt_pow_right (by omega) (by omega)))

theorem low_le_of_testBit (m j : Nat) (h : m.testBit j = true) : j < m := by
  have h1 : 2 ^ j ≤ m := Nat.testBit_implies_ge h
  have h2 : j < 2 ^ j := Nat.lt_two_pow j
  omega

theorem lowestOffBit_spec (m : Nat) :
    m.testBit (lowestOffBit m) = false ∧
      ∀ i, i < lowestOffBit m → m.testBit i = true := by
  have h := searchBit_spec m true (m + 2) 0 (m + 1) (Nat.zero_le _) (by omega)
    (by simp [testBit_above_self])
  exact ⟨by simpa using h.1, fun i hi => h.2.2 i (Nat.zero_le _) hi⟩

theorem nhdb_of_set (m low : Nat) (h : m.testBit low = true) :
    low < nextHigherDifferentBit m low ∧
      m.testBit (nextHigherDifferentBit m low) = false ∧
      ∀ i, low < i → i < nextHigherDifferentBit m low → m.testBit i = true := by
  have hlow : low < m := low_le_of_testBit m low h
  have hs := searchBit_spec m true (m + 2) (low + 1) (m + 1) (by omega) (by omega)
    (by simp [testBit_above_self])
  have heq : nextHigherDifferentBit m low = searchBit m true (m + 2) (low + 1) := by
    unfold nextHigherDifferentBit
    rw [if_neg (by simp [h]), h]
  rw [heq]
  exact ⟨by omega, by simpa using hs.1, fun i hi1 hi2 => hs.2.2 i (by omega) hi2⟩

theorem exists_testBit_of_shiftRight_ne (m s : Nat) (h : m >>> s ≠ 0) :
    ∃ j, m.testBit (s + j) = true ∧ j ≤ m := by
  by_contra hno
  push_neg at hno
  apply h
  apply Nat.zero_of_testBit_eq_false
  intro i
  rw [Nat.testBit_shiftRight]
  by_cases hb : m.testBit (s + i) = true
  · have : s + i < m := low_le_of_testBit m _ hb
    exact absurd hb (by intro hc; exact absurd (hno i hc) (by omega))
  · simpa using hb

theorem nhdb_of_clear_rest (m low : Nat) (h : m.testBit low = false)
    (hr : m >>> (low + 1) ≠ 0) :
    low < nextHigherDifferentBit m low ∧
      m.testBit (nextHigherDifferentBit m low) = true ∧
      ∀ i, low < i → i < nextHigherDifferentBit m low → m.testBit i = false := by
  obtain ⟨j, hj, hjm⟩ := exists_testBit_of_shiftRight_ne m (low + 1) hr
  have hs := searchBit_spec m false (m + 2) (low + 1) (low + 1 + j) (by omega)
    (by omega) (by simp [hj])
  have heq : nextHigherDifferentBit m low = searchBit m false (m + 2) (low + 1) := by
    unfold nextHigherDifferentBit
    rw [if_neg (by simp [h, hr]), h]
  rw [heq]
  refine ⟨by omega, by simpa using hs.1, fun i hi1 hi2 => hs.2.2 i (by omega) hi2⟩

theorem nhdb_of_clear_norest (m low : Nat) (h : m.testBit low = false)
    (hr : m >>> (low + 1) = 0) :
    nextHigherDifferentBit m low = low := by
  unfold nextHigherDifferentBit
  rw [if_pos (by simp [h, hr])]

theorem hasAnyOf_exists (m low count : Nat) (h : hasAnyOf m low count = true) :
    ∃ j, j < count ∧ m.testBit (low + j) = true := by
  obtain ⟨x, hx, hb⟩ := List.any_eq_true.mp h
  exact ⟨x, List.mem_range.mp hx, hb⟩

theorem hasAnyOf_eq_false_iff (m low count : Nat) :
    hasAnyOf m low count = false ↔ ∀ j, j < count → m.testBit (low + j) = false := by
  constructor
  · intro h j hj
    by_contra hb
    have : hasAnyOf m low count = true :=
      List.any_eq_true.mpr ⟨j, List.mem_range.mpr hj, by simpa using hb⟩
    rw [h] at this; cases this
  · intro h
    by_contra hb
    obtain ⟨j, hj, hbit⟩ := hasAnyOf_exists m low count (by
      cases he : hasAnyOf m low count
      · exact absurd he hb
      · rfl)
    rw [h j hj] at hbit; cases hbit

theorem nhdb2_progress (m loc num : Nat) (h : hasAnyOf m loc num = true) :
    loc < nextHigherDifferentBit m (nextHigherDifferentBit m loc) := by
  obtain ⟨j, hj, hbit⟩ := hasAnyOf_exists m loc num h
  by_cases hb : m.testBit loc = true
  · obtain ⟨h1, h2, _⟩ := nhdb_of_set m loc hb
    by_cases hr : m >>> (nextHigherDifferentBit m loc + 1) = 0
    · rw [nhdb_of_clear_norest m _ h2 hr]; exact h1
    · obtain ⟨h3, _, _⟩ := nhdb_of_clear_rest m _ h2 hr
      omega
  · have hb' : m.testBit loc = false := by simpa using hb
    have hj0 : j ≠ 0 := by
      intro e
      rw [e, Nat.add_zero] at hbit
      rw [hbit] at hb'; cases hb'
    have hrest : m >>> (loc + 1) ≠ 0 := by
      intro h0
      have heq : (m >>> (loc + 1)).testBit (j - 1) = m.testBit (loc + j) := by
        rw [Nat.testBit_shiftRight]
        congr 1
        omega
      rw [h0] at heq
      simp only [Nat.zero_testBit] at heq
      rw [hbit] at heq; cases heq
    obtain ⟨h1, h2, _⟩ := nhdb_of_clear_rest m loc hb' hrest
    obtain ⟨h3, _, _⟩ := nhdb_of_set m _ h2
    omega

theorem hasAnyOf_false_of_big (m low count : Nat) (h : m < 2 ^ low) :
    hasAnyOf m low count = false := by
  rw [hasAnyOf_eq_false_iff]
  intro j _
  exact testBit_false_of_big m (low + j)
    (lt_of_lt_of_le h (Nat.pow_le_pow_right (by omega) (by omega)))

theorem findRunAux_exit (m num : Nat) :
    ∀ (fuel loc : Nat), m + 2 ≤ fuel + loc → 1 < num →
      hasAnyOf m (findRunAux m num fuel loc) num = false := by
  intro fuel
  induction fuel with
  | zero =>
    intro loc hle _
    show hasAnyOf m loc num = false
    apply hasAnyOf_false_of_big
    have h1 : m < 2 ^ m := Nat.lt_two_pow m
    have h2 : (2 : Nat) ^ m ≤ 2 ^ loc := Nat.pow_le_pow_right (by omega) (by omega)
    omega
  | succ fuel ih =>
    intro loc hle h1
    by_cases hg : 1 < num ∧ hasAnyOf m loc num = true
    · have hstep : findRunAux m num (fuel + 1) loc
          = findRunAux m num fuel (nextHigherDifferentBit m (nextHigherDifferentBit m loc)) := by
        simp only [findRunAux, if_pos hg]
      rw [hstep]
      have hprog := nhdb2_progress m loc num hg.2
      exact ih _ (by omega) h1
    · have hstep : findRunAux m num (fuel + 1) loc = loc := by
        simp only [findRunAux, if_neg hg]
      rw [hstep]
      rcases not_and_or.mp hg with hc | hc
      · exact absurd h1 hc
      · simpa using hc

theorem assignUniformLocation_free (m num : Nat) :
    ∀ j, j < num → m.testBit (assignUniformLocation m num + j) = false := by
  intro j hj
  unfold assignUniformLocation
  by_cases h1 : 1 < num
  · exact (hasAnyOf_eq_false_iff m _ num).mp
      (findRunAux_exit m num (m + 2) (lowestOffBit m) (by omega) h1) j hj
  · have hj0 : j = 0 := by omega
    have hret : findRunAux m num (m + 2) (lowestOffBit m) = lowestOffBit m := by
      rw [show findRunAux m num (m + 2) (lowestOffBit m)
          = if 1 < num ∧ hasAnyOf m (lowestOffBit m) num = true then
              findRunAux m num (m + 1)
                (nextHigherDifferentBit m (nextHigherDifferentBit m (lowestOffBit m)))
            else lowestOffBit m from rfl]
      exact if_neg (fun hc => h1 hc.1)
    rw [hret, hj0, Nat.add_zero]
    exact (lowestOffBit_spec m).1

theorem testBit_setBit (m i b : Nat) :
    (setBit m i).testBit b = (m.testBit b || decide (b = i)) := by
  rw [setBit, Nat.testBit_or, Nat.testBit_two_pow]
  by_cases h : i = b <;> simp [h] <;> omega

theorem testBit_setRange (m low count b : Nat) :
    (setRange m low count).testBit b
      = (m.testBit b || (decide (low ≤ b) && decide (b < low + count))) := by
  rw [setRange, Nat.testBit_or, Nat.testBit_shiftLeft, Nat.testBit_two_pow_sub_one]
  by_cases h : low ≤ b
  · by_cases h2 : b < low + count <;> simp [h, h2] <;> omega
  · simp [h]

/-! ### `assign_locations` lemmas -/

theorem needsLocation_parts (d : Definition) (h : needsLocation d = true) :
    d.dtype = .dVariable ∧ d.location < 0 ∧ d.builtin = builtinMax ∧
      (d.storageClass = scInput ∨ d.storageClass = scOutput ∨
       d.storageClass = scUniformConstant) := by
  simp only [needsLocation, Bool.and_eq_true, beq_iff_eq, decide_eq_true_eq,
    Bool.or_eq_true] at h
  exact ⟨h.1.1.1, h.1.1.2, h.1.2, by tauto⟩

theorem needsLocation_of_parts (d : Definition) (h1 : d.dtype = .dVariable)
    (h2 : d.location < 0) (h3 : d.builtin = builtinMax)
    (h4 : d.storageClass = scInput ∨ d.storageClass = scOutput ∨
      d.storageClass = scUniformConstant) :
    needsLocation d = true := by
  unfold needsLocation
  rw [h1, h3, decide_eq_true h2]
  rcases h4 with h4 | h4 | h4 <;> rw [h4] <;> decide

theorem qualUC_parts (d : Definition) (h : qualUC d = true) :
    d.dtype = .dVariable ∧ d.location < 0 ∧ d.builtin = builtinMax ∧
      d.storageClass = scUniformConstant := by
  simp only [qualUC, Bool.and_eq_true, beq_iff_eq, decide_eq_true_eq] at h
  exact ⟨h.1.1.1, h.1.1.2, h.1.2, h.2⟩

theorem preUC_parts (d : Definition) (h : preUC d = true) :
    d.dtype = .dVariable ∧ 0 ≤ d.location ∧ d.storageClass = scUniformConstant := by
  simp only [preUC, Bool.and_eq_true, beq_iff_eq, decide_eq_true_eq] at h
  exact ⟨h.1.1, h.1.2, h.2⟩

theorem scanDef_flag_mono (npl : ShaderTy → Nat) (st : AMasks × Bool) (d : Definition)
    (h : st.2 = true) : (scanDef npl st d).2 = true := by
  unfold scanDef
  split_ifs <;> simp [h]

theorem foldl_scanDef_flag_mono (npl : ShaderTy → Nat) (l : List Definition) :
    ∀ st : AMasks × Bool, st.2 = true → (l.foldl (scanDef npl) st).2 = true := by
  induction l with
  | nil => intro st h; exact h
  | cons d ds ih => intro st h; exact ih _ (scanDef_flag_mono npl st d h)

theorem scanDef_flag_of_needs (npl : ShaderTy → Nat) (st : AMasks × Bool)
    (d : Definition) (h : needsLocation d = true) : (scanDef npl st d).2 = true := by
  obtain ⟨h1, h2, -, -⟩ := needsLocation_parts d h
  unfold scanDef
  rw [if_pos h1, if_pos h2, if_pos h]

theorem foldl_scanDef_flag (npl : ShaderTy → Nat) (l : List Definition) :
    ∀ (st : AMasks × Bool) (d : Definition), d ∈ l → needsLocation d = true →
      (l.foldl (scanDef npl) st).2 = true := by
  induction l with
  | nil => intro st d hd; cases hd
  | cons e es ih =>
    intro st d hd hq
    rcases List.mem_cons.mp hd with rfl | hd2
    · exact foldl_scanDef_flag_mono npl es _ (scanDef_flag_of_needs npl st d hq)
    · exact ih _ d hd2 hq

theorem scanDef_uni_mono (npl : ShaderTy → Nat) (st : AMasks × Bool) (d : Definition)
    (b : Nat) (h : st.1.uni.testBit b = true) :
    (scanDef npl st d).1.uni.testBit b = true := by
  unfold scanDef
  split_ifs <;> simp [testBit_setRange, h]

theorem foldl_scanDef_uni_mono (npl : ShaderTy → Nat) (l : List Definition) :
    ∀ (st : AMasks × Bool) (b : Nat), st.1.uni.testBit b = true →
      (l.foldl (scanDef npl) st).1.uni.testBit b = true := by
  induction l with
  | nil => intro st b h; exact h
  | cons d ds ih => intro st b h; exact ih _ b (scanDef_uni_mono npl st d b h)

theorem foldl_scanDef_marks_preUC (npl : ShaderTy → Nat) (l : List Definition) :
    ∀ (st : AMasks × Bool) (j : Nat), j < l.length → preUC (l.getD j {}) = true →
      ∀ b, (l.getD j {}).location.toNat ≤ b →
        b < (l.getD j {}).location.toNat + paramLocs npl ((l.getD j {}).ttype) →
        (l.foldl (scanDef npl) st).1.uni.testBit b = true := by
  induction l with
  | nil => intro st j hj; simp at hj
  | cons e es ih =>
    intro st j hj hq b hb1 hb2
    cases j with
    | zero =>
      simp only [List.getD_cons_zero] at hq hb1 hb2
      obtain ⟨h1, h2, h3⟩ := preUC_parts e hq
      rw [List.foldl_cons]
      apply foldl_scanDef_uni_mono
      unfold scanDef
      rw [if_pos h1, if_neg (by omega), if_neg (by rw [h3]; decide),
        if_neg (by rw [h3]; decide), if_pos h3]
      show (setRange st.1.uni e.location.toNat (paramLocs npl e.ttype)).testBit b = true
      rw [testBit_setRange]
      have hin : (decide (e.location.toNat ≤ b)
          && decide (b < e.location.toNat + paramLocs npl e.ttype)) = true := by
        simp only [Bool.and_eq_true, decide_eq_true_eq]
        omega
      rw [hin, Bool.or_true]
    | succ j2 =>
      simp only [List.getD_cons_succ] at hq hb1 hb2
      rw [List.foldl_cons]
      exact ih (scanDef npl st e) j2 (by simpa using hj) hq b hb1 hb2

theorem assignStep_uni_mono (stage : Nat) (npl : ShaderTy → Nat) (st : AMasks)
    (d : Definition) (b : Nat) (h : st.uni.testBit b = true) :
    ∀ loc st2, assignStep stage npl st d = some (loc, st2) →
      st2.uni.testBit b = true := by
  intro loc st2 he
  unfold assignStep at he
  split_ifs at he <;> cases he <;> simp [testBit_setRange, h]

theorem assignStep_qualUC (stage : Nat) (npl : ShaderTy → Nat) (st : AMasks)
    (d : Definition) (hq : qualUC d = true) :
    assignStep stage npl st d
      = some (assignUniformLocation st.uni (paramLocs npl d.ttype),
          ⟨st.inp, st.outp,
            setRange st.uni (assignUniformLocation st.uni (paramLocs npl d.ttype))
              (paramLocs npl d.ttype)⟩) := by
  obtain ⟨h1, h2, h3, h4⟩ := qualUC_parts d hq
  unfold assignStep
  rw [if_pos ⟨h1, h2, h3⟩, if_neg (by rw [h4]; decide), if_neg (by rw [h4]; decide),
    if_pos h4]

theorem assignStep_needs_isSome (stage : Nat) (npl : ShaderTy → Nat) (st : AMasks)
    (d : Definition) (hq : needsLocation d = true) :
    (assignStep stage npl st d).isSome = true := by
  obtain ⟨h1, h2, h3, h4⟩ := needsLocation_parts d hq
  unfold assignStep
  rw [if_pos ⟨h1, h2, h3⟩]
  rcases h4 with h4 | h4 | h4
  · rw [if_pos h4]; rfl
  · rw [if_neg (by rw [h4]; decide), if_pos h4]; rfl
  · rw [if_neg (by rw [h4]; decide), if_neg (by rw [h4]; decide), if_pos h4]; rfl

theorem assignLoop_uc_avoids_mask (stage : Nat) (npl : ShaderTy → Nat)
    (ds : List Definition) :
    ∀ (st : AMasks) (id b : Nat), st.uni.testBit b = true →
      ∀ i, i < ds.length → qualUC (ds.getD i {}) = true →
        ¬(((assignLoop stage npl st id ds).1.getD i {}).location.toNat ≤ b ∧
          b < ((assignLoop stage npl st id ds).1.getD i {}).location.toNat
              + paramLocs npl ((ds.getD i {}).ttype)) := by
  induction ds with
  | nil => intro st id b hb i hi; simp at hi
  | cons d rest ih =>
    intro st id b hb i hi hq
    cases i with
    | zero =>
      simp only [List.getD_cons_zero] at hq ⊢
      have heq := assignStep_qualUC stage npl st d hq
      simp only [assignLoop, heq, List.getD_cons_zero]
      rintro ⟨hb1, hb2⟩
      simp only [Int.toNat_ofNat] at hb1 hb2
      have hfree := assignUniformLocation_free st.uni (paramLocs npl d.ttype)
        (b - assignUniformLocation st.uni (paramLocs npl d.ttype)) (by omega)
      rw [show assignUniformLocation st.uni (paramLocs npl d.ttype)
          + (b - assignUniformLocation st.uni (paramLocs npl d.ttype)) = b from by omega]
        at hfree
      rw [hb] at hfree
      cases hfree
    | succ i2 =>
      cases hstep : assignStep stage npl st d with
      | some val =>
        obtain ⟨loc, st2⟩ := val
        have hmono := assignStep_uni_mono stage npl st d b hb loc st2 hstep
        simp only [assignLoop, hstep, List.getD_cons_succ] at hq ⊢
        exact ih st2 (id + 1) b hmono i2 (by simpa using hi) hq
      | none =>
        simp only [assignLoop, hstep, List.getD_cons_succ] at hq ⊢
        exact ih st (id + 1) b hb i2 (by simpa using hi) hq

theorem assignLoop_uc_pairwise (stage : Nat) (npl : ShaderTy → Nat)
    (ds : List Definition) :
    ∀ (st : AMasks) (id i j : Nat), i < j → j < ds.length →
      qualUC (ds.getD i {}) = true → qualUC (ds.getD j {}) = true →
      ∀ b, ((assignLoop stage npl st id ds).1.getD i {}).location.toNat ≤ b →
        b < ((assignLoop stage npl st id ds).1.getD i {}).location.toNat
            + paramLocs npl ((ds.getD i {}).ttype) →
        ¬(((assignLoop stage npl st id ds).1.getD j {}).location.toNat ≤ b ∧
          b < ((assignLoop stage npl st id ds).1.getD j {}).location.toNat
              + paramLocs npl ((ds.getD j {}).ttype)) := by
  induction ds with
  | nil => intro st id i j hij hj; simp at hj
  | cons d rest ih =>
    intro st id i j hij hj hqi hqj b hb1 hb2
    obtain ⟨j2, rfl⟩ : ∃ j2, j = j2 + 1 := ⟨j - 1, by omega⟩
    have hj2 : j2 < rest.length := by simpa using hj
    cases i with
    | zero =>
      simp only [List.getD_cons_zero] at hqi
      have heq := assignStep_qualUC stage npl st d hqi
      simp only [assignLoop, heq, List.getD_cons_zero, List.getD_cons_succ]
        at hb1 hb2 hqj ⊢
      simp only [Int.toNat_ofNat] at hb1 hb2
      have hbset : (setRange st.uni
          (assignUniformLocation st.uni (paramLocs npl d.ttype))
          (paramLocs npl d.ttype)).testBit b = true := by
        rw [testBit_setRange]
        have hin : (decide (assignUniformLocation st.uni (paramLocs npl d.ttype) ≤ b)
            && decide (b < assignUniformLocation st.uni (paramLocs npl d.ttype)
              + paramLocs npl d.ttype)) = true := by
          simp only [Bool.and_eq_true, decide_eq_true_eq]
          omega
        rw [hin, Bool.or_true]
      exact assignLoop_uc_avoids_mask stage npl rest _ (id + 1) b hbset j2 hj2 hqj
    | succ i2 =>
      cases hstep : assignStep stage npl st d with
      | some val =>
        obtain ⟨loc, st2⟩ := val
        simp only [assignLoop, hstep, List.getD_cons_succ] at hb1 hb2 hqi hqj ⊢
        exact ih st2 (id + 1) i2 j2 (by omega) hj2 hqi hqj b hb1 hb2
      | none =>
        simp only [assignLoop, hstep, List.getD_cons_succ] at hb1 hb2 hqi hqj ⊢
        exact ih st (id + 1) i2 j2 (by omega) hj2 hqi hqj b hb1 hb2

theorem assignLoop_assigns (stage : Nat) (npl : ShaderTy → Nat)
    (ds : List Definition) :
    ∀ (st : AMasks) (id0 i : Nat), i < ds.length →
      needsLocation (ds.getD i {}) = true →
      0 ≤ ((assignLoop stage npl st id0 ds).1.getD i {}).location ∧
      Instr.mk opDecorate [id0 + i, decLocation,
          ((assignLoop stage npl st id0 ds).1.getD i {}).location.toNat]
        ∈ (assignLoop stage npl st id0 ds).2 := by
  induction ds with
  | nil => intro st id0 i hi; simp at hi
  | cons d rest ih =>
    intro st id0 i hi hq
    cases i with
    | zero =>
      simp only [List.getD_cons_zero] at hq
      have hsome := assignStep_needs_isSome stage npl st d hq
      obtain ⟨⟨loc, st2⟩, hstep⟩ := Option.isSome_iff_exists.mp hsome
      simp only [assignLoop, hstep, List.getD_cons_zero, Nat.add_zero]
      exact ⟨by simp, by simp [List.mem_cons]⟩
    | succ i2 =>
      cases hstep : assignStep stage npl st d with
      | some val =>
        obtain ⟨loc, st2⟩ := val
        have hrec := ih st2 (id0 + 1) i2 (by simpa using hi) (by simpa using hq)
        simp only [assignLoop, hstep, List.getD_cons_succ]
        refine ⟨hrec.1, ?_⟩
        apply List.mem_cons_of_mem
        have : id0 + 1 + i2 = id0 + (i2 + 1) := by omega
        rw [← this]
        exact hrec.2
      | none =>
        have hrec := ih st (id0 + 1) i2 (by simpa using hi) (by simpa using hq)
        simp only [assignLoop, hstep, List.getD_cons_succ]
        refine ⟨hrec.1, ?_⟩
        have : id0 + 1 + i2 = id0 + (i2 + 1) := by omega
        rw [← this]
        exact hrec.2

/-- Claim C3: every non-built-in input/output/uniform-constant variable
definition whose location is unassigned before `assign_locations` runs has
a non-negative location afterwards, and the stream then contains a
location-decoration instruction for that ID carrying exactly that value
(the definition's location field and the decoded decoration agree). -/
theorem assign_locations_round_trip (stage : Nat) (npl : ShaderTy → Nat)
    (defs : List Definition) (instrs : List Instr) (i : Nat)
    (hi : i < defs.length) (hq : needsLocation (defs.getD i {}) = true) :
    0 ≤ ((assignLocations stage npl defs instrs).1.getD i {}).location ∧
    Instr.mk opDecorate [i, decLocation,
        ((assignLocations stage npl defs instrs).1.getD i {}).location.toNat]
      ∈ (assignLocations stage npl defs instrs).2 := by
  have hmem : defs.getD i {} ∈ defs := by
    rw [List.getD_eq_getElem defs {} hi]
    exact List.getElem_mem hi
  have hflag : (buildMasks npl defs).2 = true :=
    foldl_scanDef_flag npl defs _ _ hmem hq
  have h := assignLoop_assigns stage npl defs (buildMasks npl defs).1 0 i hi hq
  simp only [Nat.zero_add] at h
  have hAL : assignLocations stage npl defs instrs
      = ((assignLoop stage npl (buildMasks npl defs).1 0 defs).1,
         instrs.take (annotEnd instrs)
           ++ (assignLoop stage npl (buildMasks npl defs).1 0 defs).2
           ++ instrs.drop (annotEnd instrs)) := by
    unfold assignLocations
    rw [if_neg (by simp [hflag])]
  rw [hAL]
  refine ⟨h.1, ?_⟩
  simp only [List.mem_append]
  exact Or.inl (Or.inr h.2)

/-- Witness for C3: one input variable named "color" in the fragment
stage (4) gets location 0 and a matching decoration. -/
theorem assign_locations_round_trip_witness :
    (0 < ([exInDef] : List Definition).length ∧
      needsLocation (([exInDef] : List Definition).getD 0 {}) = true) ∧
    (0 ≤ ((assignLocations 4 (fun _ => 1) [exInDef] []).1.getD 0 {}).location ∧
      Instr.mk opDecorate [0, decLocation,
          ((assignLocations 4 (fun _ => 1) [exInDef] []).1.getD 0 {}).location.toNat]
        ∈ (assignLocations 4 (fun _ => 1) [exInDef] []).2) :=
  ⟨⟨by decide, by decide⟩,
    assign_locations_round_trip 4 (fun _ => 1) [exInDef] [] 0 (by decide) (by decide)⟩

/-- Claim C4: a uniform-constant range newly allocated by
`assign_locations` is disjoint from every other newly allocated
uniform-constant range and from every range already occupied by a
pre-assigned uniform-constant variable (`b` ranges over the points of the
`i`-th new range). -/
theorem assign_locations_uniform_disjoint (stage : Nat) (npl : ShaderTy → Nat)
    (defs : List Definition) (instrs : List Instr) (i j b : Nat)
    (hi : i < defs.length) (hj : j < defs.length)
    (hqi : qualUC (defs.getD i {}) = true)
    (hbl : ((assignLocations stage npl defs instrs).1.getD i {}).location.toNat ≤ b)
    (hbu : b < ((assignLocations stage npl defs instrs).1.getD i {}).location.toNat
        + paramLocs npl ((defs.getD i {}).ttype)) :
    (i ≠ j → qualUC (defs.getD j {}) = true →
      ¬(((assignLocations stage npl defs instrs).1.getD j {}).location.toNat ≤ b ∧
        b < ((assignLocations stage npl defs instrs).1.getD j {}).location.toNat
            + paramLocs npl ((defs.getD j {}).ttype))) ∧
    (preUC (defs.getD j {}) = true →
      ¬((defs.getD j {}).location.toNat ≤ b ∧
        b < (defs.getD j {}).location.toNat
            + paramLocs npl ((defs.getD j {}).ttype))) := by
  have hneeds : needsLocation (defs.getD i {}) = true := by
    obtain ⟨h1, h2, h3, h4⟩ := qualUC_parts _ hqi
    exact needsLocation_of_parts _ h1 h2 h3 (Or.inr (Or.inr h4))
  have hflag : (buildMasks npl defs).2 = true := by
    have hmem : defs.getD i {} ∈ defs := by
      rw [List.getD_eq_getElem defs {} hi]
      exact List.getElem_mem hi
    exact foldl_scanDef_flag npl defs _ _ hmem hneeds
  have hAL : assignLocations stage npl defs instrs
      = ((assignLoop stage npl (buildMasks npl defs).1 0 defs).1,
         instrs.take (annotEnd instrs)
           ++ (assignLoop stage npl (buildMasks npl defs).1 0 defs).2
           ++ instrs.drop (annotEnd instrs)) := by
    unfold assignLocations
    rw [if_neg (by simp [hflag])]
  rw [hAL] at hbl hbu ⊢
  constructor
  · intro hij hqj
    rcases Nat.lt_or_ge i j with hlt | hge
    · exact assignLoop_uc_pairwise stage npl defs _ 0 i j hlt hj hqi hqj b hbl hbu
    · have hlt : j < i := by omega
      rintro ⟨hc1, hc2⟩
      exact assignLoop_uc_pairwise stage npl defs _ 0 j i hlt hi hqj hqi b hc1 hc2
        ⟨hbl, hbu⟩
  · intro hqj
    rintro ⟨hc1, hc2⟩
    have hmark := foldl_scanDef_marks_preUC npl defs ⟨⟨0, 0, 0⟩, false⟩ j hj hqj
      b hc1 hc2
    exact assignLoop_uc_avoids_mask stage npl defs _ 0 b hmark i hi hqi ⟨hbl, hbu⟩

/-- Witness for C4: two fresh uniforms of two locations each plus a
pre-assigned one at location 1; the first fresh uniform lands at range
[3, 5) which avoids both the other fresh range and the pre-assigned one. -/
theorem assign_locations_uniform_disjoint_witness :
    (0 < exDefsC4.length ∧ 1 < exDefsC4.length ∧ 2 < exDefsC4.length ∧
      qualUC (exDefsC4.getD 0 {}) = true ∧
      ((assignLocations 0 (fun _ => 2) exDefsC4 []).1.getD 0 {}).location.toNat ≤ 3 ∧
      3 < ((assignLocations 0 (fun _ => 2) exDefsC4 []).1.getD 0 {}).location.toNat
          + paramLocs (fun _ => 2) ((exDefsC4.getD 0 {}).ttype)) ∧
    ((0 : Nat) ≠ 1 → qualUC (exDefsC4.getD 1 {}) = true →
      ¬(((assignLocations 0 (fun _ => 2) exDefsC4 []).1.getD 1 {}).location.toNat ≤ 3 ∧
        3 < ((assignLocations 0 (fun _ => 2) exDefsC4 []).1.getD 1 {}).location.toNat
            + paramLocs (fun _ => 2) ((exDefsC4.getD 1 {}).ttype))) ∧
    (preUC (exDefsC4.getD 2 {}) = true →
      ¬((exDefsC4.getD 2 {}).location.toNat ≤ 3 ∧
        3 < (exDefsC4.getD 2 {}).location.toNat
            + paramLocs (fun _ => 2) ((exDefsC4.getD 2 {}).ttype))) :=
  ⟨⟨by decide, by decide, by decide, by decide, by decide, by decide⟩,
    (assign_locations_uniform_disjoint 0 (fun _ => 2) exDefsC4 [] 0 1 3
      (by decide) (by decide) (by decide) (by decide) (by decide)).1,
    (assign_locations_uniform_disjoint 0 (fun _ => 2) exDefsC4 [] 0 2 3
      (by decide) (by decide) (by decide) (by decide) (by decide)).2⟩

/-- Claim C9: the location policy of `assign_locations` for an unassigned
non-built-in input variable — in the vertex stage with location 0 free a
vertex-position alias gets 0, a non-alias gets the lowest free location
not below 1, and otherwise (non-vertex stage or location 0 taken) the
lowest free location overall; the final conjunct ties the policy to the
per-definition step of the pass. -/
theorem assign_input_location_policy (stage mask : Nat) (nm : String) :
    (stage = stageVertex → mask.testBit 0 = false → isVertexAlias nm = true →
      assignInputLocation stage mask nm = 0) ∧
    (stage = stageVertex → mask.testBit 0 = false → isVertexAlias nm = false →
      1 ≤ assignInputLocation stage mask nm ∧
      mask.testBit (assignInputLocation stage mask nm) = false ∧
      ∀ i, 1 ≤ i → i < assignInputLocation stage mask nm → mask.testBit i = true) ∧
    (¬(stage = stageVertex ∧ mask.testBit 0 = false) →
      mask.testBit (assignInputLocation stage mask nm) = false ∧
      ∀ i, i < assignInputLocation stage mask nm → mask.testBit i = true) ∧
    (∀ (npl : ShaderTy → Nat) (st : AMasks) (d : Definition),
      d.dtype = .dVariable → d.location < 0 → d.builtin = builtinMax →
      d.storageClass = scInput →
      assignStep stage npl st d
        = some (assignInputLocation stage st.inp d.name,
            ⟨setBit st.inp (assignInputLocation stage st.inp d.name),
             st.outp, st.uni⟩)) := by
  refine ⟨?_, ?_, ?_, ?_⟩
  · intro hs hb ha
    unfold assignInputLocation
    rw [if_pos ⟨hs, hb⟩, if_pos ha]
  · intro hs hb ha
    unfold assignInputLocation
    rw [if_pos ⟨hs, hb⟩, if_neg (by simp [ha])]
    by_cases h1 : mask.testBit 1 = false
    · rw [if_pos h1]
      exact ⟨le_refl 1, h1, fun i hi1 hi2 => by omega⟩
    · rw [if_neg h1]
      have h1t : mask.testBit 1 = true := by
        cases he : mask.testBit 1
        · exact absurd he h1
        · rfl
      obtain ⟨hgt, hclear, hmin⟩ := nhdb_of_set mask 1 h1t
      refine ⟨by omega, hclear, fun i hi1 hi2 => ?_⟩
      rcases Nat.eq_or_lt_of_le hi1 with he | hlt
      · rw [← he]; exact h1t
      · exact hmin i hlt hi2
  · intro hns
    rw [assignInputLocation, if_neg hns]
    exact ⟨(lowestOffBit_spec mask).1, fun i hi => (lowestOffBit_spec mask).2 i hi⟩
  · intro npl st d h1 h2 h3 h4
    unfold assignStep
    rw [if_pos ⟨h1, h2, h3⟩, if_pos h4]

/-- Witness for C9 on the non-alias vertex branch: mask 6 (bits 1 and 2
used, bit 0 free), name "color" → location 3, the lowest free ≥ 1. -/
theorem assign_input_location_policy_witness :
    ((0 : Nat) = stageVertex ∧ (6 : Nat).testBit 0 = false ∧
      isVertexAlias "color" = false) ∧
    (1 ≤ assignInputLocation 0 6 "color" ∧
      (6 : Nat).testBit (assignInputLocation 0 6 "color") = false ∧
      ∀ i, 1 ≤ i → i < assignInputLocation 0 6 "color" →
        (6 : Nat).testBit i = true) :=
  ⟨⟨by decide, by decide, by decide⟩,
    (assign_input_location_policy 0 6 "color").2.1 (by decide) (by decide) (by decide)⟩

/-! ### `remap_locations` lemmas -/

theorem getD_append_lt {α : Type} (pre suf : List α) (n : Nat) (d : α)
    (h : n < pre.length) : (pre ++ suf).getD n d = pre.getD n d := by
  induction pre generalizing n with
  | nil => simp at h
  | cons x xs ih =>
    cases n with
    | zero => rfl
    | succ n2 => simpa using ih n2 (by simpa using h)

theorem getD_append_self {α : Type} (pre : List α) (x : α) (suf : List α) (d : α) :
    (pre ++ x :: suf).getD pre.length d = x := by
  induction pre with
  | nil => rfl
  | cons y ys ih => simpa using ih

theorem getD_set_ne {α : Type} (l : List α) (j p : Nat) (x d : α) (h : j ≠ p) :
    (l.set j x).getD p d = l.getD p d := by
  induction l generalizing j p with
  | nil => rfl
  | cons y ys ih =>
    cases j with
    | zero =>
      cases p with
      | zero => omega
      | succ p2 => rfl
    | succ j2 =>
      cases p with
      | zero => rfl
      | succ p2 => simpa using ih j2 p2 (by omega)

theorem lookup_mem_pairs (l : List (Nat × Nat)) (a b : Nat)
    (h : l.lookup a = some b) : (a, b) ∈ l := by
  induction l with
  | nil => cases h
  | cons e rest ih =>
    obtain ⟨k, w⟩ := e
    by_cases hk : (a == k) = true
    · simp only [List.lookup, hk] at h
      have hak : a = k := beq_iff_eq.mp hk
      have hbw : b = w := by cases h; rfl
      subst hak; subst hbw
      exact List.mem_cons_self _ _
    · simp only [List.lookup] at h
      rw [Bool.eq_false_iff.mpr hk] at h
      exact List.mem_cons_of_mem _ (ih h)

theorem remapWrite_length (m : List (Int × Int)) (done : List Instr)
    (o : Option Nat) : (remapWrite m done o).length = done.length := by
  cases o with
  | none => rfl
  | some j =>
    simp only [remapWrite]
    cases m.lookup (u32ToInt ((done.getD j noInstr).args.getD 2 0)) with
    | none => rfl
    | some w => simp

theorem remapWrite_getD_other (m : List (Int × Int)) (done : List Instr)
    (o : Option Nat) (p : Nat) (h : ∀ j, o = some j → j ≠ p) :
    (remapWrite m done o).getD p noInstr = done.getD p noInstr := by
  cases o with
  | none => rfl
  | some j =>
    simp only [remapWrite]
    cases m.lookup (u32ToInt ((done.getD j noInstr).args.getD 2 0)) with
    | none => rfl
    | some w => exact getD_set_ne _ _ _ _ _ (h j rfl)

theorem remap_preserves_late_decoration_aux (sc : Nat) (m : List (Int × Int))
    (instrs : List Instr) (p v : Nat)
    (hdec : (instrs.getD p noInstr).opcode = opDecorate ∧
            (instrs.getD p noInstr).args.getD 0 0 = v)
    (hvars : ∀ q, q < instrs.length → p ≤ q →
      ¬((instrs.getD q noInstr).opcode = opVariable ∧
        (instrs.getD q noInstr).args.getD 2 0 = sc ∧
        (instrs.getD q noInstr).args.getD 1 0 = v)) :
    ∀ (suf pre : List Instr) (st : RState),
      instrs = pre ++ suf →
      st.done.length = pre.length →
      (p < pre.length → st.done.getD p noInstr = instrs.getD p noInstr) →
      (∀ e ∈ st.decs, e.2 < pre.length ∧ (e.2 = p → e.1 = v)) →
      (suf.foldl (remapStep sc m) st).done.length = instrs.length ∧
      (p < instrs.length →
        (suf.foldl (remapStep sc m) st).done.getD p noInstr
          = instrs.getD p noInstr) := by
  intro suf
  induction suf with
  | nil =>
    intro pre st heq hlen hkeep hdecs
    simp only [List.foldl_nil]
    constructor
    · rw [heq, List.append_nil]; exact hlen
    · intro hp
      apply hkeep
      rw [heq, List.append_nil] at hp
      exact hp
  | cons op rest ih =>
    intro pre st heq hlen hkeep hdecs
    rw [List.foldl_cons]
    have hop : instrs.getD pre.length noInstr = op := by
      rw [heq]; exact getD_append_self pre op rest noInstr
    have hlen2 : pre.length < instrs.length := by
      rw [heq]; simp
    have heq2 : instrs = (pre ++ [op]) ++ rest := by rw [heq]; simp
    by_cases hd : op.opcode = opDecorate ∧ op.args.getD 1 0 = decLocation ∧
        3 ≤ op.args.length
    · have hstep : remapStep sc m st op
          = ⟨st.done ++ [op], (op.args.getD 0 0, st.done.length) :: st.decs⟩ := by
        unfold remapStep; rw [if_pos hd]
      rw [hstep]
      apply ih (pre ++ [op]) _ heq2 (by simp [hlen])
      · intro hp
        rcases Nat.lt_or_ge p pre.length with hlt | hge
        · rw [getD_append_lt st.done [op] p noInstr (by rw [hlen]; exact hlt)]
          exact hkeep hlt
        · have hpe : p = pre.length := by
            simp only [List.length_append, List.length_cons, List.length_nil] at hp
            omega
          show (st.done ++ op :: []).getD p noInstr = instrs.getD p noInstr
          rw [hpe, ← hlen, getD_append_self st.done op [] noInstr, hlen, hop]
      · intro e he
        rcases List.mem_cons.mp he with rfl | he2
        · refine ⟨by simp [hlen], ?_⟩
          intro hep
          show op.args.getD 0 0 = v
          have hpe : p = pre.length := by rw [← hep, hlen]
          rw [hpe, hop] at hdec
          exact hdec.2
        · have h2 := hdecs e he2
          refine ⟨?_, h2.2⟩
          have := h2.1
          simp only [List.length_append, List.length_cons, List.length_nil]
          omega
    · have hstep : ∃ X, remapStep sc m st op = ⟨X ++ [op], st.decs⟩ ∧
          X.length = st.done.length ∧ X.getD p noInstr = st.done.getD p noInstr := by
        unfold remapStep
        rw [if_neg hd]
        by_cases hv : op.opcode = opVariable ∧ op.args.getD 2 0 = sc
        · rw [if_pos hv]
          refine ⟨remapWrite m st.done (st.decs.lookup (op.args.getD 1 0)), rfl,
            remapWrite_length m st.done _, ?_⟩
          apply remapWrite_getD_other
          intro j hlu hjeq
          have hmem := lookup_mem_pairs _ _ _ hlu
          have hj := hdecs _ hmem
          have hvv : op.args.getD 1 0 = v := hj.2 hjeq
          apply hvars pre.length hlen2 (by have := hj.1; omega)
          rw [hop]
          exact ⟨hv.1, hv.2, hvv⟩
        · rw [if_neg hv]
          exact ⟨st.done, rfl, rfl, rfl⟩
      obtain ⟨X, hstep, hXlen, hXp⟩ := hstep
      rw [hstep]
      apply ih (pre ++ [op]) _ heq2 (by simp [hXlen, hlen])
      · intro hp
        rcases Nat.lt_or_ge p pre.length with hlt | hge
        · rw [getD_append_lt X [op] p noInstr (by rw [hXlen, hlen]; exact hlt),
            hXp]
          exact hkeep hlt
        · have hpe : p = pre.length := by
            simp only [List.length_append, List.length_cons, List.length_nil] at hp
            omega
          show (X ++ op :: []).getD p noInstr = instrs.getD p noInstr
          rw [hpe, ← hlen, ← hXlen, getD_append_self X op [] noInstr, hXlen, hlen,
            hop]
      · intro e he
        have h2 := hdecs e he
        refine ⟨?_, h2.2⟩
        have := h2.1
        simp only [List.length_append, List.length_cons, List.length_nil]
        omega

/-- Claim C10: `remap_locations` rewrites the location decoration of a
variable of the given storage class only when the decoration occurs
earlier in the stream than the variable's defining instruction: a
location decoration at position `p` targeting `v`, all of whose matching
variable instructions occur before `p`, is left unchanged in the output
at the same position — even when its location value is a key of the
remap map. -/
theorem remap_locations_late_decoration_unchanged (sc : Nat) (m : List (Int × Int))
    (instrs : List Instr) (p v : Nat) (hp : p < instrs.length)
    (hdec : (instrs.getD p noInstr).opcode = opDecorate ∧
            (instrs.getD p noInstr).args.getD 0 0 = v)
    (hvars : ∀ q, q < instrs.length → p ≤ q →
      ¬((instrs.getD q noInstr).opcode = opVariable ∧
        (instrs.getD q noInstr).args.getD 2 0 = sc ∧
        (instrs.getD q noInstr).args.getD 1 0 = v)) :
    (remapLocations sc m instrs).getD p noInstr = instrs.getD p noInstr := by
  have h := remap_preserves_late_decoration_aux sc m instrs p v hdec hvars instrs []
    ⟨[], []⟩ (by simp) rfl (fun hc => absurd hc (by simp)) (fun e he => absurd he (by simp))
  exact h.2 hp

/-- Witness for C10: a variable (ID 6, input class) followed by its
location decoration with value 0; the map sends 0 to 2, yet the
decoration is untouched. -/
theorem remap_locations_late_decoration_unchanged_witness :
    (1 < ([⟨opVariable, [5, 6, scInput]⟩, ⟨opDecorate, [6, decLocation, 0]⟩]
        : List Instr).length ∧
      (([⟨opVariable, [5, 6, scInput]⟩, ⟨opDecorate, [6, decLocation, 0]⟩]
        : List Instr).getD 1 noInstr).opcode = opDecorate) ∧
    (remapLocations scInput [(0, 2)]
        [⟨opVariable, [5, 6, scInput]⟩, ⟨opDecorate, [6, decLocation, 0]⟩]).getD 1 noInstr
      = ([⟨opVariable, [5, 6, scInput]⟩, ⟨opDecorate, [6, decLocation, 0]⟩]
          : List Instr).getD 1 noInstr :=
  ⟨⟨by decide, by decide⟩,
    remap_locations_late_decoration_unchanged scInput [(0, 2)]
      [⟨opVariable, [5, 6, scInput]⟩, ⟨opDecorate, [6, decLocation, 0]⟩] 1 6
      (by decide) (by decide) (by decide)⟩

/-! ### `link_inputs` lemmas -/

theorem buildRemap_none_of_unmatched (prev : SpvModule) (vs : List SVariable) :
    ∀ (acc : List (Int × Int)) (v : SVariable), v ∈ vs →
      findOutput prev v.name = none → buildRemap prev vs acc = none := by
  induction vs with
  | nil => intro acc v hv; cases hv
  | cons w rest ih =>
    intro acc v hv hn
    rcases List.mem_cons.mp hv with rfl | hv2
    · simp only [buildRemap, hn]
    · cases hfo : findOutput prev w.name with
      | none => simp only [buildRemap, hfo]
      | some o =>
        simp only [buildRemap, hfo]
        by_cases hl : o.location < 0
        · rw [if_pos hl]
        · rw [if_neg hl]
          by_cases hdiff : w.location < 0 ∨ o.location ≠ w.location
          · rw [if_pos hdiff]; exact ih _ v hv2 hn
          · rw [if_neg hdiff]; exact ih _ v hv2 hn

theorem buildRemap_none_of_unlocated (prev : SpvModule) (vs : List SVariable) :
    ∀ (acc : List (Int × Int)) (v : SVariable) (o : SVariable), v ∈ vs →
      findOutput prev v.name = some o → o.location < 0 →
      buildRemap prev vs acc = none := by
  induction vs with
  | nil => intro acc v o hv; cases hv
  | cons w rest ih =>
    intro acc v o hv hfo hloc
    rcases List.mem_cons.mp hv with rfl | hv2
    · simp only [buildRemap, hfo]
      rw [if_pos hloc]
    · cases hfw : findOutput prev w.name with
      | none => simp only [buildRemap, hfw]
      | some ow =>
        simp only [buildRemap, hfw]
        by_cases hl : ow.location < 0
        · rw [if_pos hl]
        · rw [if_neg hl]
          by_cases hdiff : w.location < 0 ∨ ow.location ≠ w.location
          · rw [if_pos hdiff]; exact ih _ v o hv2 hfo hloc
          · rw [if_neg hdiff]; exact ih _ v o hv2 hfo hloc

theorem linkInputs_fail_of_remap_none (self prev : SpvModule)
    (h : buildRemap prev self.inputs [] = none) :
    linkInputs self prev = (false, self) := by
  unfold linkInputs
  by_cases hk : !prev.isSpirv
  · rw [if_pos hk]
  · rw [if_neg hk]
    by_cases hs : self.stage ≤ prev.stage
    · rw [if_pos hs]
    · rw [if_neg hs, h]

/-- Claim C7: `link_inputs` fails — returning `false` with the module's
bytecode untouched — when the previous module is not the same concrete
module kind, when the previous stage is not strictly earlier, when some
input has no same-named output in the previous module, and when the
matched output has no assigned location. -/
theorem link_inputs_failure_cases (self prev : SpvModule) :
    (prev.isSpirv = false → linkInputs self prev = (false, self)) ∧
    (self.stage ≤ prev.stage → linkInputs self prev = (false, self)) ∧
    (∀ v ∈ self.inputs, findOutput prev v.name = none →
      linkInputs self prev = (false, self)) ∧
    (∀ v ∈ self.inputs, ∀ o, findOutput prev v.name = some o → o.location < 0 →
      linkInputs self prev = (false, self)) := by
  refine ⟨?_, ?_, ?_, ?_⟩
  · intro h
    unfold linkInputs
    rw [if_pos (by rw [h]; rfl)]
  · intro h
    unfold linkInputs
    by_cases hk : !prev.isSpirv
    · rw [if_pos hk]
    · rw [if_neg hk, if_pos h]
  · intro v hv hn
    exact linkInputs_fail_of_remap_none self prev
      (buildRemap_none_of_unmatched prev self.inputs [] v hv hn)
  · intro v hv o hfo hloc
    exact linkInputs_fail_of_remap_none self prev
      (buildRemap_none_of_unlocated prev self.inputs [] v o hv hfo hloc)

/-- Witness for C7: each failure case at concrete modules — wrong kind,
equal stage, missing "texcoord" output, and an unlocated output. -/
theorem link_inputs_failure_cases_witness :
    ((⟨false, 0, [], [⟨"texcoord", 2⟩], []⟩ : SpvModule).isSpirv = false ∧
      linkInputs exModB ⟨false, 0, [], [⟨"texcoord", 2⟩], []⟩ = (false, exModB)) ∧
    (exModB.stage ≤ (⟨true, 4, [], [⟨"texcoord", 2⟩], []⟩ : SpvModule).stage ∧
      linkInputs exModB ⟨true, 4, [], [⟨"texcoord", 2⟩], []⟩ = (false, exModB)) ∧
    (linkInputs exModB ⟨true, 0, [], [], []⟩ = (false, exModB)) ∧
    (linkInputs exModB ⟨true, 0, [], [⟨"texcoord", -1⟩], []⟩ = (false, exModB)) :=
  ⟨⟨rfl, (link_inputs_failure_cases exModB _).1 rfl⟩,
   ⟨by decide, (link_inputs_failure_cases exModB _).2.1 (by decide)⟩,
   (link_inputs_failure_cases exModB ⟨true, 0, [], [], []⟩).2.2.1
     ⟨"texcoord", -1⟩ (by decide) (by decide),
   (link_inputs_failure_cases exModB ⟨true, 0, [], [⟨"texcoord", -1⟩], []⟩).2.2.2
     ⟨"texcoord", -1⟩ (by decide) ⟨"texcoord", -1⟩ (by decide) (by decide)⟩

/-- Counterexample to claim C8 as stated: linking `exModB` (input
"texcoord" with no assigned location and no location decoration in its
stream) against `exModA` (earlier stage, output "texcoord" at location 2)
succeeds, but the bytecode is left byte-identical and contains no
decoration at all — nothing is rewritten to location 2, because an input
without a location contributes a remap entry keyed by the absent location
−1, which matches no decoration word. -/
theorem link_inputs_no_location_not_rewritten :
    (linkInputs exModB exModA).1 = true ∧
    (linkInputs exModB exModA).2.instrs = exModB.instrs ∧
    exModB.inputs = [⟨"texcoord", -1⟩] ∧
    exModA.outputs = [⟨"texcoord", 2⟩] ∧
    ∀ op ∈ (linkInputs exModB exModA).2.instrs, op.opcode ≠ opDecorate :=
  ⟨by decide, by decide, rfl, rfl, by decide⟩

/-! ### Lemmas towards the amended C8 -/

theorem getD_set_self {α : Type} (l : List α) (j : Nat) (x d : α)
    (h : j < l.length) : (l.set j x).getD j d = x := by
  induction l generalizing j with
  | nil => simp at h
  | cons y ys ih =>
    cases j with
    | zero => rfl
    | succ j2 => simpa using ih j2 (by simpa using h)

theorem u32ToInt_toNat (i : Int) (h0 : 0 ≤ i) (h1 : i < 2 ^ 31) :
    u32ToInt i.toNat = i := by
  unfold u32ToInt
  rw [if_pos (by omega)]
  omega

theorem lookup_replace_self (l : List (Int × Int)) (k v : Int)
    (h : l.any (fun e => e.1 == k) = true) :
    (l.map (fun e => if e.1 = k then (k, v) else e)).lookup k = some v := by
  induction l with
  | nil => simp at h
  | cons e rest ih =>
    by_cases he : e.1 = k
    · simp only [List.map_cons, if_pos he]
      simp [List.lookup]
    · simp only [List.map_cons, if_neg he]
      have hne : (k == e.1) = false :=
        beq_eq_false_iff_ne.mpr (fun hc => he hc.symm)
      simp only [List.lookup, hne]
      apply ih
      simp only [List.any_cons, Bool.or_eq_true] at h
      rcases h with h | h
      · exact absurd (beq_iff_eq.mp h) he
      · exact h

theorem lookup_replace_other (l : List (Int × Int)) (k v k2 : Int)
    (hne : k2 ≠ k) :
    (l.map (fun e => if e.1 = k then (k, v) else e)).lookup k2 = l.lookup k2 := by
  induction l with
  | nil => rfl
  | cons e rest ih =>
    by_cases he : e.1 = k
    · simp only [List.map_cons, if_pos he]
      have h1 : (k2 == k) = false := beq_eq_false_iff_ne.mpr hne
      have h2 : (k2 == e.1) = false := beq_eq_false_iff_ne.mpr (he ▸ hne)
      simp only [List.lookup, h1, h2]
      exact ih
    · simp only [List.map_cons, if_neg he]
      cases hbeq : k2 == e.1 with
      | true => simp only [List.lookup, hbeq]
      | false =>
        simp only [List.lookup, hbeq]
        exact ih

theorem lookup_append_single_self (l : List (Int × Int)) (k v : Int)
    (h : ∀ e ∈ l, (e.1 == k) = false) : (l ++ [(k, v)]).lookup k = some v := by
  induction l with
  | nil => simp [List.lookup]
  | cons e rest ih =>
    have he := h e (by simp)
    have hne : (k == e.1) = false := by
      simp only [beq_eq_false_iff_ne] at he ⊢
      exact fun hc => he hc.symm
    simp only [List.cons_append, List.lookup, hne]
    exact ih (fun e2 h2 => h e2 (by simp [h2]))

theorem lookup_append_single_other (l : List (Int × Int)) (k v k2 : Int)
    (hne : k2 ≠ k) : (l ++ [(k, v)]).lookup k2 = l.lookup k2 := by
  induction l with
  | nil =>
    simp [List.lookup, beq_eq_false_iff_ne.mpr hne]
  | cons e rest ih =>
    cases hbeq : k2 == e.1 with
    | true => simp only [List.cons_append, List.lookup, hbeq]
    | false =>
      simp only [List.cons_append, List.lookup, hbeq]
      exact ih

theorem lookup_insertAssoc_self (l : List (Int × Int)) (k v : Int) :
    (insertAssoc l k v).lookup k = some v := by
  unfold insertAssoc
  by_cases hany : l.any (fun e => e.1 == k) = true
  · rw [if_pos hany]
    exact lookup_replace_self l k v hany
  · rw [if_neg hany]
    apply lookup_append_single_self
    intro e he
    cases hek : (e.1 == k) with
    | false => rfl
    | true => exact absurd (List.any_eq_true.mpr ⟨e, he, hek⟩) hany

theorem lookup_insertAssoc_other (l : List (Int × Int)) (k v k2 : Int)
    (hne : k2 ≠ k) : (insertAssoc l k v).lookup k2 = l.lookup k2 := by
  unfold insertAssoc
  by_cases hany : l.any (fun e => e.1 == k) = true
  · rw [if_pos hany]
    exact lookup_replace_other l k v k2 hne
  · rw [if_neg hany]
    exact lookup_append_single_other l k v k2 hne

theorem buildRemap_isSome (prev : SpvModule) (vs : List SVariable)
    (hmatch : ∀ v ∈ vs, ∃ o, findOutput prev v.name = some o ∧ 0 ≤ o.location) :
    ∀ acc, ∃ r, buildRemap prev vs acc = some r := by
  induction vs with
  | nil => intro acc; exact ⟨acc, rfl⟩
  | cons w rest ih =>
    intro acc
    obtain ⟨o, hfo, hol⟩ := hmatch w (by simp)
    have hrest : ∀ v ∈ rest, ∃ o, findOutput prev v.name = some o ∧ 0 ≤ o.location :=
      fun v hv => hmatch v (by simp [hv])
    simp only [buildRemap, hfo]
    rw [if_neg (by omega)]
    by_cases hdiff : w.location < 0 ∨ o.location ≠ w.location
    · rw [if_pos hdiff]
      exact ih hrest _
    · rw [if_neg hdiff]
      exact ih hrest _

theorem buildRemap_preserve (prev : SpvModule) (vs : List SVariable) :
    ∀ (acc r : List (Int × Int)) (k val : Int),
      buildRemap prev vs acc = some r → acc.lookup k = some val →
      (∀ w ∈ vs, w.location = k →
        ∀ o2, findOutput prev w.name = some o2 → o2.location = val) →
      r.lookup k = some val := by
  induction vs with
  | nil =>
    intro acc r k val hbr hacc _
    cases hbr
    exact hacc
  | cons w rest ih =>
    intro acc r k val hbr hacc hval
    cases hfo : findOutput prev w.name with
    | none => rw [buildRemap, hfo] at hbr; cases hbr
    | some o =>
      simp only [buildRemap, hfo] at hbr
      by_cases hl : o.location < 0
      · rw [if_pos hl] at hbr; cases hbr
      · rw [if_neg hl] at hbr
        by_cases hdiff : w.location < 0 ∨ o.location ≠ w.location
        · rw [if_pos hdiff] at hbr
          apply ih _ r k val hbr ?_ (fun w2 h2 => hval w2 (by simp [h2]))
          by_cases hk : w.location = k
          · rw [hk, lookup_insertAssoc_self]
            rw [hval w (by simp) hk o hfo]
          · rw [lookup_insertAssoc_other _ _ _ _ (fun hc => hk hc.symm)]
            exact hacc
        · rw [if_neg hdiff] at hbr
          exact ih _ r k val hbr hacc (fun w2 h2 => hval w2 (by simp [h2]))

theorem buildRemap_inserts (prev : SpvModule) (vs : List SVariable) :
    ∀ (acc r : List (Int × Int)) (v : SVariable) (o : SVariable),
      buildRemap prev vs acc = some r → v ∈ vs →
      findOutput prev v.name = some o →
      (v.location < 0 ∨ o.location ≠ v.location) →
      (∀ w ∈ vs, w.location = v.location →
        ∀ o2, findOutput prev w.name = some o2 → o2.location = o.location) →
      r.lookup v.location = some o.location := by
  induction vs with
  | nil => intro acc r v o _ hv; cases hv
  | cons w rest ih =>
    intro acc r v o hbr hv hfo hdiff hval
    rcases List.mem_cons.mp hv with rfl | hv2
    · simp only [buildRemap, hfo] at hbr
      by_cases hl : o.location < 0
      · rw [if_pos hl] at hbr; cases hbr
      · rw [if_neg hl, if_pos hdiff] at hbr
        apply buildRemap_preserve prev rest _ r v.location o.location hbr
          (lookup_insertAssoc_self acc v.location o.location)
          (fun w2 h2 => hval w2 (by simp [h2]))
    · cases hfw : findOutput prev w.name with
      | none => rw [buildRemap, hfw] at hbr; cases hbr
      | some ow =>
        simp only [buildRemap, hfw] at hbr
        by_cases hl : ow.location < 0
        · rw [if_pos hl] at hbr; cases hbr
        · rw [if_neg hl] at hbr
          by_cases hdiff2 : w.location < 0 ∨ ow.location ≠ w.location
          · rw [if_pos hdiff2] at hbr
            exact ih _ r v o hbr hv2 hfo hdiff
              (fun w2 h2 => hval w2 (by simp [h2]))
          · rw [if_neg hdiff2] at hbr
            exact ih _ r v o hbr hv2 hfo hdiff
              (fun w2 h2 => hval w2 (by simp [h2]))

theorem lookup_some_nonempty (l : List (Int × Int)) (k v : Int)
    (h : l.lookup k = some v) : l.isEmpty = false := by
  cases l with
  | nil => cases h
  | cons e rest => rfl

theorem remapStep_length (sc : Nat) (m : List (Int × Int)) (st : RState)
    (op : Instr) : (remapStep sc m st op).done.length = st.done.length + 1 := by
  unfold remapStep
  split_ifs with h1 h2
  · simp
  · simp [remapWrite_length]
  · simp

theorem remap_prefix_no_id (sc : Nat) (m : List (Int × Int)) (id : Nat)
    (suf : List Instr) :
    ∀ (st : RState),
      (∀ e ∈ st.decs, e.2 < st.done.length) →
      (∀ e ∈ st.decs, e.1 ≠ id) →
      (∀ op ∈ suf, ¬(op.opcode = opDecorate ∧ op.args.getD 1 0 = decLocation ∧
          3 ≤ op.args.length ∧ op.args.getD 0 0 = id)) →
      (suf.foldl (remapStep sc m) st).done.length = st.done.length + suf.length ∧
      (∀ e ∈ (suf.foldl (remapStep sc m) st).decs,
        e.2 < (suf.foldl (remapStep sc m) st).done.length) ∧
      (∀ e ∈ (suf.foldl (remapStep sc m) st).decs, e.1 ≠ id) := by
  induction suf with
  | nil => intro st h1 h2 _; exact ⟨by simp, h1, h2⟩
  | cons op rest ih =>
    intro st h1 h2 h3
    rw [List.foldl_cons]
    have hlen := remapStep_length sc m st op
    have hdecs : (∀ e ∈ (remapStep sc m st op).decs,
        e.2 < (remapStep sc m st op).done.length) ∧
        (∀ e ∈ (remapStep sc m st op).decs, e.1 ≠ id) := by
      unfold remapStep
      split_ifs with hd hv
      · constructor
        · intro e he
          rcases List.mem_cons.mp he with rfl | he2
          · simp
          · have := h1 e he2
            simp only [List.length_append, List.length_cons, List.length_nil]
            omega
        · intro e he
          rcases List.mem_cons.mp he with rfl | he2
          · intro hc
            exact h3 op (by simp) ⟨hd.1, hd.2.1, hd.2.2, hc⟩
          · exact h2 e he2
      · constructor
        · intro e he
          have := h1 e he
          simp only [List.length_append, remapWrite_length, List.length_cons,
            List.length_nil]
          omega
        · intro e he; exact h2 e he
      · constructor
        · intro e he
          have := h1 e he
          simp only [List.length_append, List.length_cons, List.length_nil]
          omega
        · intro e he; exact h2 e he
    have hres := ih (remapStep sc m st op) hdecs.1 hdecs.2
      (fun op2 hmem => h3 op2 (by simp [hmem]))
    refine ⟨?_, hres.2.1, hres.2.2⟩
    rw [hres.1, hlen, List.length_cons]
    omega

theorem remap_segment (sc : Nat) (m : List (Int × Int)) (id p : Nat)
    (suf : List Instr) :
    ∀ (st : RState),
      p < st.done.length →
      (∀ e ∈ st.decs, e.2 < st.done.length) →
      (∀ e ∈ st.decs, e.2 = p → e.1 = id) →
      (∀ op ∈ suf, ¬(op.opcode = opDecorate ∧ op.args.getD 1 0 = decLocation ∧
          3 ≤ op.args.length ∧ op.args.getD 0 0 = id)) →
      (∀ op ∈ suf, ¬(op.opcode = opVariable ∧ op.args.getD 2 0 = sc ∧
          op.args.getD 1 0 = id)) →
      (suf.foldl (remapStep sc m) st).done.getD p noInstr
          = st.done.getD p noInstr ∧
      (suf.foldl (remapStep sc m) st).decs.lookup id = st.decs.lookup id ∧
      p < (suf.foldl (remapStep sc m) st).done.length ∧
      (∀ e ∈ (suf.foldl (remapStep sc m) st).decs,
        e.2 < (suf.foldl (remapStep sc m) st).done.length) ∧
      (∀ e ∈ (suf.foldl (remapStep sc m) st).decs, e.2 = p → e.1 = id) := by
  induction suf with
  | nil => intro st h1 h2 h3 _ _; exact ⟨rfl, rfl, h1, h2, h3⟩
  | cons op rest ih =>
    intro st h1 h2 h3 h4 h5
    rw [List.foldl_cons]
    have hstep : (remapStep sc m st op).done.getD p noInstr
          = st.done.getD p noInstr ∧
        (remapStep sc m st op).decs.lookup id = st.decs.lookup id ∧
        p < (remapStep sc m st op).done.length ∧
        (∀ e ∈ (remapStep sc m st op).decs,
          e.2 < (remapStep sc m st op).done.length) ∧
        (∀ e ∈ (remapStep sc m st op).decs, e.2 = p → e.1 = id) := by
      unfold remapStep
      split_ifs with hd hv
      · have hnid : op.args.getD 0 0 ≠ id := fun hc =>
          h4 op (by simp) ⟨hd.1, hd.2.1, hd.2.2, hc⟩
        refine ⟨getD_append_lt st.done [op] p noInstr h1, ?_, ?_, ?_, ?_⟩
        · show List.lookup id ((op.args.getD 0 0, st.done.length) :: st.decs) = _
          have hne : (id == op.args.getD 0 0) = false :=
            beq_eq_false_iff_ne.mpr (fun hc => hnid hc.symm)
          simp only [List.lookup, hne]
        · simp only [List.length_append, List.length_cons, List.length_nil]
          omega
        · intro e he
          rcases List.mem_cons.mp he with rfl | he2
          · simp
          · have := h2 e he2
            simp only [List.length_append, List.length_cons, List.length_nil]
            omega
        · intro e he
          rcases List.mem_cons.mp he with rfl | he2
          · intro hc
            exfalso
            have : st.done.length = p := hc
            omega
          · exact h3 e he2
      · have hnid : op.args.getD 1 0 ≠ id := fun hc =>
          h5 op (by simp) ⟨hv.1, hv.2, hc⟩
        refine ⟨?_, rfl, ?_, ?_, h3⟩
        · rw [getD_append_lt _ [op] p noInstr (by rw [remapWrite_length]; exact h1)]
          apply remapWrite_getD_other
          intro j hlu hjp
          have hmem := lookup_mem_pairs _ _ _ hlu
          exact hnid (h3 _ hmem hjp)
        · simp only [List.length_append, remapWrite_length, List.length_cons,
            List.length_nil]
          omega
        · intro e he
          have := h2 e he
          simp only [List.length_append, remapWrite_length, List.length_cons,
            List.length_nil]
          omega
      · refine ⟨getD_append_lt st.done [op] p noInstr h1, rfl, ?_, ?_, h3⟩
        · simp only [List.length_append, List.length_cons, List.length_nil]
          omega
        · intro e he
          have := h2 e he
          simp only [List.length_append, List.length_cons, List.length_nil]
          omega
    have hres := ih (remapStep sc m st op) hstep.2.2.1 hstep.2.2.2.1 hstep.2.2.2.2
      (fun o2 hm2 => h4 o2 (by simp [hm2])) (fun o2 hm2 => h5 o2 (by simp [hm2]))
    exact ⟨hres.1.trans hstep.1, hres.2.1.trans hstep.2.1, hres.2.2.1,
      hres.2.2.2.1, hres.2.2.2.2⟩

theorem remap_locations_rewrites (sc : Nat) (m : List (Int × Int))
    (xs ys zs : List Instr) (t id lw : Nat) (w : Int)
    (hnodec : ∀ op ∈ xs ++ (ys ++ zs), ¬(op.opcode = opDecorate ∧
        op.args.getD 1 0 = decLocation ∧ 3 ≤ op.args.length ∧
        op.args.getD 0 0 = id))
    (hnovar : ∀ op ∈ ys ++ zs, ¬(op.opcode = opVariable ∧
        op.args.getD 2 0 = sc ∧ op.args.getD 1 0 = id))
    (hm : m.lookup (u32ToInt lw) = some w) :
    (remapLocations sc m
        (xs ++ Instr.mk opDecorate [id, decLocation, lw] ::
          (ys ++ Instr.mk opVariable [t, id, sc] :: zs))).getD xs.length noInstr
      = Instr.mk opDecorate [id, decLocation, intToU32 w] := by
  unfold remapLocations
  rw [List.foldl_append, List.foldl_cons]
  have hxs := remap_prefix_no_id sc m id xs ⟨[], []⟩
    (fun e he => absurd he (by simp)) (fun e he => absurd he (by simp))
    (fun op hmem => hnodec op (by simp [hmem]))
  set st1 := xs.foldl (remapStep sc m) (⟨[], []⟩ : RState) with hst1
  have hlen1 : st1.done.length = xs.length := by
    have := hxs.1
    simpa using this
  have hdstep : remapStep sc m st1 (Instr.mk opDecorate [id, decLocation, lw])
      = ⟨st1.done ++ [Instr.mk opDecorate [id, decLocation, lw]],
         (id, st1.done.length) :: st1.decs⟩ := by
    unfold remapStep
    rw [if_pos ⟨rfl, rfl, by simp⟩]
    rfl
  rw [hdstep, List.foldl_append, List.foldl_cons]
  have hys := remap_segment sc m id xs.length ys
    ⟨st1.done ++ [Instr.mk opDecorate [id, decLocation, lw]],
     (id, st1.done.length) :: st1.decs⟩
    (by simp only [List.length_append, List.length_cons, List.length_nil]; omega)
    (by
      intro e he
      rcases List.mem_cons.mp he with rfl | he2
      · simp
      · have := hxs.2.1 e he2
        simp only [List.length_append, List.length_cons, List.length_nil]
        omega)
    (by
      intro e he
      rcases List.mem_cons.mp he with rfl | he2
      · intro _; rfl
      · intro hc
        exfalso
        have := hxs.2.1 e he2
        omega)
    (fun op hmem => hnodec op (by simp [hmem]))
    (fun op hmem => hnovar op (by simp [hmem]))
  set st3 := ys.foldl (remapStep sc m)
    (⟨st1.done ++ [Instr.mk opDecorate [id, decLocation, lw]],
      (id, st1.done.length) :: st1.decs⟩ : RState) with hst3
  have h3p : st3.done.getD xs.length noInstr
      = Instr.mk opDecorate [id, decLocation, lw] := by
    rw [hys.1]
    show (st1.done ++ Instr.mk opDecorate [id, decLocation, lw] :: []).getD
        xs.length noInstr = _
    rw [← hlen1]
    exact getD_append_self st1.done _ [] noInstr
  have h3lu : st3.decs.lookup id = some xs.length := by
    rw [hys.2.1]
    show List.lookup id ((id, st1.done.length) :: st1.decs) = _
    simp [List.lookup, hlen1]
  have hvstep : remapStep sc m st3 (Instr.mk opVariable [t, id, sc])
      = ⟨st3.done.set xs.length
            (Instr.mk opDecorate [id, decLocation, intToU32 w])
          ++ [Instr.mk opVariable [t, id, sc]], st3.decs⟩ := by
    unfold remapStep
    have hvne : (opVariable : Nat) ≠ opDecorate := by decide
    rw [if_neg (fun hc => hvne hc.1), if_pos ⟨rfl, rfl⟩]
    rw [show (Instr.mk opVariable [t, id, sc]).args.getD 1 0 = id from rfl, h3lu]
    simp only [remapWrite, h3p]
    rw [show (Instr.mk opDecorate [id, decLocation, lw]).args.getD 2 0 = lw from rfl,
      hm]
    rfl
  rw [hvstep]
  have hzs := remap_segment sc m id xs.length zs
    ⟨st3.done.set xs.length (Instr.mk opDecorate [id, decLocation, intToU32 w])
        ++ [Instr.mk opVariable [t, id, sc]], st3.decs⟩
    (by
      simp only [List.length_append, List.length_set, List.length_cons,
        List.length_nil]
      have := hys.2.2.1
      omega)
    (by
      intro e he
      have := hys.2.2.2.1 e he
      simp only [List.length_append, List.length_set, List.length_cons,
        List.length_nil]
      omega)
    (fun e he => hys.2.2.2.2 e he)
    (fun op hmem => hnodec op (by simp [hmem]))
    (fun op hmem => hnovar op (by simp [hmem]))
  rw [hzs.1]
  show (st3.done.set xs.length (Instr.mk opDecorate [id, decLocation, intToU32 w])
      ++ [Instr.mk opVariable [t, id, sc]]).getD xs.length noInstr = _
  rw [getD_append_lt _ _ _ _ (by
    rw [List.length_set]
    exact hys.2.2.1)]
  exact getD_set_self st3.done xs.length _ noInstr hys.2.2.1

/-- Claim C8 amended: when every input of this module has a same-named
output with an assigned location in the strictly-earlier previous SPIR-V
module, `link_inputs` succeeds; and every input that has a location
differing from its matched output's — whose unique location decoration
carries that location and precedes the input's variable instruction in
the stream — has that decoration rewritten to the output's location.  An
input with no assigned location has no location decoration, so nothing is
rewritten for it (that is what the counterexample forces out of the
original claim). -/
theorem link_inputs_success_and_rewrite (self prev : SpvModule)
    (hkind : prev.isSpirv = true) (hstage : prev.stage < self.stage)
    (hmatch : ∀ v ∈ self.inputs, ∃ o, findOutput prev v.name = some o ∧
      0 ≤ o.location) :
    (linkInputs self prev).1 = true ∧
    (∀ (inp o : SVariable) (xs ys zs : List Instr) (t id : Nat),
      inp ∈ self.inputs → findOutput prev inp.name = some o →
      0 ≤ inp.location → inp.location < 2 ^ 31 → o.location ≠ inp.location →
      (∀ w ∈ self.inputs, w.location = inp.location →
        ∀ o2, findOutput prev w.name = some o2 → o2.location = o.location) →
      self.instrs = xs ++ Instr.mk opDecorate [id, decLocation, inp.location.toNat]
        :: (ys ++ Instr.mk opVariable [t, id, scInput] :: zs) →
      (∀ op ∈ xs ++ (ys ++ zs), ¬(op.opcode = opDecorate ∧
          op.args.getD 1 0 = decLocation ∧ 3 ≤ op.args.length ∧
          op.args.getD 0 0 = id)) →
      (∀ op ∈ ys ++ zs, ¬(op.opcode = opVariable ∧
          op.args.getD 2 0 = scInput ∧ op.args.getD 1 0 = id)) →
      ((linkInputs self prev).2.instrs).getD xs.length noInstr
        = Instr.mk opDecorate [id, decLocation, intToU32 o.location]) := by
  obtain ⟨r, hr⟩ := buildRemap_isSome prev self.inputs hmatch []
  have hlink : linkInputs self prev
      = (if r.isEmpty then (true, self)
         else (true, {self with instrs := remapLocations scInput r self.instrs})) := by
    unfold linkInputs
    rw [if_neg (by rw [hkind]; simp), if_neg (by omega), hr]
  constructor
  · rw [hlink]
    by_cases he : r.isEmpty
    · rw [if_pos he]
    · rw [if_neg he]
  · intro inp o xs ys zs t id hin hfo hil hismall honeq huniq hshape hnodec hnovar
    have hlul : r.lookup inp.location = some o.location :=
      buildRemap_inserts prev self.inputs [] r inp o hr hin hfo
        (Or.inr honeq) huniq
    have hne : r.isEmpty = false := lookup_some_nonempty r _ _ hlul
    rw [hlink, if_neg (by rw [hne]; simp)]
    show (remapLocations scInput r self.instrs).getD xs.length noInstr = _
    rw [hshape]
    exact remap_locations_rewrites scInput r xs ys zs t id inp.location.toNat
      o.location hnodec hnovar
      (by rw [u32ToInt_toNat inp.location hil hismall]; exact hlul)

/-- Witness for the amended C8: linking rewrites B's decoration from
location 3 to the matched output's location 2. -/
theorem link_inputs_success_and_rewrite_witness :
    (exModA.isSpirv = true ∧ exModA.stage < exModB2.stage) ∧
    ((linkInputs exModB2 exModA).1 = true ∧
      ((linkInputs exModB2 exModA).2.instrs).getD 0 noInstr
        = Instr.mk opDecorate [6, decLocation, intToU32 2]) := by
  have hmatch : ∀ v ∈ exModB2.inputs, ∃ o, findOutput exModA v.name = some o ∧
      0 ≤ o.location := by
    intro v hv
    have hva : v = ⟨"texcoord", 3⟩ := List.mem_singleton.mp hv
    subst hva
    exact ⟨⟨"texcoord", 2⟩, by decide, by decide⟩
  have huniq : ∀ w ∈ exModB2.inputs,
      w.location = (⟨"texcoord", 3⟩ : SVariable).location →
      ∀ o2, findOutput exModA w.name = some o2 →
        o2.location = (⟨"texcoord", 2⟩ : SVariable).location := by
    intro w hw _ o2 hfo2
    have hw2 : w = ⟨"texcoord", 3⟩ := List.mem_singleton.mp hw
    subst hw2
    have hfx : findOutput exModA "texcoord" = some ⟨"texcoord", 2⟩ := by decide
    rw [show (⟨"texcoord", 3⟩ : SVariable).name = "texcoord" from rfl, hfx] at hfo2
    cases hfo2
    rfl
  have h := link_inputs_success_and_rewrite exModB2 exModA rfl (by decide) hmatch
  have h2 := h.2 ⟨"texcoord", 3⟩ ⟨"texcoord", 2⟩ [] [] [] 9 6 (by decide) (by decide)
    (by decide) (by decide) (by decide) huniq (by decide)
    (by intro op hop; simp at hop) (by intro op hop; simp at hop)
  exact ⟨⟨rfl, by decide⟩, h.1, by simpa using h2⟩

theorem set_append_self {α : Type} (l : List α) (x y : α) :
    (l ++ [x]).set l.length y = l ++ [y] := by
  induction l with
  | nil => rfl
  | cons a as ih => simpa using ih

theorem updDef_append_self (defs : List Definition) (x : Definition)
    (f : Definition → Definition) :
    updDef (defs ++ [x]) defs.length f = defs ++ [f x] := by
  unfold updDef
  rw [show getDef (defs ++ [x]) defs.length = x from getD_append_self defs x [] {}]
  exact set_append_self defs x (f x)

theorem foldl_range_congr (f g : Nat → Nat → Nat) :
    ∀ (n : Nat) (acc : Nat), (∀ acc2 i, i < n → f acc2 i = g acc2 i) →
      (List.range n).foldl f acc = (List.range n).foldl g acc := by
  intro n
  induction n with
  | zero => intro acc _; rfl
  | succ m ih =>
    intro acc h
    rw [List.range_succ, List.foldl_append, List.foldl_append]
    simp only [List.foldl_cons, List.foldl_nil]
    rw [ih acc (fun acc2 i hi => h acc2 i (by omega)), h _ m (by omega)]

theorem findTypeId_append_single (l : List Definition) (d : Definition)
    (mt : OptTy) (hd : d.dtype ≠ .dType) :
    findTypeId (l ++ [d]) mt = findTypeId l mt := by
  unfold findTypeId
  rw [show (l ++ [d]).length = l.length + 1 by simp]
  rw [List.range_succ, List.foldl_append]
  simp only [List.foldl_cons, List.foldl_nil]
  rw [show getDef (l ++ [d]) l.length = d from getD_append_self l d [] {}]
  rw [if_neg (fun hc => hd hc.2)]
  apply foldl_range_congr
  intro acc i hi
  rw [show getDef (l ++ [d]) i = getDef l i from getD_append_lt l [d] i {} hi]

theorem findTypeId_append (ext : List Definition) (mt : OptTy)
    (hext : ∀ d ∈ ext, d.dtype ≠ .dType) :
    ∀ defs : List Definition, findTypeId (defs ++ ext) mt = findTypeId defs mt := by
  induction ext with
  | nil => intro defs; rw [List.append_nil]
  | cons d rest ih =>
    intro defs
    rw [show defs ++ d :: rest = (defs ++ [d]) ++ rest by simp]
    rw [ih (fun e he => hext e (List.mem_cons_of_mem d he))]
    exact findTypeId_append_single defs d mt (hext d (List.mem_cons_self d rest))

theorem avoidsIds_iff (bad : List Nat) (op : Instr) :
    avoidsIds bad op = true ↔ ∀ a ∈ op.args, ¬a ∈ bad := by
  unfold avoidsIds
  rw [List.all_eq_true]
  constructor
  · intro h a ha
    have := h a ha
    simpa using this
  · intro h a ha
    simpa using h a ha

theorem avoidsIds_getD (bad : List Nat) (op : Instr)
    (h : avoidsIds bad op = true) (i x : Nat) (hx : x ∈ bad) (hne : x ≠ 0) :
    op.args.getD i 0 ≠ x := by
  intro hc
  by_cases hlen : i < op.args.length
  · have hmem : op.args.getD i 0 ∈ op.args := by
      rw [List.getD_eq_getElem op.args 0 hlen]
      exact List.getElem_mem hlen
    exact ((avoidsIds_iff bad op).mp h _ hmem) (hc ▸ hx)
  · rw [List.getD_eq_default op.args 0 (by omega)] at hc
    exact hne hc.symm

theorem isNameDecOp_iff (oc : Nat) :
    isNameDecOp oc = true ↔
      oc = opName ∨ oc = opMemberName ∨ oc = opDecorate ∨
      oc = opMemberDecorate := by
  simp [isNameDecOp, or_assoc]

theorem genDefs1_eq (mt : OptTy) (defs : List Definition) :
    genDefs1 mt defs defs.length = defs ++ [ptrDef mt] := by
  unfold genDefs1
  rw [updDef_append_self]
  rfl

theorem genDefs2_eq (mt : OptTy) (mn : String) (defs : List Definition) :
    genDefs2 mt mn defs defs.length = defs ++ [ptrDef mt, varDef mt mn] := by
  unfold genDefs2
  rw [genDefs1_eq]
  rw [show defs.length + 1 = (defs ++ [ptrDef mt]).length by simp]
  rw [updDef_append_self]
  rw [List.append_assoc]
  rfl

theorem expectedBlock_append (defs ext : List Definition)
    (hext : ∀ d ∈ ext, d.dtype ≠ .dType) :
    ∀ (ms : List (OptTy × String)) (nid : Nat),
      expectedBlock (defs ++ ext) ms nid = expectedBlock defs ms nid := by
  intro ms
  induction ms with
  | nil => intro nid; rfl
  | cons mp rest ih =>
    obtain ⟨mt, mn⟩ := mp
    intro nid
    simp only [expectedBlock]
    rw [findTypeId_append ext mt hext defs, ih]

theorem genMembers_spec :
    ∀ (mems : List (OptTy × String)) (defs : List Definition),
      (genMembers mems defs defs.length).1 = expectedBlock defs mems defs.length ∧
      (genMembers mems defs defs.length).2.2.2.length = mems.length ∧
      (∀ k, k < mems.length →
        (genMembers mems defs defs.length).2.2.2.getD k 0
          = defs.length + 2 * k + 1) ∧
      (genMembers mems defs defs.length).2.1.length
        = defs.length + 2 * mems.length ∧
      (∀ i, i < defs.length →
        getDef (genMembers mems defs defs.length).2.1 i = getDef defs i) ∧
      (∀ k, k < mems.length →
        getDef (genMembers mems defs defs.length).2.1 (defs.length + 2 * k + 1)
          = varDef (mems.getD k (OptTy.none, "")).1
              (mems.getD k (OptTy.none, "")).2) := by
  intro mems
  induction mems with
  | nil =>
    intro defs
    refine ⟨rfl, rfl, ?_, ?_, ?_, ?_⟩
    · intro k hk; exact absurd hk (by simp)
    · simp [genMembers]
    · intro i _; rfl
    · intro k hk; exact absurd hk (by simp)
  | cons mp rest ih =>
    obtain ⟨mt, mn⟩ := mp
    intro defs
    have hptr : (ptrDef mt).dtype ≠ DType.dType := by simp [ptrDef]
    have hvar : (varDef mt mn).dtype ≠ DType.dType := by simp [varDef]
    have hext : ∀ d ∈ [ptrDef mt, varDef mt mn], d.dtype ≠ DType.dType := by
      intro d hd
      rcases List.mem_cons.mp hd with h | h
      · rw [h]; exact hptr
      · rw [List.mem_singleton.mp h]; exact hvar
    have hlen2 : (defs ++ [ptrDef mt, varDef mt mn]).length = defs.length + 2 := by
      simp
    have hrec : genMembers rest (genDefs2 mt mn defs defs.length) (defs.length + 2)
        = genMembers rest (defs ++ [ptrDef mt, varDef mt mn])
            (defs ++ [ptrDef mt, varDef mt mn]).length := by
      rw [genDefs2_eq, hlen2]
    have ihh := ih (defs ++ [ptrDef mt, varDef mt mn])
    refine ⟨?_, ?_, ?_, ?_, ?_, ?_⟩
    · show Instr.mk opTypePointer [defs.length, scUniformConstant, findTypeId defs mt]
          :: Instr.mk opVariable [defs.length, defs.length + 1, scUniformConstant]
          :: (genMembers rest (genDefs2 mt mn defs defs.length) (defs.length + 2)).1
        = _
      rw [hrec, ihh.1, expectedBlock_append defs _ hext, hlen2]
      rfl
    · show ((defs.length + 1)
          :: (genMembers rest (genDefs2 mt mn defs defs.length)
                (defs.length + 2)).2.2.2).length = _
      rw [hrec, List.length_cons, ihh.2.1, List.length_cons]
    · intro k hk
      show ((defs.length + 1)
          :: (genMembers rest (genDefs2 mt mn defs defs.length)
                (defs.length + 2)).2.2.2).getD k 0 = _
      cases k with
      | zero => simp
      | succ k2 =>
        rw [List.getD_cons_succ, hrec,
          ihh.2.2.1 k2 (by simpa using Nat.lt_of_succ_lt_succ hk), hlen2]
        omega
    · show (genMembers rest (genDefs2 mt mn defs defs.length)
          (defs.length + 2)).2.1.length = _
      rw [hrec, ihh.2.2.2.1, hlen2, List.length_cons]
      omega
    · intro i hi
      show getDef (genMembers rest (genDefs2 mt mn defs defs.length)
          (defs.length + 2)).2.1 i = _
      rw [hrec, ihh.2.2.2.2.1 i (by omega)]
      exact getD_append_lt defs [ptrDef mt, varDef mt mn] i {} hi
    · intro k hk
      cases k with
      | zero =>
        show getDef (genMembers rest (genDefs2 mt mn defs defs.length)
            (defs.length + 2)).2.1 (defs.length + 2 * 0 + 1) = _
        rw [show defs.length + 2 * 0 + 1 = defs.length + 1 by omega]
        rw [hrec, ihh.2.2.2.2.1 (defs.length + 1) (by omega)]
        rw [show defs ++ [ptrDef mt, varDef mt mn]
            = (defs ++ [ptrDef mt]) ++ varDef mt mn :: [] by simp]
        rw [show defs.length + 1 = (defs ++ [ptrDef mt]).length by simp]
        exact getD_append_self (defs ++ [ptrDef mt]) (varDef mt mn) [] {}
      | succ k2 =>
        have hk2 : k2 < rest.length := by simpa using Nat.lt_of_succ_lt_succ hk
        show getDef (genMembers rest (genDefs2 mt mn defs defs.length)
            (defs.length + 2)).2.1 (defs.length + 2 * (k2 + 1) + 1) = _
        rw [show defs.length + 2 * (k2 + 1) + 1
            = (defs ++ [ptrDef mt, varDef mt mn]).length + 2 * k2 + 1 by
          rw [hlen2]; omega]
        rw [hrec, ihh.2.2.2.2.2 k2 hk2]
        rw [List.getD_cons_succ]

theorem unwrapPass1_nil (G : Nat) (mems : List (OptTy × String)) (st : UState) :
    unwrapPass1 G mems st [] = ([], st) := rfl

theorem unwrapPass1_cons (G : Nat) (mems : List (OptTy × String)) (st : UState)
    (op : Instr) (rest : List Instr) :
    unwrapPass1 G mems st (op :: rest)
      = ((unwrapStep G mems st op).1
           ++ (unwrapPass1 G mems (unwrapStep G mems st op).2 rest).1,
         (unwrapPass1 G mems (unwrapStep G mems st op).2 rest).2) := rfl

theorem unwrapPass1_append (G : Nat) (mems : List (OptTy × String)) :
    ∀ (l1 l2 : List Instr) (st : UState),
      unwrapPass1 G mems st (l1 ++ l2)
        = ((unwrapPass1 G mems st l1).1
             ++ (unwrapPass1 G mems (unwrapPass1 G mems st l1).2 l2).1,
           (unwrapPass1 G mems (unwrapPass1 G mems st l1).2 l2).2) := by
  intro l1
  induction l1 with
  | nil => intro l2 st; rfl
  | cons op rest ih =>
    intro l2 st
    rw [List.cons_append, unwrapPass1_cons, ih, unwrapPass1_cons]
    simp [List.append_assoc]

theorem or3_of_orb {a b c : Bool} (h : (a || b || c) = true) :
    a = true ∨ b = true ∨ c = true := by
  rcases Bool.or_eq_true_iff.mp h with hab | hc
  · rcases Bool.or_eq_true_iff.mp hab with h2 | h2
    · exact Or.inl h2
    · exact Or.inr (Or.inl h2)
  · exact Or.inr (Or.inr hc)

theorem unwrapStep_okPre (G P V bound : Nat) (mems : List (OptTy × String))
    (st : UState) (op : Instr)
    (hop : okPre G P V bound op = true)
    (hG : 1 ≤ G) (hP : 1 ≤ P) (hV : 1 ≤ V)
    (hGP : G ≠ P) (hGV : G ≠ V)
    (hdel : ∀ x ∈ st.deleted, x = P) (hch : st.chains = []) :
    unwrapStep G mems st op = (if keepPre G op then [op] else [], st) := by
  have hGne : G ≠ 0 := by omega
  have hPne : P ≠ 0 := by omega
  have hVne : V ≠ 0 := by omega
  have hcont : ∀ i : Nat, op.args.getD i 0 ≠ P →
      st.deleted.contains (op.args.getD i 0) = false := by
    intro i hne
    cases hb : st.deleted.contains (op.args.getD i 0) with
    | false => rfl
    | true =>
      have hmem : op.args.getD i 0 ∈ st.deleted := by simpa using hb
      exact absurd (hdel _ hmem) hne
  rcases or3_of_orb hop with hcl | hfam | hstr
  · -- clean instruction avoiding the block's IDs
    rcases Bool.and_eq_true_iff.mp hcl with ⟨havoid, _⟩
    have hGmem : G ∈ [G, P, V] := by simp
    have hPmem : P ∈ ([G, P, V] : List Nat) := by simp
    have hVmem : V ∈ ([G, P, V] : List Nat) := by simp
    have hne0G := avoidsIds_getD [G, P, V] op havoid 0 G hGmem hGne
    have hne0P := avoidsIds_getD [G, P, V] op havoid 0 P hPmem hPne
    have hne2G := avoidsIds_getD [G, P, V] op havoid 2 G hGmem hGne
    have hne2P := avoidsIds_getD [G, P, V] op havoid 2 P hPmem hPne
    have hkeep : keepPre G op = true := by
      have h0 : (op.args.getD 0 0 == G) = false := beq_eq_false_iff_ne.mpr hne0G
      unfold keepPre
      rw [h0]
      simp
    unfold unwrapStep
    rw [hch]
    rw [if_neg (fun hc => hne0G hc.2.2), if_neg (fun hc => hne0G hc.2.2),
      if_neg (fun hc => hne2G hc.2.2),
      if_neg (fun hc => by rw [hcont 0 hne0P] at hc; exact absurd hc.2.2 (by simp)),
      if_neg (fun hc => by rw [hcont 2 hne2P] at hc; exact absurd hc.2 (by simp)),
      hkeep]
    split_ifs <;> first | rfl | exact absurd rfl (by assumption)
  · -- leftover name or decoration targeting one of the block's IDs
    rcases Bool.and_eq_true_iff.mp hfam with ⟨hfl, htgt⟩
    rcases Bool.and_eq_true_iff.mp hfl with ⟨hf, hlenb⟩
    have hf2 := (isNameDecOp_iff op.opcode).mp hf
    have hlen : 2 ≤ op.args.length := of_decide_eq_true hlenb
    have h1len : decide (1 ≤ op.args.length) = true := decide_eq_true (by omega)
    have hne30 : op.opcode ≠ opTypeStruct := by
      rcases hf2 with h | h | h | h <;> rw [h] <;> decide
    have hne32 : op.opcode ≠ opTypePointer := by
      rcases hf2 with h | h | h | h <;> rw [h] <;> decide
    have hne59 : op.opcode ≠ opVariable := by
      rcases hf2 with h | h | h | h <;> rw [h] <;> decide
    have hne65 : op.opcode ≠ opAccessChain := by
      rcases hf2 with h | h | h | h <;> rw [h] <;> decide
    have hne66 : op.opcode ≠ opInBoundsAccessChain := by
      rcases hf2 with h | h | h | h <;> rw [h] <;> decide
    have hne61 : op.opcode ≠ opLoad := by
      rcases hf2 with h | h | h | h <;> rw [h] <;> decide
    have hne63 : op.opcode ≠ opCopyMemory := by
      rcases hf2 with h | h | h | h <;> rw [h] <;> decide
    by_cases h0G : op.args.getD 0 0 = G
    · have hkeep : keepPre G op = false := by
        have h0b : (op.args.getD 0 0 == G) = true := beq_iff_eq.mpr h0G
        unfold keepPre
        rw [h0b, hf, h1len]
        simp
      unfold unwrapStep
      rw [if_pos ⟨hf2, by omega, h0G⟩, hkeep]
      rfl
    · have h0b : (op.args.getD 0 0 == G) = false := beq_eq_false_iff_ne.mpr h0G
      have hkeep : keepPre G op = true := by
        unfold keepPre
        rw [h0b]
        simp
      unfold unwrapStep
      rw [hch]
      rw [if_neg (fun hc => h0G hc.2.2), if_neg (fun hc => hne30 hc.1),
        if_neg (fun hc => hne32 hc.1), if_neg (fun hc => hne59 hc.1),
        if_neg (fun hc => by rcases hc.1 with h | h; exact hne65 h; exact hne66 h),
        if_neg hne61, if_neg hne63, hkeep]
      rfl
  · -- the $Global struct definition itself
    rcases Bool.and_eq_true_iff.mp hstr with ⟨hsl, _⟩
    rcases Bool.and_eq_true_iff.mp hsl with ⟨hsll, h0b⟩
    rcases Bool.and_eq_true_iff.mp hsll with ⟨hsb, hlenb⟩
    have hs : op.opcode = opTypeStruct := beq_iff_eq.mp hsb
    have h0G : op.args.getD 0 0 = G := beq_iff_eq.mp h0b
    have hlen : 1 ≤ op.args.length := of_decide_eq_true hlenb
    have hnotfam : ¬(op.opcode = opName ∨ op.opcode = opMemberName ∨
        op.opcode = opDecorate ∨ op.opcode = opMemberDecorate) := by
      rw [hs]; decide
    have hkeep : keepPre G op = false := by
      unfold keepPre
      rw [hsb, hlenb, h0b]
      simp
    unfold unwrapStep
    rw [if_neg (fun hc => hnotfam hc.1), if_pos ⟨hs, hlen, h0G⟩, hkeep]
    rfl

theorem unwrapPass1_okPre (G P V bound : Nat) (mems : List (OptTy × String))
    (hG : 1 ≤ G) (hP : 1 ≤ P) (hV : 1 ≤ V) (hGP : G ≠ P) (hGV : G ≠ V) :
    ∀ (l : List Instr) (st : UState),
      (∀ op ∈ l, okPre G P V bound op = true) →
      (∀ x ∈ st.deleted, x = P) → st.chains = [] →
      unwrapPass1 G mems st l = (l.filter (keepPre G), st) := by
  intro l
  induction l with
  | nil => intro st _ _ _; rfl
  | cons op rest ih =>
    intro st hl hdel hch
    rw [unwrapPass1_cons,
      unwrapStep_okPre G P V bound mems st op (hl op (by simp)) hG hP hV hGP hGV
        hdel hch,
      ih st (fun o ho => hl o (List.mem_cons_of_mem op ho)) hdel hch]
    by_cases hk : keepPre G op = true
    · simp [List.filter_cons, hk]
    · simp [List.filter_cons, Bool.eq_false_iff.mpr hk]

theorem unwrapStep_pointer (G P pclass : Nat) (mems : List (OptTy × String))
    (st : UState) :
    unwrapStep G mems st (Instr.mk opTypePointer [P, pclass, G])
      = ([], ⟨P :: st.deleted, st.chains, st.memberIds, st.defs, st.nextId⟩) := by
  have hno1 : ¬(opTypePointer = opName ∨ opTypePointer = opMemberName ∨
      opTypePointer = opDecorate ∨ opTypePointer = opMemberDecorate) := by decide
  have hno2 : opTypePointer ≠ opTypeStruct := by decide
  unfold unwrapStep
  rw [if_neg (fun hc => hno1 hc.1), if_neg (fun hc => hno2 hc.1),
    if_pos ⟨rfl, by simp, rfl⟩]
  rfl

theorem unwrapStep_variable (G P V vclass : Nat) (mems : List (OptTy × String))
    (st : UState) (hPdel : st.deleted.contains P = true) :
    unwrapStep G mems st (Instr.mk opVariable [P, V, vclass])
      = ((genMembers mems st.defs st.nextId).1,
         ⟨V :: st.deleted, st.chains, (genMembers mems st.defs st.nextId).2.2.2,
          (genMembers mems st.defs st.nextId).2.1,
          (genMembers mems st.defs st.nextId).2.2.1⟩) := by
  have hno1 : ¬(opVariable = opName ∨ opVariable = opMemberName ∨
      opVariable = opDecorate ∨ opVariable = opMemberDecorate) := by decide
  have hno2 : opVariable ≠ opTypeStruct := by decide
  have hno3 : opVariable ≠ opTypePointer := by decide
  unfold unwrapStep
  rw [if_neg (fun hc => hno1 hc.1), if_neg (fun hc => hno2 hc.1),
    if_neg (fun hc => hno3 hc.1), if_pos ⟨rfl, by simp, hPdel⟩]
  rfl

theorem exists_four_cons (l : List Nat) (h : 4 ≤ l.length) :
    ∃ a0 a1 a2 a3 rest, l = a0 :: a1 :: a2 :: a3 :: rest := by
  cases l with
  | nil => simp at h
  | cons a0 t0 =>
    cases t0 with
    | nil => simp at h
    | cons a1 t1 =>
      cases t1 with
      | nil => simp at h
      | cons a2 t2 =>
        cases t2 with
        | nil => simp at h
        | cons a3 rest => exact ⟨a0, a1, a2, a3, rest, rfl⟩

theorem unwrapStep_okPost (G P V bound M : Nat) (defs dfs : List Definition)
    (mids : List Nat) (nid : Nat) (mems : List (OptTy × String))
    (φ : List (Nat × Nat)) (op : Instr)
    (hop : okPost G P V bound M defs op = true)
    (hG : 1 ≤ G) (hGb : G < bound) (hP : 1 ≤ P) (hPb : P < bound)
    (hV : 1 ≤ V) (hVb : V < bound)
    (hdfs : ∀ i, i < bound → getDef dfs i = getDef defs i)
    (hφ : ∀ e ∈ φ, bound ≤ e.2) :
    (unwrapStep G mems ⟨[V, P], φ, mids, dfs, nid⟩ op
        = ([op], ⟨[V, P], φ, mids, dfs, nid⟩) ∧
      avoidsIds [G, P, V] op = true ∧ isNameDecOp op.opcode = false ∧
      (op.opcode = opVariable → op.args.getD 1 0 < bound) ∧
      (op.opcode = opLoad → φ.lookup (op.args.getD 2 0) = none) ∧
      (op.opcode = opCopyMemory → φ.lookup (op.args.getD 1 0) = none)) ∨
    (∃ mid, bound ≤ mid ∧ avoidsIds [G, P, V] op = true ∧
      ((op.opcode = opLoad ∧ φ.lookup (op.args.getD 2 0) = some mid ∧
        unwrapStep G mems ⟨[V, P], φ, mids, dfs, nid⟩ op
          = ([Instr.mk opLoad (op.args.set 2 mid)],
             ⟨[V, P], φ, mids, dfs, nid⟩)) ∨
       (op.opcode = opCopyMemory ∧ φ.lookup (op.args.getD 1 0) = some mid ∧
        unwrapStep G mems ⟨[V, P], φ, mids, dfs, nid⟩ op
          = ([Instr.mk opCopyMemory (op.args.set 1 mid)],
             ⟨[V, P], φ, mids, dfs, nid⟩)))) ∨
    (∃ rt r i0 extra, op.args = rt :: r :: V :: i0 :: extra ∧
      (op.opcode = opAccessChain ∨ op.opcode = opInBoundsAccessChain) ∧
      ¬rt ∈ ([G, P, V] : List Nat) ∧ ¬r ∈ ([G, P, V] : List Nat) ∧
      ¬i0 ∈ ([G, P, V] : List Nat) ∧
      (∀ a ∈ extra, ¬a ∈ ([G, P, V] : List Nat)) ∧
      (getDef defs i0).constant < M ∧
      ((extra ≠ [] ∧
        unwrapStep G mems ⟨[V, P], φ, mids, dfs, nid⟩ op
          = ([Instr.mk op.opcode
               (rt :: r :: mids.getD ((getDef defs i0).constant) 0 :: extra)],
             ⟨[V, P], φ, mids, dfs, nid⟩)) ∨
       (extra = [] ∧
        unwrapStep G mems ⟨[V, P], φ, mids, dfs, nid⟩ op
          = ([], ⟨[V, P],
              (r, mids.getD ((getDef defs i0).constant) 0) :: φ,
              mids, dfs, nid⟩)))) := by
  have hGne : G ≠ 0 := by omega
  have hPne : P ≠ 0 := by omega
  have hVne : V ≠ 0 := by omega
  have hGmem : G ∈ ([G, P, V] : List Nat) := by simp
  have hPmem : P ∈ ([G, P, V] : List Nat) := by simp
  have hVmem : V ∈ ([G, P, V] : List Nat) := by simp
  have hcont2 : ∀ x : Nat, x ≠ V → x ≠ P →
      ([V, P] : List Nat).contains x = false := by
    intro x hxV hxP
    cases hb : ([V, P] : List Nat).contains x with
    | false => rfl
    | true =>
      have hm : x ∈ ([V, P] : List Nat) := by simpa using hb
      rcases (by simpa using hm : x = V ∨ x = P) with h | h
      · exact absurd h hxV
      · exact absurd h hxP
  rcases Bool.or_eq_true_iff.mp hop with hclean | hchain
  · -- clean instruction
    rcases Bool.and_eq_true_iff.mp hclean with ⟨hcl2, hvarok⟩
    rcases Bool.and_eq_true_iff.mp hcl2 with ⟨havoid, hnofamb⟩
    have hnofam0 : isNameDecOp op.opcode = false := by
      cases hb : isNameDecOp op.opcode with
      | false => rfl
      | true => rw [hb] at hnofamb; exact absurd hnofamb (by decide)
    have hnofam : ¬(op.opcode = opName ∨ op.opcode = opMemberName ∨
        op.opcode = opDecorate ∨ op.opcode = opMemberDecorate) := by
      intro hor
      rw [(isNameDecOp_iff op.opcode).mpr hor] at hnofam0
      exact absurd hnofam0 (by decide)
    have hvar : op.opcode = opVariable → op.args.getD 1 0 < bound := by
      intro h59
      rcases Bool.or_eq_true_iff.mp hvarok with h | h
      · rw [h59] at h
        exact absurd h (by decide)
      · exact of_decide_eq_true h
    have hne0G := avoidsIds_getD [G, P, V] op havoid 0 G hGmem hGne
    have hne0P := avoidsIds_getD [G, P, V] op havoid 0 P hPmem hPne
    have hne0V := avoidsIds_getD [G, P, V] op havoid 0 V hVmem hVne
    have hne2G := avoidsIds_getD [G, P, V] op havoid 2 G hGmem hGne
    have hne2P := avoidsIds_getD [G, P, V] op havoid 2 P hPmem hPne
    have hne2V := avoidsIds_getD [G, P, V] op havoid 2 V hVmem hVne
    by_cases h61 : op.opcode = opLoad
    · cases hlu : φ.lookup (op.args.getD 2 0) with
      | none =>
        refine Or.inl ⟨?_, havoid, hnofam0, hvar, fun _ => rfl,
          fun h => absurd (h61.symm.trans h) (by decide)⟩
        unfold unwrapStep
        rw [if_neg (fun hc => hnofam hc.1), if_neg (fun hc => hne0G hc.2.2),
          if_neg (fun hc => hne2G hc.2.2),
          if_neg (fun hc => by
            rw [hcont2 _ hne0V hne0P] at hc; exact absurd hc.2.2 (by simp)),
          if_neg (fun hc => by
            rw [hcont2 _ hne2V hne2P] at hc; exact absurd hc.2 (by simp)),
          if_pos h61, hlu]
      | some mid =>
        have hmid : bound ≤ mid := hφ _ (lookup_mem_pairs φ _ _ hlu)
        refine Or.inr (Or.inl ⟨mid, hmid, havoid, Or.inl ⟨h61, rfl, ?_⟩⟩)
        unfold unwrapStep
        rw [if_neg (fun hc => hnofam hc.1), if_neg (fun hc => hne0G hc.2.2),
          if_neg (fun hc => hne2G hc.2.2),
          if_neg (fun hc => by
            rw [hcont2 _ hne0V hne0P] at hc; exact absurd hc.2.2 (by simp)),
          if_neg (fun hc => by
            rw [hcont2 _ hne2V hne2P] at hc; exact absurd hc.2 (by simp)),
          if_pos h61, hlu, h61]
    by_cases h63 : op.opcode = opCopyMemory
    · have hne1G := avoidsIds_getD [G, P, V] op havoid 1 G hGmem hGne
      have hne1P := avoidsIds_getD [G, P, V] op havoid 1 P hPmem hPne
      have hne1V := avoidsIds_getD [G, P, V] op havoid 1 V hVmem hVne
      cases hlu : φ.lookup (op.args.getD 1 0) with
      | none =>
        refine Or.inl ⟨?_, havoid, hnofam0, hvar, fun h => absurd h h61,
          fun _ => rfl⟩
        unfold unwrapStep
        rw [if_neg (fun hc => hnofam hc.1), if_neg (fun hc => hne0G hc.2.2),
          if_neg (fun hc => hne2G hc.2.2),
          if_neg (fun hc => by
            rw [hcont2 _ hne0V hne0P] at hc; exact absurd hc.2.2 (by simp)),
          if_neg (fun hc => by
            rw [hcont2 _ hne2V hne2P] at hc; exact absurd hc.2 (by simp)),
          if_neg h61, if_pos h63, hlu]
      | some mid =>
        have hmid : bound ≤ mid := hφ _ (lookup_mem_pairs φ _ _ hlu)
        refine Or.inr (Or.inl ⟨mid, hmid, havoid, Or.inr ⟨h63, rfl, ?_⟩⟩)
        unfold unwrapStep
        rw [if_neg (fun hc => hnofam hc.1), if_neg (fun hc => hne0G hc.2.2),
          if_neg (fun hc => hne2G hc.2.2),
          if_neg (fun hc => by
            rw [hcont2 _ hne0V hne0P] at hc; exact absurd hc.2.2 (by simp)),
          if_neg (fun hc => by
            rw [hcont2 _ hne2V hne2P] at hc; exact absurd hc.2 (by simp)),
          if_neg h61, if_pos h63, hlu, h63]
    · refine Or.inl ⟨?_, havoid, hnofam0, hvar, fun h => absurd h h61,
        fun h => absurd h h63⟩
      unfold unwrapStep
      rw [if_neg (fun hc => hnofam hc.1), if_neg (fun hc => hne0G hc.2.2),
        if_neg (fun hc => hne2G hc.2.2),
        if_neg (fun hc => by
          rw [hcont2 _ hne0V hne0P] at hc; exact absurd hc.2.2 (by simp)),
        if_neg (fun hc => by
          rw [hcont2 _ hne2V hne2P] at hc; exact absurd hc.2 (by simp)),
        if_neg h61, if_neg h63]
  · -- access chain based on the deleted variable
    rcases Bool.and_eq_true_iff.mp hchain with ⟨hc6, hcMb⟩
    rcases Bool.and_eq_true_iff.mp hc6 with ⟨hc5, ha3b⟩
    rcases Bool.and_eq_true_iff.mp hc5 with ⟨hc4, hdropb⟩
    rcases Bool.and_eq_true_iff.mp hc4 with ⟨hc3, htakeb⟩
    rcases Bool.and_eq_true_iff.mp hc3 with ⟨hc2, hvb⟩
    rcases Bool.and_eq_true_iff.mp hc2 with ⟨hocb, hlenb⟩
    have hoc : op.opcode = opAccessChain ∨ op.opcode = opInBoundsAccessChain := by
      rcases Bool.or_eq_true_iff.mp hocb with h | h
      · exact Or.inl (beq_iff_eq.mp h)
      · exact Or.inr (beq_iff_eq.mp h)
    have hlen4 : 4 ≤ op.args.length := of_decide_eq_true hlenb
    have ha3 : op.args.getD 3 0 < bound := of_decide_eq_true ha3b
    have hcM : (getDef defs (op.args.getD 3 0)).constant < M :=
      of_decide_eq_true hcMb
    have hnofam : ¬(op.opcode = opName ∨ op.opcode = opMemberName ∨
        op.opcode = opDecorate ∨ op.opcode = opMemberDecorate) := by
      rcases hoc with h | h <;> rw [h] <;> decide
    have hne30 : op.opcode ≠ opTypeStruct := by
      rcases hoc with h | h <;> rw [h] <;> decide
    have hne32 : op.opcode ≠ opTypePointer := by
      rcases hoc with h | h <;> rw [h] <;> decide
    have hne59 : op.opcode ≠ opVariable := by
      rcases hoc with h | h <;> rw [h] <;> decide
    obtain ⟨a0, a1, a2, a3, rest, hargs⟩ := exists_four_cons op.args hlen4
    have hv : a2 = V := by
      have := beq_iff_eq.mp hvb
      rw [hargs] at this
      simpa using this
    have htk := List.all_eq_true.mp htakeb
    have hdp := List.all_eq_true.mp hdropb
    have h0nb : ¬a0 ∈ ([G, P, V] : List Nat) := by
      have := htk a0 (by rw [hargs]; simp)
      simpa using this
    have h1nb : ¬a1 ∈ ([G, P, V] : List Nat) := by
      have := htk a1 (by rw [hargs]; simp)
      simpa using this
    have h3nb : ¬a3 ∈ ([G, P, V] : List Nat) := by
      have := hdp a3 (by rw [hargs]; simp)
      simpa using this
    have hrnb : ∀ a ∈ rest, ¬a ∈ ([G, P, V] : List Nat) := by
      intro a ha
      have := hdp a (by rw [hargs]; simp [ha])
      simpa using this
    have ha3v : op.args.getD 3 0 = a3 := by rw [hargs]; rfl
    have hdfs3 : getDef dfs a3 = getDef defs a3 := hdfs a3 (ha3v ▸ ha3)
    have hcond5 : (op.opcode = opAccessChain ∨ op.opcode = opInBoundsAccessChain)
        ∧ ([V, P] : List Nat).contains (op.args.getD 2 0) = true := by
      refine ⟨hoc, ?_⟩
      rw [hargs]
      show ([V, P] : List Nat).contains a2 = true
      rw [hv]
      simp
    refine Or.inr (Or.inr ⟨a0, a1, a3, rest, by rw [hargs, hv], hoc, h0nb, h1nb,
      h3nb, hrnb, ha3v ▸ hcM, ?_⟩)
    cases rest with
    | nil =>
      refine Or.inr ⟨rfl, ?_⟩
      unfold unwrapStep
      rw [if_neg (fun hc => hnofam hc.1), if_neg (fun hc => hne30 hc.1),
        if_neg (fun hc => hne32 hc.1), if_neg (fun hc => hne59 hc.1),
        if_pos hcond5,
        if_neg (by rw [hargs]; simp)]
      rw [hargs]
      show ([], UState.mk [V, P]
          ((a1, mids.getD ((getDef dfs a3).constant) 0) :: φ) mids dfs nid) = _
      rw [hdfs3]
    | cons e0 erest =>
      refine Or.inl ⟨by simp, ?_⟩
      unfold unwrapStep
      rw [if_neg (fun hc => hnofam hc.1), if_neg (fun hc => hne30 hc.1),
        if_neg (fun hc => hne32 hc.1), if_neg (fun hc => hne59 hc.1),
        if_pos hcond5,
        if_pos (by rw [hargs]; simp)]
      rw [hargs]
      show ([Instr.mk op.opcode
          (a0 :: a1 :: mids.getD ((getDef dfs a3).constant) 0 :: e0 :: erest)],
        UState.mk [V, P] φ mids dfs nid) = _
      rw [hdfs3]

theorem lookup_cons_of_ne (k v r : Nat) (φ : List (Nat × Nat)) (h : k ≠ r) :
    ((k, v) :: φ).lookup r = φ.lookup r := by
  have hb : (r == k) = false := beq_eq_false_iff_ne.mpr (fun hc => h hc.symm)
  simp [List.lookup, hb]

theorem notMem_bad_of_le (G P V bound x : Nat) (hGb : G < bound) (hPb : P < bound)
    (hVb : V < bound) (hx : bound ≤ x) : ¬x ∈ ([G, P, V] : List Nat) := by
  intro hmm
  rcases (by simpa using hmm : x = G ∨ x = P ∨ x = V) with h | h | h <;> omega

theorem unwrapPass1_okPost (G P V bound M : Nat) (defs dfs : List Definition)
    (mids : List Nat) (nid : Nat) (mems : List (OptTy × String))
    (hG : 1 ≤ G) (hGb : G < bound) (hP : 1 ≤ P) (hPb : P < bound)
    (hV : 1 ≤ V) (hVb : V < bound)
    (hdfs : ∀ i, i < bound → getDef dfs i = getDef defs i)
    (hmid : ∀ k, k < M → mids.getD k 0 = bound + 2 * k + 1) :
    ∀ (l : List Instr) (φ : List (Nat × Nat)),
      (∀ op ∈ l, okPost G P V bound M defs op = true) →
      (∀ e ∈ φ, bound ≤ e.2) →
      (∀ op ∈ (unwrapPass1 G mems ⟨[V, P], φ, mids, dfs, nid⟩ l).1,
         avoidsIds [G, P, V] op = true ∧ isNameDecOp op.opcode = false ∧
         (op.opcode == opVariable && decide (bound ≤ op.args.getD 1 0)) = false) ∧
      (∃ φ2, (unwrapPass1 G mems ⟨[V, P], φ, mids, dfs, nid⟩ l).2
          = ⟨[V, P], φ2, mids, dfs, nid⟩ ∧ ∀ e ∈ φ2, bound ≤ e.2) ∧
      (∀ oc rt r i0 extra, Instr.mk oc (rt :: r :: V :: i0 :: extra) ∈ l →
        extra ≠ [] →
        Instr.mk oc
            (rt :: r :: (bound + 2 * (getDef defs i0).constant + 1) :: extra)
          ∈ (unwrapPass1 G mems ⟨[V, P], φ, mids, dfs, nid⟩ l).1) := by
  intro l
  induction l with
  | nil =>
    intro φ hl hφ
    refine ⟨fun op h => absurd h (by simp [unwrapPass1_nil]), ⟨φ, rfl, hφ⟩, ?_⟩
    intro oc rt r i0 extra hmem _
    exact absurd hmem (by simp)
  | cons op rest ih =>
    intro φ hl hφ
    have hop := hl op (by simp)
    have hstep := unwrapStep_okPost G P V bound M defs dfs mids nid mems φ op hop
      hG hGb hP hPb hV hVb hdfs hφ
    have hltail : ∀ o ∈ rest, okPost G P V bound M defs o = true :=
      fun o ho => hl o (List.mem_cons_of_mem op ho)
    rcases hstep with ⟨heq, havoid, hfam, hvarb, -, -⟩ |
      ⟨mid, hmidb, havoid, hcase⟩ |
      ⟨rt0, r0, i0, extra0, hargs, hoc, h0nb, h1nb, h3nb, hrnb, hcM, hbr⟩
    · -- untouched instruction
      have h1 : (unwrapStep G mems ⟨[V, P], φ, mids, dfs, nid⟩ op).1 = [op] := by
        rw [heq]
      have h2 : (unwrapStep G mems ⟨[V, P], φ, mids, dfs, nid⟩ op).2
          = ⟨[V, P], φ, mids, dfs, nid⟩ := by rw [heq]
      rw [unwrapPass1_cons, h1, h2]
      obtain ⟨ih1, ih2, ih5⟩ := ih φ hltail hφ
      refine ⟨?_, ih2, ?_⟩
      · intro op2 hm
        rcases List.mem_append.mp hm with h | h
        · rw [List.mem_singleton.mp h]
          refine ⟨havoid, hfam, ?_⟩
          by_cases h59 : op.opcode = opVariable
          · have hd : decide (bound ≤ op.args.getD 1 0) = false :=
              decide_eq_false (by have := hvarb h59; omega)
            rw [hd, Bool.and_false]
          · simp [beq_eq_false_iff_ne.mpr h59]
        · exact ih1 op2 h
      · intro oc rt r i0 extra hmem hne
        rcases List.mem_cons.mp hmem with hh | hh
        · exfalso
          have hVin : V ∈ op.args := by rw [← hh]; simp
          exact (avoidsIds_iff _ op).mp havoid V hVin (by simp)
        · exact List.mem_append_right _ (ih5 oc rt r i0 extra hh hne)
    · -- redirected load or copy
      have hmidnb : ¬mid ∈ ([G, P, V] : List Nat) :=
        notMem_bad_of_le G P V bound mid hGb hPb hVb hmidb
      obtain ⟨ih1, ih2, ih5⟩ := ih φ hltail hφ
      rcases hcase with ⟨h61, hlu, heq⟩ | ⟨h63, hlu, heq⟩
      · have h1 : (unwrapStep G mems ⟨[V, P], φ, mids, dfs, nid⟩ op).1
            = [Instr.mk opLoad (op.args.set 2 mid)] := by rw [heq]
        have h2 : (unwrapStep G mems ⟨[V, P], φ, mids, dfs, nid⟩ op).2
            = ⟨[V, P], φ, mids, dfs, nid⟩ := by rw [heq]
        rw [unwrapPass1_cons, h1, h2]
        refine ⟨?_, ih2, ?_⟩
        · intro op2 hm
          rcases List.mem_append.mp hm with h | h
          · rw [List.mem_singleton.mp h]
            refine ⟨?_, rfl, rfl⟩
            rw [avoidsIds_iff]
            intro a ha
            rcases List.mem_or_eq_of_mem_set (by simpa using ha) with hm2 | hm2
            · exact (avoidsIds_iff _ op).mp havoid a hm2
            · rw [hm2]; exact hmidnb
          · exact ih1 op2 h
        · intro oc rt r i0 extra hmem hne
          rcases List.mem_cons.mp hmem with hh | hh
          · exfalso
            have hVin : V ∈ op.args := by rw [← hh]; simp
            exact (avoidsIds_iff _ op).mp havoid V hVin (by simp)
          · exact List.mem_append_right _ (ih5 oc rt r i0 extra hh hne)
      · have h1 : (unwrapStep G mems ⟨[V, P], φ, mids, dfs, nid⟩ op).1
            = [Instr.mk opCopyMemory (op.args.set 1 mid)] := by rw [heq]
        have h2 : (unwrapStep G mems ⟨[V, P], φ, mids, dfs, nid⟩ op).2
            = ⟨[V, P], φ, mids, dfs, nid⟩ := by rw [heq]
        rw [unwrapPass1_cons, h1, h2]
        refine ⟨?_, ih2, ?_⟩
        · intro op2 hm
          rcases List.mem_append.mp hm with h | h
          · rw [List.mem_singleton.mp h]
            refine ⟨?_, rfl, rfl⟩
            rw [avoidsIds_iff]
            intro a ha
            rcases List.mem_or_eq_of_mem_set (by simpa using ha) with hm2 | hm2
            · exact (avoidsIds_iff _ op).mp havoid a hm2
            · rw [hm2]; exact hmidnb
          · exact ih1 op2 h
        · intro oc rt r i0 extra hmem hne
          rcases List.mem_cons.mp hmem with hh | hh
          · exfalso
            have hVin : V ∈ op.args := by rw [← hh]; simp
            exact (avoidsIds_iff _ op).mp havoid V hVin (by simp)
          · exact List.mem_append_right _ (ih5 oc rt r i0 extra hh hne)
    · -- access chain on the deleted variable
      have hmidv : mids.getD ((getDef defs i0).constant) 0
          = bound + 2 * (getDef defs i0).constant + 1 := hmid _ hcM
      have hmidnb : ¬mids.getD ((getDef defs i0).constant) 0
          ∈ ([G, P, V] : List Nat) := by
        rw [hmidv]
        exact notMem_bad_of_le G P V bound _ hGb hPb hVb (by omega)
      rcases hbr with ⟨hne0, heq⟩ | ⟨hex0, heq⟩
      · -- multi-index chain, rewritten in place
        have h1 : (unwrapStep G mems ⟨[V, P], φ, mids, dfs, nid⟩ op).1
            = [Instr.mk op.opcode
                (rt0 :: r0 :: mids.getD ((getDef defs i0).constant) 0 :: extra0)] := by
          rw [heq]
        have h2 : (unwrapStep G mems ⟨[V, P], φ, mids, dfs, nid⟩ op).2
            = ⟨[V, P], φ, mids, dfs, nid⟩ := by rw [heq]
        rw [unwrapPass1_cons, h1, h2]
        obtain ⟨ih1, ih2, ih5⟩ := ih φ hltail hφ
        refine ⟨?_, ih2, ?_⟩
        · intro op2 hm
          rcases List.mem_append.mp hm with h | h
          · rw [List.mem_singleton.mp h]
            refine ⟨?_, ?_, ?_⟩
            · rw [avoidsIds_iff]
              intro a ha
              rcases (by simpa using ha :
                  a = rt0 ∨ a = r0 ∨
                  a = mids.getD ((getDef defs i0).constant) 0 ∨ a ∈ extra0)
                with h' | h' | h' | h'
              · rw [h']; exact h0nb
              · rw [h']; exact h1nb
              · rw [h']; exact hmidnb
              · exact hrnb a h'
            · show isNameDecOp op.opcode = false
              rcases hoc with h' | h' <;> rw [h'] <;> decide
            · show (op.opcode == opVariable && _) = false
              have : (op.opcode == opVariable) = false := by
                rcases hoc with h' | h' <;> rw [h'] <;> decide
              simp [this]
          · exact ih1 op2 h
        · intro oc rt r i0b extra hmem hne
          rcases List.mem_cons.mp hmem with hh | hh
          · -- the head is this very chain
            have hae : op.args = rt :: r :: V :: i0b :: extra := by rw [← hh]
            have hoce : op.opcode = oc := by rw [← hh]
            obtain ⟨e1, e2, e3, e4⟩ :
                rt0 = rt ∧ r0 = r ∧ i0 = i0b ∧ extra0 = extra := by
              have := hargs.symm.trans hae
              simpa using this
            apply List.mem_append_left
            rw [hoce, e1, e2, e4, hmidv, e3]
            simp
          · exact List.mem_append_right _ (ih5 oc rt r i0b extra hh hne)
      · -- one-index chain, deleted and recorded
        have h1 : (unwrapStep G mems ⟨[V, P], φ, mids, dfs, nid⟩ op).1 = [] := by
          rw [heq]
        have h2 : (unwrapStep G mems ⟨[V, P], φ, mids, dfs, nid⟩ op).2
            = ⟨[V, P], (r0, mids.getD ((getDef defs i0).constant) 0) :: φ,
               mids, dfs, nid⟩ := by rw [heq]
        rw [unwrapPass1_cons, h1, h2]
        have hφ2 : ∀ e ∈ (r0, mids.getD ((getDef defs i0).constant) 0) :: φ,
            bound ≤ e.2 := by
          intro e he
          rcases List.mem_cons.mp he with h' | h'
          · rw [h', hmidv]; omega
          · exact hφ e h'
        obtain ⟨ih1, ih2, ih5⟩ := ih _ hltail hφ2
        refine ⟨?_, ih2, ?_⟩
        · intro op2 hm
          exact ih1 op2 (by simpa using hm)
        · intro oc rt r i0b extra hmem hne
          rcases List.mem_cons.mp hmem with hh | hh
          · exfalso
            have hae : op.args = rt :: r :: V :: i0b :: extra := by rw [← hh]
            obtain ⟨-, -, -, e4⟩ :
                rt0 = rt ∧ r0 = r ∧ i0 = i0b ∧ extra0 = extra := by
              have := hargs.symm.trans hae
              simpa using this
            exact hne (e4 ▸ hex0)
          · simpa using ih5 oc rt r i0b extra hh hne

theorem unwrapPass1_redirect (G P V bound M : Nat) (defs dfs : List Definition)
    (mids : List Nat) (nid : Nat) (mems : List (OptTy × String))
    (hG : 1 ≤ G) (hGb : G < bound) (hP : 1 ≤ P) (hPb : P < bound)
    (hV : 1 ≤ V) (hVb : V < bound)
    (hdfs : ∀ i, i < bound → getDef dfs i = getDef defs i)
    (hmid : ∀ k, k < M → mids.getD k 0 = bound + 2 * k + 1) :
    ∀ (l : List Instr) (φ : List (Nat × Nat)) (r mid : Nat),
      (∀ op ∈ l, okPost G P V bound M defs op = true) →
      (∀ e ∈ φ, bound ≤ e.2) →
      φ.lookup r = some mid →
      (∀ op ∈ l, (op.opcode = opAccessChain ∨ op.opcode = opInBoundsAccessChain) →
        op.args.getD 1 0 ≠ r) →
      (∀ t r2, Instr.mk opLoad [t, r2, r] ∈ l →
        Instr.mk opLoad [t, r2, mid]
          ∈ (unwrapPass1 G mems ⟨[V, P], φ, mids, dfs, nid⟩ l).1) ∧
      (∀ tgt, Instr.mk opCopyMemory [tgt, r] ∈ l →
        Instr.mk opCopyMemory [tgt, mid]
          ∈ (unwrapPass1 G mems ⟨[V, P], φ, mids, dfs, nid⟩ l).1) := by
  intro l
  induction l with
  | nil =>
    intro φ r mid _ _ _ _
    exact ⟨fun t r2 h => absurd h (by simp), fun tgt h => absurd h (by simp)⟩
  | cons op rest ih =>
    intro φ r mid hl hφ hlu huniq
    have hop := hl op (by simp)
    have hstep := unwrapStep_okPost G P V bound M defs dfs mids nid mems φ op hop
      hG hGb hP hPb hV hVb hdfs hφ
    have hltail : ∀ o ∈ rest, okPost G P V bound M defs o = true :=
      fun o ho => hl o (List.mem_cons_of_mem op ho)
    have huniqtail : ∀ o ∈ rest,
        (o.opcode = opAccessChain ∨ o.opcode = opInBoundsAccessChain) →
        o.args.getD 1 0 ≠ r :=
      fun o ho => huniq o (List.mem_cons_of_mem op ho)
    rcases hstep with ⟨heq, havoid, hfam, hvarb, hldn, hcpn⟩ |
      ⟨mid2, hmid2b, havoid, hcase⟩ |
      ⟨rt0, r0, i0, extra0, hargs, hoc, h0nb, h1nb, h3nb, hrnb, hcM, hbr⟩
    · -- untouched instruction
      have h1 : (unwrapStep G mems ⟨[V, P], φ, mids, dfs, nid⟩ op).1 = [op] := by
        rw [heq]
      have h2 : (unwrapStep G mems ⟨[V, P], φ, mids, dfs, nid⟩ op).2
          = ⟨[V, P], φ, mids, dfs, nid⟩ := by rw [heq]
      rw [unwrapPass1_cons, h1, h2]
      have rec := ih φ r mid hltail hφ hlu huniqtail
      refine ⟨?_, ?_⟩
      · intro t r2 hm
        rcases List.mem_cons.mp hm with hh | hh
        · exfalso
          have hopc : op.opcode = opLoad := by rw [← hh]
          have hargse : op.args = [t, r2, r] := by rw [← hh]
          have hnone := hldn hopc
          rw [hargse] at hnone
          rw [show ([t, r2, r] : List Nat).getD 2 0 = r from rfl] at hnone
          exact Option.noConfusion (hlu.symm.trans hnone)
        · exact List.mem_append_right _ (rec.1 t r2 hh)
      · intro tgt hm
        rcases List.mem_cons.mp hm with hh | hh
        · exfalso
          have hopc : op.opcode = opCopyMemory := by rw [← hh]
          have hargse : op.args = [tgt, r] := by rw [← hh]
          have hnone := hcpn hopc
          rw [hargse] at hnone
          rw [show ([tgt, r] : List Nat).getD 1 0 = r from rfl] at hnone
          exact Option.noConfusion (hlu.symm.trans hnone)
        · exact List.mem_append_right _ (rec.2 tgt hh)
    · -- redirected load or copy
      have rec := ih φ r mid hltail hφ hlu huniqtail
      rcases hcase with ⟨h61, hlu2, heq⟩ | ⟨h63, hlu2, heq⟩
      · have h1 : (unwrapStep G mems ⟨[V, P], φ, mids, dfs, nid⟩ op).1
            = [Instr.mk opLoad (op.args.set 2 mid2)] := by rw [heq]
        have h2 : (unwrapStep G mems ⟨[V, P], φ, mids, dfs, nid⟩ op).2
            = ⟨[V, P], φ, mids, dfs, nid⟩ := by rw [heq]
        rw [unwrapPass1_cons, h1, h2]
        refine ⟨?_, ?_⟩
        · intro t r2 hm
          rcases List.mem_cons.mp hm with hh | hh
          · have hargse : op.args = [t, r2, r] := by rw [← hh]
            rw [hargse] at hlu2
            rw [show ([t, r2, r] : List Nat).getD 2 0 = r from rfl] at hlu2
            have hmideq : mid2 = mid :=
              (Option.some.injEq _ _).mp (hlu2.symm.trans hlu)
            apply List.mem_append_left
            rw [hargse, hmideq]
            simp
          · exact List.mem_append_right _ (rec.1 t r2 hh)
        · intro tgt hm
          rcases List.mem_cons.mp hm with hh | hh
          · exfalso
            have hopc : op.opcode = opCopyMemory := by rw [← hh]
            exact absurd (h61.symm.trans hopc) (by decide)
          · exact List.mem_append_right _ (rec.2 tgt hh)
      · have h1 : (unwrapStep G mems ⟨[V, P], φ, mids, dfs, nid⟩ op).1
            = [Instr.mk opCopyMemory (op.args.set 1 mid2)] := by rw [heq]
        have h2 : (unwrapStep G mems ⟨[V, P], φ, mids, dfs, nid⟩ op).2
            = ⟨[V, P], φ, mids, dfs, nid⟩ := by rw [heq]
        rw [unwrapPass1_cons, h1, h2]
        refine ⟨?_, ?_⟩
        · intro t r2 hm
          rcases List.mem_cons.mp hm with hh | hh
          · exfalso
            have hopc : op.opcode = opLoad := by rw [← hh]
            exact absurd (h63.symm.trans hopc) (by decide)
          · exact List.mem_append_right _ (rec.1 t r2 hh)
        · intro tgt hm
          rcases List.mem_cons.mp hm with hh | hh
          · have hargse : op.args = [tgt, r] := by rw [← hh]
            rw [hargse] at hlu2
            rw [show ([tgt, r] : List Nat).getD 1 0 = r from rfl] at hlu2
            have hmideq : mid2 = mid :=
              (Option.some.injEq _ _).mp (hlu2.symm.trans hlu)
            apply List.mem_append_left
            rw [hargse, hmideq]
            simp
          · exact List.mem_append_right _ (rec.2 tgt hh)
    · -- access chain on the deleted variable
      have hocne61 : op.opcode ≠ opLoad := by
        rcases hoc with h | h <;> rw [h] <;> decide
      have hocne63 : op.opcode ≠ opCopyMemory := by
        rcases hoc with h | h <;> rw [h] <;> decide
      rcases hbr with ⟨hne0, heq⟩ | ⟨hex0, heq⟩
      · have h1 : (unwrapStep G mems ⟨[V, P], φ, mids, dfs, nid⟩ op).1
            = [Instr.mk op.opcode
                (rt0 :: r0 :: mids.getD ((getDef defs i0).constant) 0
                  :: extra0)] := by
          rw [heq]
        have h2 : (unwrapStep G mems ⟨[V, P], φ, mids, dfs, nid⟩ op).2
            = ⟨[V, P], φ, mids, dfs, nid⟩ := by rw [heq]
        rw [unwrapPass1_cons, h1, h2]
        have rec := ih φ r mid hltail hφ hlu huniqtail
        refine ⟨?_, ?_⟩
        · intro t r2 hm
          rcases List.mem_cons.mp hm with hh | hh
          · exact absurd (by rw [← hh] : op.opcode = opLoad) hocne61
          · exact List.mem_append_right _ (rec.1 t r2 hh)
        · intro tgt hm
          rcases List.mem_cons.mp hm with hh | hh
          · exact absurd (by rw [← hh] : op.opcode = opCopyMemory) hocne63
          · exact List.mem_append_right _ (rec.2 tgt hh)
      · have h1 : (unwrapStep G mems ⟨[V, P], φ, mids, dfs, nid⟩ op).1 = [] := by
          rw [heq]
        have h2 : (unwrapStep G mems ⟨[V, P], φ, mids, dfs, nid⟩ op).2
            = ⟨[V, P], (r0, mids.getD ((getDef defs i0).constant) 0) :: φ,
               mids, dfs, nid⟩ := by rw [heq]
        rw [unwrapPass1_cons, h1, h2]
        have hr0 : r0 ≠ r := by
          have := huniq op (by simp) hoc
          rw [hargs] at this
          exact this
        have hlu2 : ((r0, mids.getD ((getDef defs i0).constant) 0) :: φ).lookup r
            = some mid := by
          rw [lookup_cons_of_ne _ _ _ _ hr0]
          exact hlu
        have hφ2 : ∀ e ∈ (r0, mids.getD ((getDef defs i0).constant) 0) :: φ,
            bound ≤ e.2 := by
          intro e he
          rcases List.mem_cons.mp he with h' | h'
          · rw [h']
            show bound ≤ mids.getD ((getDef defs i0).constant) 0
            rw [hmid _ hcM]
            omega
          · exact hφ e h'
        have rec := ih _ r mid hltail hφ2 hlu2 huniqtail
        refine ⟨?_, ?_⟩
        · intro t r2 hm
          rcases List.mem_cons.mp hm with hh | hh
          · exact absurd (by rw [← hh] : op.opcode = opLoad) hocne61
          · simpa using rec.1 t r2 hh
        · intro tgt hm
          rcases List.mem_cons.mp hm with hh | hh
          · exact absurd (by rw [← hh] : op.opcode = opCopyMemory) hocne63
          · simpa using rec.2 tgt hh

theorem lookup_cons_self (k v : Nat) (φ : List (Nat × Nat)) :
    ((k, v) :: φ).lookup k = some v := by
  simp [List.lookup]

theorem unwrapPass2_cons (x : Nat) (xs : List Nat) (instrs : List Instr) :
    unwrapPass2 (x :: xs) instrs = instrs.filter (pass2Keep (x :: xs)) := rfl

theorem isNameDecOp_false_parts (oc : Nat) (h : isNameDecOp oc = false) :
    (oc == opName) = false ∧ (oc == opMemberName) = false ∧
    (oc == opDecorate) = false ∧ (oc == opMemberDecorate) = false := by
  unfold isNameDecOp at h
  rcases Bool.or_eq_false_iff.mp h with ⟨h3, h4⟩
  rcases Bool.or_eq_false_iff.mp h3 with ⟨h5, h6⟩
  rcases Bool.or_eq_false_iff.mp h5 with ⟨h1, h2⟩
  exact ⟨h1, h2, h6, h4⟩

theorem pass2Keep_of_not_name (deleted : List Nat) (op : Instr)
    (h : isNameDecOp op.opcode = false) : pass2Keep deleted op = true := by
  obtain ⟨h1, h2, h3, h4⟩ := isNameDecOp_false_parts op.opcode h
  unfold pass2Keep
  rw [h1, h2, h3, h4]
  rfl

theorem expectedBlock_not_name (defs : List Definition) :
    ∀ (ms : List (OptTy × String)) (nid : Nat) (op : Instr),
      op ∈ expectedBlock defs ms nid → isNameDecOp op.opcode = false := by
  intro ms
  induction ms with
  | nil => intro nid op h; exact absurd h (by simp [expectedBlock])
  | cons mp rest ih =>
    obtain ⟨mt, mn⟩ := mp
    intro nid op h
    simp only [expectedBlock] at h
    rcases List.mem_cons.mp h with h' | h'
    · rw [h']; rfl
    rcases List.mem_cons.mp h' with h2 | h2
    · rw [h2]; rfl
    · exact ih (nid + 2) op h2

theorem expectedBlock_avoids (defs : List Definition) (G P V bound : Nat)
    (hG : 1 ≤ G) (hGb : G < bound) (hP : 1 ≤ P) (hPb : P < bound)
    (hV : 1 ≤ V) (hVb : V < bound) :
    ∀ (ms : List (OptTy × String)) (nid : Nat), bound ≤ nid →
      (∀ k, k < ms.length →
        ¬findTypeId defs (ms.getD k (OptTy.none, "")).1
          ∈ ([G, P, V] : List Nat)) →
      ∀ op ∈ expectedBlock defs ms nid, avoidsIds [G, P, V] op = true := by
  have h0nb : ¬(0 : Nat) ∈ ([G, P, V] : List Nat) := by
    intro hmm
    rcases (by simpa using hmm : 0 = G ∨ 0 = P ∨ 0 = V) with h | h | h <;> omega
  intro ms
  induction ms with
  | nil => intro nid _ _ op h; exact absurd h (by simp [expectedBlock])
  | cons mp rest ih =>
    obtain ⟨mt, mn⟩ := mp
    intro nid hnid htid op h
    simp only [expectedBlock] at h
    rcases List.mem_cons.mp h with h' | h'
    · rw [h', avoidsIds_iff]
      intro a ha
      rcases (by simpa using ha :
          a = nid ∨ a = scUniformConstant ∨ a = findTypeId defs mt)
        with h2 | h2 | h2
      · rw [h2]; exact notMem_bad_of_le G P V bound nid hGb hPb hVb hnid
      · rw [h2]; exact h0nb
      · rw [h2]
        have := htid 0 (by simp)
        simpa using this
    rcases List.mem_cons.mp h' with h2 | h2
    · rw [h2, avoidsIds_iff]
      intro a ha
      rcases (by simpa using ha :
          a = nid ∨ a = nid + 1 ∨ a = scUniformConstant) with h3 | h3 | h3
      · rw [h3]; exact notMem_bad_of_le G P V bound nid hGb hPb hVb hnid
      · rw [h3]; exact notMem_bad_of_le G P V bound _ hGb hPb hVb (by omega)
      · rw [h3]; exact h0nb
    · refine ih (nid + 2) (by omega) ?_ op h2
      intro k hk
      have := htid (k + 1) (by simpa using Nat.succ_lt_succ hk)
      simpa using this

theorem expectedBlock_filter_vars (defs : List Definition) (bound : Nat) :
    ∀ (ms : List (OptTy × String)) (nid : Nat), bound ≤ nid →
      (expectedBlock defs ms nid).filter (newVarFilter bound)
        = (List.range ms.length).map (fun k =>
            Instr.mk opVariable
              [nid + 2 * k, nid + 2 * k + 1, scUniformConstant]) := by
  intro ms
  induction ms with
  | nil => intro nid _; rfl
  | cons mp rest ih =>
    obtain ⟨mt, mn⟩ := mp
    intro nid hnid
    simp only [expectedBlock]
    rw [List.filter_cons, List.filter_cons]
    have hptr : newVarFilter bound
        (Instr.mk opTypePointer [nid, scUniformConstant, findTypeId defs mt])
        = false := rfl
    have hvar : newVarFilter bound
        (Instr.mk opVariable [nid, nid + 1, scUniformConstant]) = true := by
      unfold newVarFilter
      have hd : decide
          (bound ≤ (Instr.mk opVariable
            [nid, nid + 1, scUniformConstant]).args.getD 1 0) = true :=
        decide_eq_true (show bound ≤ nid + 1 by omega)
      rw [hd]
      rfl
    rw [hptr, hvar]
    simp only [Bool.false_eq_true, if_false, if_true]
    rw [ih (nid + 2) (by omega)]
    rw [List.length_cons, List.range_succ_eq_map, List.map_cons, List.map_map]
    refine congrArg₂ List.cons (by simp) ?_
    apply List.map_congr_left
    intro k _
    show Instr.mk opVariable
        [nid + 2 + 2 * k, nid + 2 + 2 * k + 1, scUniformConstant]
      = Instr.mk opVariable
        [nid + 2 * (k + 1), nid + 2 * (k + 1) + 1, scUniformConstant]
    rw [show nid + 2 + 2 * k = nid + 2 * (k + 1) by omega]

theorem newVarFilter_of_okPre (G P V bound : Nat) (op : Instr)
    (h : okPre G P V bound op = true) : newVarFilter bound op = false := by
  rcases or3_of_orb h with hcl | hfam | hstr
  · rcases Bool.and_eq_true_iff.mp hcl with ⟨-, hvarok⟩
    unfold newVarFilter
    by_cases h59 : op.opcode = opVariable
    · rcases Bool.or_eq_true_iff.mp hvarok with h' | h'
      · rw [h59] at h'
        exact absurd h' (by decide)
      · have hlt := of_decide_eq_true h'
        rw [decide_eq_false (by omega : ¬bound ≤ op.args.getD 1 0),
          Bool.and_false]
    · rw [beq_eq_false_iff_ne.mpr h59, Bool.false_and]
  · rcases Bool.and_eq_true_iff.mp hfam with ⟨hfl, -⟩
    rcases Bool.and_eq_true_iff.mp hfl with ⟨hf, -⟩
    have hne59 : op.opcode ≠ opVariable := by
      rcases (isNameDecOp_iff op.opcode).mp hf with h' | h' | h' | h' <;>
        rw [h'] <;> decide
    unfold newVarFilter
    rw [beq_eq_false_iff_ne.mpr hne59, Bool.false_and]
  · rcases Bool.and_eq_true_iff.mp hstr with ⟨hsl, -⟩
    rcases Bool.and_eq_true_iff.mp hsl with ⟨hsll, -⟩
    rcases Bool.and_eq_true_iff.mp hsll with ⟨hsb, -⟩
    have hne59 : op.opcode ≠ opVariable := by
      rw [beq_iff_eq.mp hsb]; decide
    unfold newVarFilter
    rw [beq_eq_false_iff_ne.mpr hne59, Bool.false_and]

theorem avoid_of_okPre_kept (G P V bound : Nat) (op : Instr)
    (hG : 1 ≤ G) (hP : 1 ≤ P) (hV : 1 ≤ V)
    (hop : okPre G P V bound op = true) (hk : keepPre G op = true)
    (hp2 : pass2Keep [V, P] op = true) : avoidsIds [G, P, V] op = true := by
  rcases or3_of_orb hop with hcl | hfam | hstr
  · exact (Bool.and_eq_true_iff.mp hcl).1
  · exfalso
    rcases Bool.and_eq_true_iff.mp hfam with ⟨hfl, htgt⟩
    rcases Bool.and_eq_true_iff.mp hfl with ⟨hf, hlenb⟩
    have h1len : decide (1 ≤ op.args.length) = true :=
      decide_eq_true (by have := of_decide_eq_true hlenb; omega)
    rcases or3_of_orb htgt with h0 | h0 | h0
    · -- targets G: killed by the first pass
      unfold keepPre at hk
      rw [h0, hf, h1len] at hk
      exact absurd hk (by simp)
    · -- targets P: killed by the second pass
      unfold pass2Keep at hp2
      have hfam4 := (isNameDecOp_iff op.opcode).mp hf
      have hor : (op.opcode == opName || op.opcode == opDecorate ||
          op.opcode == opMemberName || op.opcode == opMemberDecorate) = true := by
        rcases hfam4 with h' | h' | h' | h' <;> rw [h'] <;> decide
      have hcontP : ([V, P] : List Nat).contains (op.args.getD 0 0) = true := by
        rw [beq_iff_eq.mp h0]
        simp
      rw [hor, hlenb, hcontP] at hp2
      exact absurd hp2 (by simp)
    · -- targets V: killed by the second pass
      unfold pass2Keep at hp2
      have hfam4 := (isNameDecOp_iff op.opcode).mp hf
      have hor : (op.opcode == opName || op.opcode == opDecorate ||
          op.opcode == opMemberName || op.opcode == opMemberDecorate) = true := by
        rcases hfam4 with h' | h' | h' | h' <;> rw [h'] <;> decide
      have hcontV : ([V, P] : List Nat).contains (op.args.getD 0 0) = true := by
        rw [beq_iff_eq.mp h0]
        simp
      rw [hor, hlenb, hcontV] at hp2
      exact absurd hp2 (by simp)
  · exfalso
    rcases Bool.and_eq_true_iff.mp hstr with ⟨hsl, -⟩
    rcases Bool.and_eq_true_iff.mp hsl with ⟨hsll, h0b⟩
    rcases Bool.and_eq_true_iff.mp hsll with ⟨hsb, hlenb⟩
    unfold keepPre at hk
    rw [hsb, hlenb, h0b] at hk
    exact absurd hk (by simp)

theorem unwrapUniformBlock_struct (defs : List Definition) (typeId bound : Nat)
    (instrs : List Instr) (ms : MemberListT)
    (h : (getDef defs typeId).ttype = OptTy.some (ShaderTy.struct ms)) :
    unwrapUniformBlock defs typeId bound instrs
      = (unwrapPass2
          (unwrapPass1 typeId (memberList ms)
            ⟨[], [], List.replicate (memberList ms).length 0, defs, bound⟩
            instrs).2.deleted
          (unwrapPass1 typeId (memberList ms)
            ⟨[], [], List.replicate (memberList ms).length 0, defs, bound⟩
            instrs).1,
         (unwrapPass1 typeId (memberList ms)
           ⟨[], [], List.replicate (memberList ms).length 0, defs, bound⟩
           instrs).2.defs) := by
  unfold unwrapUniformBlock
  rw [h]

theorem okPost_chain_opcode (G P V bound M : Nat) (defs : List Definition)
    (op : Instr) (hop : okPost G P V bound M defs op = true)
    (hVin : V ∈ op.args) :
    op.opcode = opAccessChain ∨ op.opcode = opInBoundsAccessChain := by
  rcases Bool.or_eq_true_iff.mp hop with hclean | hchain
  · exfalso
    have havoid :=
      (Bool.and_eq_true_iff.mp (Bool.and_eq_true_iff.mp hclean).1).1
    exact (avoidsIds_iff _ op).mp havoid V hVin (by simp)
  · have hocb := (Bool.and_eq_true_iff.mp
      (Bool.and_eq_true_iff.mp (Bool.and_eq_true_iff.mp
        (Bool.and_eq_true_iff.mp (Bool.and_eq_true_iff.mp
          (Bool.and_eq_true_iff.mp hchain).1).1).1).1).1).1
    rcases Bool.or_eq_true_iff.mp hocb with h | h
    · exact Or.inl (beq_iff_eq.mp h)
    · exact Or.inr (beq_iff_eq.mp h)

/-- Claim C1: for a module whose definition table holds a struct-type
Definition named "$Global" at ID `G`, with its pointer type `P` and its
variable `V`, and an instruction stream that is well formed around the
block's pointer and variable definitions, unwrapping the uniform block
yields exactly one new uniform-constant `OpVariable` per struct member,
in member order, with IDs `bound + 2k + 1` and matching Definition
entries; leaves no instruction in the output referencing `G`, `P` or
`V`; rewrites every multi-index access chain on the variable to address
member `k`'s new variable directly (dropping the member selector); and
deletes every one-index chain, redirecting the loads and copies that
consumed its result to the member variable. -/
theorem unwrap_uniform_block_spec
    (defs : List Definition) (ms : MemberListT) (A B C : List Instr)
    (G P V bound pclass vclass : Nat)
    (hbound : bound = defs.length)
    (hname : (getDef defs G).name = "$Global")
    (hstruct : (getDef defs G).ttype = OptTy.some (ShaderTy.struct ms))
    (hG1 : 1 ≤ G) (hGb : G < bound) (hP1 : 1 ≤ P) (hPb : P < bound)
    (hV1 : 1 ≤ V) (hVb : V < bound) (hGP : G ≠ P) (hGV : G ≠ V)
    (htid : ∀ k, k < (memberList ms).length →
      0 < findTypeId defs ((memberList ms).getD k (OptTy.none, "")).1 ∧
      ¬findTypeId defs ((memberList ms).getD k (OptTy.none, "")).1
        ∈ ([G, P, V] : List Nat))
    (hA : ∀ op ∈ A, okPre G P V bound op = true)
    (hB : ∀ op ∈ B, okPre G P V bound op = true)
    (hC : ∀ op ∈ C,
      okPost G P V bound (memberList ms).length defs op = true) :
    ((unwrapUniformBlock defs G bound
        (unwrapStream A B C P V G pclass vclass)).1.filter
        (newVarFilter bound)
      = (List.range (memberList ms).length).map (fun k =>
          Instr.mk opVariable
            [bound + 2 * k, bound + 2 * k + 1, scUniformConstant])) ∧
    (∀ k, k < (memberList ms).length →
      getDef (unwrapUniformBlock defs G bound
          (unwrapStream A B C P V G pclass vclass)).2 (bound + 2 * k + 1)
        = varDef ((memberList ms).getD k (OptTy.none, "")).1
            ((memberList ms).getD k (OptTy.none, "")).2) ∧
    (∀ op ∈ (unwrapUniformBlock defs G bound
        (unwrapStream A B C P V G pclass vclass)).1,
      avoidsIds [G, P, V] op = true) ∧
    (∀ oc rt r i0 extra, Instr.mk oc (rt :: r :: V :: i0 :: extra) ∈ C →
      extra ≠ [] →
      Instr.mk oc
          (rt :: r :: (bound + 2 * (getDef defs i0).constant + 1) :: extra)
        ∈ (unwrapUniformBlock defs G bound
            (unwrapStream A B C P V G pclass vclass)).1) ∧
    (∀ oc rt r i0 C1 C2, C = C1 ++ Instr.mk oc [rt, r, V, i0] :: C2 →
      (∀ o ∈ C1 ++ C2,
        (o.opcode = opAccessChain ∨ o.opcode = opInBoundsAccessChain) →
        o.args.getD 1 0 ≠ r) →
      (¬Instr.mk oc [rt, r, V, i0] ∈ (unwrapUniformBlock defs G bound
          (unwrapStream A B C P V G pclass vclass)).1) ∧
      (∀ t r2, Instr.mk opLoad [t, r2, r] ∈ C2 →
        Instr.mk opLoad [t, r2, bound + 2 * (getDef defs i0).constant + 1]
          ∈ (unwrapUniformBlock defs G bound
              (unwrapStream A B C P V G pclass vclass)).1) ∧
      (∀ tgt, Instr.mk opCopyMemory [tgt, r] ∈ C2 →
        Instr.mk opCopyMemory
            [tgt, bound + 2 * (getDef defs i0).constant + 1]
          ∈ (unwrapUniformBlock defs G bound
              (unwrapStream A B C P V G pclass vclass)).1)) := by
  subst hbound
  have hdel0 : ∀ x ∈ ([] : List Nat), x = P :=
    fun x hx => absurd hx (List.not_mem_nil x)
  have hA' := unwrapPass1_okPre G P V defs.length (memberList ms) hG1 hP1 hV1
    hGP hGV A
    ⟨[], [], List.replicate (memberList ms).length 0, defs, defs.length⟩
    hA hdel0 rfl
  have hdelP : ∀ x ∈ ([P] : List Nat), x = P := by
    intro x hx
    simpa using hx
  have hB' := unwrapPass1_okPre G P V defs.length (memberList ms) hG1 hP1 hV1
    hGP hGV B
    ⟨[P], [], List.replicate (memberList ms).length 0, defs, defs.length⟩
    hB hdelP rfl
  have hstepPtr : unwrapStep G (memberList ms)
      ⟨[], [], List.replicate (memberList ms).length 0, defs, defs.length⟩
      (Instr.mk opTypePointer [P, pclass, G])
      = ([], ⟨[P], [], List.replicate (memberList ms).length 0, defs,
          defs.length⟩) := by
    rw [unwrapStep_pointer]
  have hstepVar : unwrapStep G (memberList ms)
      ⟨[P], [], List.replicate (memberList ms).length 0, defs, defs.length⟩
      (Instr.mk opVariable [P, V, vclass])
      = ((genMembers (memberList ms) defs defs.length).1,
         ⟨[V, P], [],
          (genMembers (memberList ms) defs defs.length).2.2.2,
          (genMembers (memberList ms) defs defs.length).2.1,
          (genMembers (memberList ms) defs defs.length).2.2.1⟩) := by
    rw [unwrapStep_variable G P V vclass (memberList ms) _ (by simp)]
  obtain ⟨g1, g2, g3, g4, g5, g6⟩ := genMembers_spec (memberList ms) defs
  obtain ⟨hv1, ⟨φ2, hst2, hφ2⟩, hp5⟩ := unwrapPass1_okPost G P V defs.length
    (memberList ms).length defs
    (genMembers (memberList ms) defs defs.length).2.1
    (genMembers (memberList ms) defs defs.length).2.2.2
    (genMembers (memberList ms) defs defs.length).2.2.1
    (memberList ms) hG1 hGb hP1 hPb hV1 hVb g5 g3 C [] hC (by simp)
  have htot : unwrapPass1 G (memberList ms)
      ⟨[], [], List.replicate (memberList ms).length 0, defs, defs.length⟩
      (unwrapStream A B C P V G pclass vclass)
      = (A.filter (keepPre G)
          ++ (B.filter (keepPre G)
            ++ ((genMembers (memberList ms) defs defs.length).1
              ++ (unwrapPass1 G (memberList ms)
                  ⟨[V, P], [],
                   (genMembers (memberList ms) defs defs.length).2.2.2,
                   (genMembers (memberList ms) defs defs.length).2.1,
                   (genMembers (memberList ms) defs defs.length).2.2.1⟩
                  C).1)),
         (unwrapPass1 G (memberList ms)
            ⟨[V, P], [],
             (genMembers (memberList ms) defs defs.length).2.2.2,
             (genMembers (memberList ms) defs defs.length).2.1,
             (genMembers (memberList ms) defs defs.length).2.2.1⟩ C).2) := by
    unfold unwrapStream
    rw [unwrapPass1_append, hA']
    dsimp only
    rw [unwrapPass1_cons, hstepPtr]
    dsimp only
    rw [unwrapPass1_append, hB']
    dsimp only
    rw [unwrapPass1_cons, hstepVar]
    dsimp only
    rw [List.nil_append]
  have hone : unwrapUniformBlock defs G defs.length
      (unwrapStream A B C P V G pclass vclass)
      = (unwrapPass2 [V, P]
          (A.filter (keepPre G)
            ++ (B.filter (keepPre G)
              ++ ((genMembers (memberList ms) defs defs.length).1
                ++ (unwrapPass1 G (memberList ms)
                    ⟨[V, P], [],
                     (genMembers (memberList ms) defs defs.length).2.2.2,
                     (genMembers (memberList ms) defs defs.length).2.1,
                     (genMembers (memberList ms) defs defs.length).2.2.1⟩
                    C).1))),
         (genMembers (memberList ms) defs defs.length).2.1) := by
    rw [unwrapUniformBlock_struct defs G defs.length _ ms hstruct]
    rw [htot, hst2]
  have hout1 : (unwrapUniformBlock defs G defs.length
      (unwrapStream A B C P V G pclass vclass)).1
      = (A.filter (keepPre G)).filter (pass2Keep [V, P])
        ++ ((B.filter (keepPre G)).filter (pass2Keep [V, P])
          ++ (((genMembers (memberList ms) defs defs.length).1).filter
              (pass2Keep [V, P])
            ++ ((unwrapPass1 G (memberList ms)
                ⟨[V, P], [],
                 (genMembers (memberList ms) defs defs.length).2.2.2,
                 (genMembers (memberList ms) defs defs.length).2.1,
                 (genMembers (memberList ms) defs defs.length).2.2.1⟩
                C).1).filter (pass2Keep [V, P]))) := by
    rw [hone]
    show unwrapPass2 [V, P] _ = _
    rw [unwrapPass2_cons, List.filter_append, List.filter_append,
      List.filter_append]
  have hout2 : (unwrapUniformBlock defs G defs.length
      (unwrapStream A B C P V G pclass vclass)).2
      = (genMembers (memberList ms) defs defs.length).2.1 := by
    rw [hone]
  have havoidAll : ∀ op ∈ (unwrapUniformBlock defs G defs.length
      (unwrapStream A B C P V G pclass vclass)).1,
      avoidsIds [G, P, V] op = true := by
    rw [hout1]
    intro op hm
    rcases List.mem_append.mp hm with h | h
    · obtain ⟨h1, h2⟩ := List.mem_filter.mp h
      obtain ⟨h3, h4⟩ := List.mem_filter.mp h1
      exact avoid_of_okPre_kept G P V defs.length op hG1 hP1 hV1 (hA op h3)
        h4 h2
    rcases List.mem_append.mp h with h | h
    · obtain ⟨h1, h2⟩ := List.mem_filter.mp h
      obtain ⟨h3, h4⟩ := List.mem_filter.mp h1
      exact avoid_of_okPre_kept G P V defs.length op hG1 hP1 hV1 (hB op h3)
        h4 h2
    rcases List.mem_append.mp h with h | h
    · obtain ⟨h1, -⟩ := List.mem_filter.mp h
      rw [g1] at h1
      exact expectedBlock_avoids defs G P V defs.length hG1 hGb hP1 hPb hV1
        hVb (memberList ms) defs.length (le_refl _)
        (fun k hk => (htid k hk).2) op h1
    · obtain ⟨h1, -⟩ := List.mem_filter.mp h
      exact (hv1 op h1).1
  refine ⟨?_, ?_, havoidAll, ?_, ?_⟩
  · -- exactly the member variables survive the new-variable filter
    rw [hout1, List.filter_append, List.filter_append, List.filter_append]
    have eA : ((A.filter (keepPre G)).filter (pass2Keep [V, P])).filter
        (newVarFilter defs.length) = [] := by
      rw [List.filter_eq_nil_iff]
      intro a ha
      obtain ⟨h1, -⟩ := List.mem_filter.mp ha
      obtain ⟨h3, -⟩ := List.mem_filter.mp h1
      rw [newVarFilter_of_okPre G P V defs.length a (hA a h3)]
      simp
    have eB : ((B.filter (keepPre G)).filter (pass2Keep [V, P])).filter
        (newVarFilter defs.length) = [] := by
      rw [List.filter_eq_nil_iff]
      intro a ha
      obtain ⟨h1, -⟩ := List.mem_filter.mp ha
      obtain ⟨h3, -⟩ := List.mem_filter.mp h1
      rw [newVarFilter_of_okPre G P V defs.length a (hB a h3)]
      simp
    have eBlock : (((genMembers (memberList ms) defs defs.length).1).filter
          (pass2Keep [V, P])).filter (newVarFilter defs.length)
        = (List.range (memberList ms).length).map (fun k =>
            Instr.mk opVariable
              [defs.length + 2 * k, defs.length + 2 * k + 1,
               scUniformConstant]) := by
      have hkeepAll : ((genMembers (memberList ms) defs defs.length).1).filter
          (pass2Keep [V, P])
          = (genMembers (memberList ms) defs defs.length).1 := by
        rw [List.filter_eq_self]
        intro a ha
        rw [g1] at ha
        exact pass2Keep_of_not_name _ a
          (expectedBlock_not_name defs (memberList ms) defs.length a ha)
      rw [hkeepAll, g1]
      exact expectedBlock_filter_vars defs defs.length (memberList ms)
        defs.length (le_refl _)
    have eC : (((unwrapPass1 G (memberList ms)
        ⟨[V, P], [],
         (genMembers (memberList ms) defs defs.length).2.2.2,
         (genMembers (memberList ms) defs defs.length).2.1,
         (genMembers (memberList ms) defs defs.length).2.2.1⟩
        C).1).filter (pass2Keep [V, P])).filter
        (newVarFilter defs.length) = [] := by
      rw [List.filter_eq_nil_iff]
      intro a ha
      obtain ⟨h1, -⟩ := List.mem_filter.mp ha
      intro hcon
      rw [show newVarFilter defs.length a
          = (a.opcode == opVariable
              && decide (defs.length ≤ a.args.getD 1 0)) from rfl,
        (hv1 a h1).2.2] at hcon
      exact absurd hcon (by decide)
    rw [eA, eB, eBlock, eC]
    simp
  · -- the new Definition entries
    intro k hk
    rw [hout2]
    exact g6 k hk
  · -- multi-index chains are rewritten in place
    intro oc rt r i0 extra hmem hne
    have hoc := okPost_chain_opcode G P V defs.length
      (memberList ms).length defs _ (hC _ hmem) (by simp)
    have hmemOut := hp5 oc rt r i0 extra hmem hne
    rw [hout1]
    refine List.mem_append_right _ (List.mem_append_right _
      (List.mem_append_right _ (List.mem_filter.mpr ⟨hmemOut, ?_⟩)))
    apply pass2Keep_of_not_name
    show isNameDecOp oc = false
    rcases hoc with h | h <;> rw [show oc = _ from h] <;> decide
  · -- one-index chains are deleted and their consumers redirected
    intro oc rt r i0 C1 C2 hdecomp huniq
    refine ⟨fun hmem =>
      (avoidsIds_iff _ _).mp (havoidAll _ hmem) V (by simp) (by simp), ?_⟩
    subst hdecomp
    have hC1 : ∀ o ∈ C1,
        okPost G P V defs.length (memberList ms).length defs o = true :=
      fun o ho => hC o (List.mem_append_left _ ho)
    have hch := hC (Instr.mk oc [rt, r, V, i0])
      (List.mem_append_right _ (by simp))
    have hC2 : ∀ o ∈ C2,
        okPost G P V defs.length (memberList ms).length defs o = true :=
      fun o ho => hC o (List.mem_append_right _ (List.mem_cons_of_mem _ ho))
    obtain ⟨-, ⟨φ1, hst1, hφ1⟩, -⟩ := unwrapPass1_okPost G P V defs.length
      (memberList ms).length defs
      (genMembers (memberList ms) defs defs.length).2.1
      (genMembers (memberList ms) defs defs.length).2.2.2
      (genMembers (memberList ms) defs defs.length).2.2.1
      (memberList ms) hG1 hGb hP1 hPb hV1 hVb g5 g3 C1 [] hC1 (by simp)
    have hstepCh := unwrapStep_okPost G P V defs.length
      (memberList ms).length defs
      (genMembers (memberList ms) defs defs.length).2.1
      (genMembers (memberList ms) defs defs.length).2.2.2
      (genMembers (memberList ms) defs defs.length).2.2.1
      (memberList ms) φ1 (Instr.mk oc [rt, r, V, i0]) hch
      hG1 hGb hP1 hPb hV1 hVb g5 hφ1
    rcases hstepCh with ⟨-, havoid2, -, -, -, -⟩ | ⟨mid2, -, havoid2, -⟩ |
      ⟨rt0, r0, i0b, extra0, hargs, -, -, -, -, -, hcMc, hbr⟩
    · exact absurd (by simp : V ∈ ([G, P, V] : List Nat))
        ((avoidsIds_iff _ _).mp havoid2 V (by simp))
    · exact absurd (by simp : V ∈ ([G, P, V] : List Nat))
        ((avoidsIds_iff _ _).mp havoid2 V (by simp))
    obtain ⟨e1, e2, e3, e4⟩ : rt0 = rt ∧ r0 = r ∧ i0b = i0 ∧ extra0 = [] := by
      have h := hargs.symm
      simpa using h
    rcases hbr with ⟨hne0, -⟩ | ⟨-, heqstep⟩
    · exact absurd e4 hne0
    rw [e2, e3] at heqstep
    have hk : (getDef defs i0).constant < (memberList ms).length := by
      rw [← e3]
      exact hcMc
    have hval : (genMembers (memberList ms) defs defs.length).2.2.2.getD
        ((getDef defs i0).constant) 0
        = defs.length + 2 * (getDef defs i0).constant + 1 := g3 _ hk
    have hφnew : ∀ e ∈ (r, (genMembers (memberList ms) defs
        defs.length).2.2.2.getD ((getDef defs i0).constant) 0) :: φ1,
        defs.length ≤ e.2 := by
      intro e he
      rcases List.mem_cons.mp he with h' | h'
      · rw [h']
        show defs.length ≤ (genMembers (memberList ms) defs
          defs.length).2.2.2.getD ((getDef defs i0).constant) 0
        rw [hval]
        omega
      · exact hφ1 e h'
    have huniq2 : ∀ o ∈ C2,
        (o.opcode = opAccessChain ∨ o.opcode = opInBoundsAccessChain) →
        o.args.getD 1 0 ≠ r :=
      fun o ho => huniq o (List.mem_append_right _ ho)
    have hred := unwrapPass1_redirect G P V defs.length
      (memberList ms).length defs
      (genMembers (memberList ms) defs defs.length).2.1
      (genMembers (memberList ms) defs defs.length).2.2.2
      (genMembers (memberList ms) defs defs.length).2.2.1
      (memberList ms) hG1 hGb hP1 hPb hV1 hVb g5 g3 C2 _ r
      ((genMembers (memberList ms) defs defs.length).2.2.2.getD
        ((getDef defs i0).constant) 0) hC2 hφnew (lookup_cons_self _ _ _)
      huniq2
    have houtC : (unwrapPass1 G (memberList ms)
        ⟨[V, P], [],
         (genMembers (memberList ms) defs defs.length).2.2.2,
         (genMembers (memberList ms) defs defs.length).2.1,
         (genMembers (memberList ms) defs defs.length).2.2.1⟩
        (C1 ++ Instr.mk oc [rt, r, V, i0] :: C2)).1
        = (unwrapPass1 G (memberList ms)
            ⟨[V, P], [],
             (genMembers (memberList ms) defs defs.length).2.2.2,
             (genMembers (memberList ms) defs defs.length).2.1,
             (genMembers (memberList ms) defs defs.length).2.2.1⟩ C1).1
          ++ (unwrapPass1 G (memberList ms)
              ⟨[V, P],
               (r, (genMembers (memberList ms) defs
                 defs.length).2.2.2.getD ((getDef defs i0).constant) 0) :: φ1,
               (genMembers (memberList ms) defs defs.length).2.2.2,
               (genMembers (memberList ms) defs defs.length).2.1,
               (genMembers (memberList ms) defs defs.length).2.2.1⟩ C2).1 := by
      rw [unwrapPass1_append, hst1]
      dsimp only
      rw [unwrapPass1_cons, heqstep]
      dsimp only
      rw [List.nil_append]
    refine ⟨?_, ?_⟩
    · intro t r2 hm2
      have hin := hred.1 t r2 hm2
      rw [hout1, ← hval]
      refine List.mem_append_right _ (List.mem_append_right _
        (List.mem_append_right _ (List.mem_filter.mpr ⟨?_, ?_⟩)))
      · rw [houtC]
        exact List.mem_append_right _ hin
      · exact pass2Keep_of_not_name _ _ rfl
    · intro tgt hm2
      have hin := hred.2 tgt hm2
      rw [hout1, ← hval]
      refine List.mem_append_right _ (List.mem_append_right _
        (List.mem_append_right _ (List.mem_filter.mpr ⟨?_, ?_⟩)))
      · rw [houtC]
        exact List.mem_append_right _ hin
      · exact pass2Keep_of_not_name _ _ rfl

/-- Witness for the unwrapping theorem: on the concrete example module
the two member variables appear with IDs 7 and 9, the multi-index chain
is shortened onto member 1's variable, the one-index chain disappears
and its load and copy are redirected, and member 0's Definition is the
named uniform-constant float variable. -/
theorem unwrap_uniform_block_spec_witness :
    ((unwrapUniformBlock exUwDefs 1 6
        (unwrapStream [Instr.mk opName [1, 100]] [] exUwC 2 3 1 2 2)).1.filter
        (newVarFilter 6)
      = [Instr.mk opVariable [6, 7, scUniformConstant],
         Instr.mk opVariable [8, 9, scUniformConstant]]) ∧
    Instr.mk opAccessChain [10, 11, 9, 7]
      ∈ (unwrapUniformBlock exUwDefs 1 6
          (unwrapStream [Instr.mk opName [1, 100]] [] exUwC 2 3 1 2 2)).1 ∧
    (¬Instr.mk opInBoundsAccessChain [12, 13, 3, 5]
      ∈ (unwrapUniformBlock exUwDefs 1 6
          (unwrapStream [Instr.mk opName [1, 100]] [] exUwC 2 3 1 2 2)).1) ∧
    Instr.mk opLoad [4, 14, 9]
      ∈ (unwrapUniformBlock exUwDefs 1 6
          (unwrapStream [Instr.mk opName [1, 100]] [] exUwC 2 3 1 2 2)).1 ∧
    Instr.mk opCopyMemory [15, 9]
      ∈ (unwrapUniformBlock exUwDefs 1 6
          (unwrapStream [Instr.mk opName [1, 100]] [] exUwC 2 3 1 2 2)).1 ∧
    getDef (unwrapUniformBlock exUwDefs 1 6
        (unwrapStream [Instr.mk opName [1, 100]] [] exUwC 2 3 1 2 2)).2 7
      = varDef (OptTy.some ShaderTy.float) "a" := by
  have h := unwrap_uniform_block_spec exUwDefs exUwMs
    [Instr.mk opName [1, 100]] [] exUwC 1 2 3 6 2 2
    (by decide) rfl rfl
    (by decide) (by decide) (by decide) (by decide) (by decide) (by decide)
    (by decide) (by decide) (by decide) (by decide) (by decide) (by decide)
  have h3b := h.2.2.2.2 opInBoundsAccessChain 12 13 5
    [Instr.mk opAccessChain [10, 11, 3, 5, 7]]
    [Instr.mk opLoad [4, 14, 13], Instr.mk opCopyMemory [15, 13]]
    rfl (by decide)
  refine ⟨h.1.trans rfl, ?_, h3b.1, h3b.2.1 4 14 (by decide),
    h3b.2.2 15 (by decide), h.2.1 0 (by decide)⟩
  exact h.2.2.2.1 opAccessChain 10 11 5 [7] (by decide) (by decide)

end SpirV
